import Mathlib

/-!
# Tile World: reading the keyboard (oshw-sdl2/sdlin.c)

A shallow embedding of the key-state tracker, the mouse-state tracker and the
command resolver of `sdlin.c`, followed by theorems about them.

Conventions of the embedding.

* The file-scope variables of `sdlin.c` (`keystates`, `mouseinfo`,
  `joystickstyle`, `keycmds`, `mergeable`) are the fields of `State`; each C
  function becomes a function on the variables it touches.
* `keystates` is a function from scan codes to key states; the array itself is
  its restriction to the indices below `SDL_NUM_SCANCODES`.
* A C `int` used as a truth value is a `Bool`; the command identifiers are
  natural numbers; scan codes delivered by the event source and the
  shift/ctl/alt requirements are integers.
* The value returned by `retrievemousecommand` and by `input` is an `int`, an
  integer here: the identifiers of the table are returned as they are, and the
  one sum the code forms, `CmdAbsMouseMoveFirst + n`, is formed in 32 bits.
* An access outside an array has no defined result: the function returns `none`.
-/

namespace Sdlin

/-! ## Constants of the SDL2 headers -/

/-- Size of the scan code table (SDL_scancode.h). -/
abbrev SDL_NUM_SCANCODES : Nat := 512

abbrev SDL_SCANCODE_A : Nat := 4
abbrev SDL_SCANCODE_B : Nat := 5
abbrev SDL_SCANCODE_C : Nat := 6
abbrev SDL_SCANCODE_D : Nat := 7
abbrev SDL_SCANCODE_E : Nat := 8
abbrev SDL_SCANCODE_F : Nat := 9
abbrev SDL_SCANCODE_G : Nat := 10
abbrev SDL_SCANCODE_H : Nat := 11
abbrev SDL_SCANCODE_I : Nat := 12
abbrev SDL_SCANCODE_J : Nat := 13
abbrev SDL_SCANCODE_K : Nat := 14
abbrev SDL_SCANCODE_L : Nat := 15
abbrev SDL_SCANCODE_M : Nat := 16
abbrev SDL_SCANCODE_N : Nat := 17
abbrev SDL_SCANCODE_O : Nat := 18
abbrev SDL_SCANCODE_P : Nat := 19
abbrev SDL_SCANCODE_Q : Nat := 20
abbrev SDL_SCANCODE_R : Nat := 21
abbrev SDL_SCANCODE_S : Nat := 22
abbrev SDL_SCANCODE_T : Nat := 23
abbrev SDL_SCANCODE_U : Nat := 24
abbrev SDL_SCANCODE_V : Nat := 25
abbrev SDL_SCANCODE_W : Nat := 26
abbrev SDL_SCANCODE_X : Nat := 27
abbrev SDL_SCANCODE_Y : Nat := 28
abbrev SDL_SCANCODE_Z : Nat := 29
abbrev SDL_SCANCODE_RETURN : Nat := 40
abbrev SDL_SCANCODE_ESCAPE : Nat := 41
abbrev SDL_SCANCODE_BACKSPACE : Nat := 42
abbrev SDL_SCANCODE_TAB : Nat := 43
abbrev SDL_SCANCODE_SPACE : Nat := 44
abbrev SDL_SCANCODE_CAPSLOCK : Nat := 57
abbrev SDL_SCANCODE_F1 : Nat := 58
abbrev SDL_SCANCODE_F4 : Nat := 61
abbrev SDL_SCANCODE_F10 : Nat := 67
abbrev SDL_SCANCODE_HOME : Nat := 74
abbrev SDL_SCANCODE_PAGEUP : Nat := 75
abbrev SDL_SCANCODE_PAGEDOWN : Nat := 78
abbrev SDL_SCANCODE_RIGHT : Nat := 79
abbrev SDL_SCANCODE_LEFT : Nat := 80
abbrev SDL_SCANCODE_DOWN : Nat := 81
abbrev SDL_SCANCODE_UP : Nat := 82
abbrev SDL_SCANCODE_NUMLOCKCLEAR : Nat := 83
abbrev SDL_SCANCODE_KP_ENTER : Nat := 88
abbrev SDL_SCANCODE_KP_2 : Nat := 90
abbrev SDL_SCANCODE_KP_4 : Nat := 92
abbrev SDL_SCANCODE_KP_6 : Nat := 94
abbrev SDL_SCANCODE_KP_8 : Nat := 96
abbrev SDL_SCANCODE_LCTRL : Nat := 224
abbrev SDL_SCANCODE_LSHIFT : Nat := 225
abbrev SDL_SCANCODE_LALT : Nat := 226
abbrev SDL_SCANCODE_LGUI : Nat := 227
abbrev SDL_SCANCODE_RCTRL : Nat := 228
abbrev SDL_SCANCODE_RSHIFT : Nat := 229
abbrev SDL_SCANCODE_RALT : Nat := 230
abbrev SDL_SCANCODE_RGUI : Nat := 231
abbrev SDL_SCANCODE_MODE : Nat := 257

/-- The primary mouse button (SDL_mouse.h). -/
abbrev SDL_BUTTON_LEFT : Int := 1

/-! ## Command identifiers -/

/-- The command identifiers of `defs.h` that `sdlin.c` refers to. Their numeric
values are not fixed by `sdlin.c`; they are a parameter of the development. -/
structure Cmds where
  CmdNorth : Nat
  CmdWest : Nat
  CmdSouth : Nat
  CmdEast : Nat
  CmdKeyMoveLast : Nat
  CmdAbsMouseMoveFirst : Nat
  CmdPreserve : Nat
  CmdQuitLevel : Nat
  CmdPrevLevel : Nat
  CmdSameLevel : Nat
  CmdNextLevel : Nat
  CmdGotoLevel : Nat
  CmdQuit : Nat
  CmdPrev10 : Nat
  CmdPrev : Nat
  CmdSame : Nat
  CmdNext : Nat
  CmdNext10 : Nat
  CmdPauseGame : Nat
  CmdHelp : Nat
  CmdStepping : Nat
  CmdSubStepping : Nat
  CmdRndSlideDir : Nat
  CmdPlayback : Nat
  CmdCheckSolution : Nat
  CmdReplSolution : Nat
  CmdKillSolution : Nat
  CmdSeeScores : Nat
  CmdSeeSolutionFiles : Nat
  CmdVolumeUp : Nat
  CmdVolumeDown : Nat
  CmdProceed : Nat
  CmdDebugCmd1 : Nat
  CmdDebugCmd2 : Nat
  CmdCheatNorth : Nat
  CmdCheatWest : Nat
  CmdCheatSouth : Nat
  CmdCheatEast : Nat
  CmdCheatHome : Nat
  CmdCheatStuff : Nat

/-- A concrete numbering of the command identifiers, used to evaluate the
definitions on concrete inputs: the four direction commands are the single bits
1, 2, 4 and 8, `CmdKeyMoveLast` is their union, and the other identifiers are
numbered consecutively above the absolute mouse-move range. -/
def sampleCmds : Cmds where
  CmdNorth := 1
  CmdWest := 2
  CmdSouth := 4
  CmdEast := 8
  CmdKeyMoveLast := 15
  CmdAbsMouseMoveFirst := 512
  CmdPreserve := 2000
  CmdQuitLevel := 2001
  CmdPrevLevel := 2002
  CmdSameLevel := 2003
  CmdNextLevel := 2004
  CmdGotoLevel := 2005
  CmdQuit := 2006
  CmdPrev10 := 2007
  CmdPrev := 2008
  CmdSame := 2009
  CmdNext := 2010
  CmdNext10 := 2011
  CmdPauseGame := 2012
  CmdHelp := 2013
  CmdStepping := 2014
  CmdSubStepping := 2015
  CmdRndSlideDir := 2016
  CmdPlayback := 2017
  CmdCheckSolution := 2018
  CmdReplSolution := 2019
  CmdKillSolution := 2020
  CmdSeeScores := 2021
  CmdSeeSolutionFiles := 2022
  CmdVolumeUp := 2023
  CmdVolumeDown := 2024
  CmdProceed := 2025
  CmdDebugCmd1 := 2026
  CmdDebugCmd2 := 2027
  CmdCheatNorth := 2028
  CmdCheatWest := 2029
  CmdCheatSouth := 2030
  CmdCheatEast := 2031
  CmdCheatHome := 2032
  CmdCheatStuff := 2033

/-! ## Data model -/

/-- Structure describing a mapping of a key event to a game command. -/
structure keycmdmap where
  /-- the key's scan code -/
  scancode : Nat
  /-- the shift key's state: positive if it must be down, zero if it must be
  up, negative if it does not matter -/
  shift : Int
  /-- the ctrl key's state -/
  ctl : Int
  /-- the alt keys' state -/
  alt : Int
  /-- the command -/
  cmd : Nat
  /-- TRUE for repeating joystick-mode keys -/
  hold : Bool
  deriving DecidableEq, Repr

/-- The possible states of keys. -/
inductive KeyState where
  /-- key is not currently pressed (value 0) -/
  | KS_OFF
  /-- key is down (shift-type keys only) -/
  | KS_ON
  /-- key is being held down -/
  | KS_DOWN
  /-- key was pressed and released in one tick -/
  | KS_STRUCK
  /-- key was pressed in this tick -/
  | KS_PRESSED
  /-- key has been down since the previous tick -/
  | KS_DOWNBUTOFF1
  /-- key has been down since two ticks ago -/
  | KS_DOWNBUTOFF2
  /-- key has been down since three ticks ago -/
  | KS_DOWNBUTOFF3
  /-- key is down and is now repeating -/
  | KS_REPEATING
  deriving DecidableEq, Repr

open KeyState

/-- Structure describing mouse activity. -/
structure mouseaction where
  /-- state of mouse action (KS_*) -/
  state : KeyState
  /-- position of the mouse -/
  x : Int
  y : Int
  /-- which button generated the event -/
  button : Int
  deriving DecidableEq, Repr

/-- The complete list of key commands recognized by the game while playing,
with its terminating all-zero entry. -/
def gamekeycmds (c : Cmds) : List keycmdmap :=
  [ ⟨SDL_SCANCODE_UP,        0,  0,  0, c.CmdNorth,            true⟩,
    ⟨SDL_SCANCODE_LEFT,      0,  0,  0, c.CmdWest,             true⟩,
    ⟨SDL_SCANCODE_DOWN,      0,  0,  0, c.CmdSouth,            true⟩,
    ⟨SDL_SCANCODE_RIGHT,     0,  0,  0, c.CmdEast,             true⟩,
    ⟨SDL_SCANCODE_KP_8,      0,  0,  0, c.CmdNorth,            true⟩,
    ⟨SDL_SCANCODE_KP_4,      0,  0,  0, c.CmdWest,             true⟩,
    ⟨SDL_SCANCODE_KP_2,      0,  0,  0, c.CmdSouth,            true⟩,
    ⟨SDL_SCANCODE_KP_6,      0,  0,  0, c.CmdEast,             true⟩,
    ⟨SDL_SCANCODE_Q,         0,  0,  0, c.CmdQuitLevel,        false⟩,
    ⟨SDL_SCANCODE_P,         0,  1,  0, c.CmdPrevLevel,        false⟩,
    ⟨SDL_SCANCODE_R,         0,  1,  0, c.CmdSameLevel,        false⟩,
    ⟨SDL_SCANCODE_N,         0,  1,  0, c.CmdNextLevel,        false⟩,
    ⟨SDL_SCANCODE_G,         0, -1,  0, c.CmdGotoLevel,        false⟩,
    ⟨SDL_SCANCODE_Q,         1,  0,  0, c.CmdQuit,             false⟩,
    ⟨SDL_SCANCODE_PAGEUP,   -1, -1,  0, c.CmdPrev10,           false⟩,
    ⟨SDL_SCANCODE_P,         0,  0,  0, c.CmdPrev,             false⟩,
    ⟨SDL_SCANCODE_R,         0,  0,  0, c.CmdSame,             false⟩,
    ⟨SDL_SCANCODE_N,         0,  0,  0, c.CmdNext,             false⟩,
    ⟨SDL_SCANCODE_PAGEDOWN, -1, -1,  0, c.CmdNext10,           false⟩,
    ⟨SDL_SCANCODE_BACKSPACE, -1, -1, 0, c.CmdPauseGame,        false⟩,
    ⟨SDL_SCANCODE_F1,       -1, -1,  0, c.CmdHelp,             false⟩,
    ⟨SDL_SCANCODE_O,         0,  0,  0, c.CmdStepping,         false⟩,
    ⟨SDL_SCANCODE_O,         1,  0,  0, c.CmdSubStepping,      false⟩,
    ⟨SDL_SCANCODE_F,         0,  0,  0, c.CmdRndSlideDir,      false⟩,
    ⟨SDL_SCANCODE_TAB,       0, -1,  0, c.CmdPlayback,         false⟩,
    ⟨SDL_SCANCODE_TAB,       1, -1,  0, c.CmdCheckSolution,    false⟩,
    ⟨SDL_SCANCODE_X,         0,  1,  0, c.CmdReplSolution,     false⟩,
    ⟨SDL_SCANCODE_X,         1,  1,  0, c.CmdKillSolution,     false⟩,
    ⟨SDL_SCANCODE_S,         0,  0,  0, c.CmdSeeScores,        false⟩,
    ⟨SDL_SCANCODE_S,         0,  1,  0, c.CmdSeeSolutionFiles, false⟩,
    ⟨SDL_SCANCODE_V,         1,  0,  0, c.CmdVolumeUp,         false⟩,
    ⟨SDL_SCANCODE_V,         0,  0,  0, c.CmdVolumeDown,       false⟩,
    ⟨SDL_SCANCODE_RETURN,   -1, -1,  0, c.CmdProceed,          false⟩,
    ⟨SDL_SCANCODE_KP_ENTER, -1, -1,  0, c.CmdProceed,          false⟩,
    ⟨SDL_SCANCODE_SPACE,    -1, -1,  0, c.CmdProceed,          false⟩,
    ⟨SDL_SCANCODE_D,         0,  0,  0, c.CmdDebugCmd1,        false⟩,
    ⟨SDL_SCANCODE_D,         1,  0,  0, c.CmdDebugCmd2,        false⟩,
    ⟨SDL_SCANCODE_UP,        1,  0,  0, c.CmdCheatNorth,       true⟩,
    ⟨SDL_SCANCODE_LEFT,      1,  0,  0, c.CmdCheatWest,        true⟩,
    ⟨SDL_SCANCODE_DOWN,      1,  0,  0, c.CmdCheatSouth,       true⟩,
    ⟨SDL_SCANCODE_RIGHT,     1,  0,  0, c.CmdCheatEast,        true⟩,
    ⟨SDL_SCANCODE_HOME,      1,  0,  0, c.CmdCheatHome,        false⟩,
    ⟨SDL_SCANCODE_F10,       0,  0,  0, c.CmdCheatStuff,       false⟩,
    ⟨SDL_SCANCODE_F4,        0,  0,  1, c.CmdQuit,             false⟩,
    ⟨0, 0, 0, 0, 0, false⟩ ]

/-- The list of key commands recognized when the program is obtaining input
from the user, with its terminating all-zero entry. -/
def inputkeycmds (c : Cmds) : List keycmdmap :=
  [ ⟨SDL_SCANCODE_UP,        -1, -1, 0, c.CmdNorth,     false⟩,
    ⟨SDL_SCANCODE_LEFT,      -1, -1, 0, c.CmdWest,      false⟩,
    ⟨SDL_SCANCODE_DOWN,      -1, -1, 0, c.CmdSouth,     false⟩,
    ⟨SDL_SCANCODE_RIGHT,     -1, -1, 0, c.CmdEast,      false⟩,
    ⟨SDL_SCANCODE_BACKSPACE, -1, -1, 0, c.CmdWest,      false⟩,
    ⟨SDL_SCANCODE_SPACE,     -1, -1, 0, c.CmdEast,      false⟩,
    ⟨SDL_SCANCODE_RETURN,    -1, -1, 0, c.CmdProceed,   false⟩,
    ⟨SDL_SCANCODE_KP_ENTER,  -1, -1, 0, c.CmdProceed,   false⟩,
    ⟨SDL_SCANCODE_ESCAPE,    -1, -1, 0, c.CmdQuitLevel, false⟩,
    ⟨SDL_SCANCODE_A, -1, 0, 0, Char.toNat 'a', false⟩,
    ⟨SDL_SCANCODE_B, -1, 0, 0, Char.toNat 'b', false⟩,
    ⟨SDL_SCANCODE_C, -1, 0, 0, Char.toNat 'c', false⟩,
    ⟨SDL_SCANCODE_D, -1, 0, 0, Char.toNat 'd', false⟩,
    ⟨SDL_SCANCODE_E, -1, 0, 0, Char.toNat 'e', false⟩,
    ⟨SDL_SCANCODE_F, -1, 0, 0, Char.toNat 'f', false⟩,
    ⟨SDL_SCANCODE_G, -1, 0, 0, Char.toNat 'g', false⟩,
    ⟨SDL_SCANCODE_H, -1, 0, 0, Char.toNat 'h', false⟩,
    ⟨SDL_SCANCODE_I, -1, 0, 0, Char.toNat 'i', false⟩,
    ⟨SDL_SCANCODE_J, -1, 0, 0, Char.toNat 'j', false⟩,
    ⟨SDL_SCANCODE_K, -1, 0, 0, Char.toNat 'k', false⟩,
    ⟨SDL_SCANCODE_L, -1, 0, 0, Char.toNat 'l', false⟩,
    ⟨SDL_SCANCODE_M, -1, 0, 0, Char.toNat 'm', false⟩,
    ⟨SDL_SCANCODE_N, -1, 0, 0, Char.toNat 'n', false⟩,
    ⟨SDL_SCANCODE_O, -1, 0, 0, Char.toNat 'o', false⟩,
    ⟨SDL_SCANCODE_P, -1, 0, 0, Char.toNat 'p', false⟩,
    ⟨SDL_SCANCODE_Q, -1, 0, 0, Char.toNat 'q', false⟩,
    ⟨SDL_SCANCODE_R, -1, 0, 0, Char.toNat 'r', false⟩,
    ⟨SDL_SCANCODE_S, -1, 0, 0, Char.toNat 's', false⟩,
    ⟨SDL_SCANCODE_T, -1, 0, 0, Char.toNat 't', false⟩,
    ⟨SDL_SCANCODE_U, -1, 0, 0, Char.toNat 'u', false⟩,
    ⟨SDL_SCANCODE_V, -1, 0, 0, Char.toNat 'v', false⟩,
    ⟨SDL_SCANCODE_W, -1, 0, 0, Char.toNat 'w', false⟩,
    ⟨SDL_SCANCODE_X, -1, 0, 0, Char.toNat 'x', false⟩,
    ⟨SDL_SCANCODE_Y, -1, 0, 0, Char.toNat 'y', false⟩,
    ⟨SDL_SCANCODE_Z, -1, 0, 0, Char.toNat 'z', false⟩,
    ⟨SDL_SCANCODE_F4, 0, 0, 1, c.CmdQuit, false⟩,
    ⟨0, 0, 0, 0, 0, false⟩ ]

/-- The file-scope variables of `sdlin.c`. -/
structure State where
  /-- the complete array of key states -/
  keystates : Nat → KeyState
  /-- the last mouse action -/
  mouseinfo : mouseaction
  /-- TRUE if direction keys are to be treated as always repeating -/
  joystickstyle : Bool
  /-- the current map of key commands -/
  keycmds : List keycmdmap
  /-- a map of keys that can be held down simultaneously to produce multiple
  commands -/
  mergeable : Nat → Nat

/-- The variables as the C program starts: static storage is zeroed,
`joystickstyle` is FALSE and `keycmds` points to `gamekeycmds`. -/
def initialState (c : Cmds) : State where
  keystates := fun _ => KS_OFF
  mouseinfo := ⟨KS_OFF, 0, 0, 0⟩
  joystickstyle := false
  keycmds := gamekeycmds c
  mergeable := fun _ => 0

/-! ## Running the keyboard's state machine -/

/-- The case labels of the switch in `_keyeventcallback`: the shift-type keys,
which are always either on or off. -/
def shifttype (scancode : Int) : Bool :=
  scancode = SDL_SCANCODE_LSHIFT || scancode = SDL_SCANCODE_RSHIFT
  || scancode = SDL_SCANCODE_LCTRL || scancode = SDL_SCANCODE_RCTRL
  || scancode = SDL_SCANCODE_LALT || scancode = SDL_SCANCODE_RALT
  || scancode = SDL_SCANCODE_LGUI || scancode = SDL_SCANCODE_RGUI
  || scancode = SDL_SCANCODE_NUMLOCKCLEAR || scancode = SDL_SCANCODE_CAPSLOCK
  || scancode = SDL_SCANCODE_MODE

/-- This callback is called whenever the state of any keyboard key changes. It
records this change in the keystates array. In the default branch the only
guard is `scancode < SDL_NUM_SCANCODES`; a negative scan code passes it and
indexes the array out of bounds, which has no defined result. -/
def _keyeventcallback (keystates : Nat → KeyState) (scancode : Int) (down : Bool) :
    Option (Nat → KeyState) :=
  if shifttype scancode then
    some (Function.update keystates scancode.toNat (if down then KS_ON else KS_OFF))
  else if scancode < SDL_NUM_SCANCODES then
    if scancode < 0 then none
    else if down then
      some (Function.update keystates scancode.toNat
        (if keystates scancode.toNat = KS_OFF then KS_PRESSED else KS_REPEATING))
    else
      some (Function.update keystates scancode.toNat
        (if keystates scancode.toNat = KS_PRESSED then KS_STRUCK else KS_OFF))
  else some keystates

/-- Initialize (or re-initialize) all key states. `keyboard` is the array
returned by `SDL_GetKeyboardState`, its length the returned count. -/
def restartkeystates (keystates : Nat → KeyState) (keyboard : List Bool) :
    Option (Nat → KeyState) :=
  let cleared : Nat → KeyState :=
    fun n => if n < SDL_NUM_SCANCODES then KS_OFF else keystates n
  let count := if keyboard.length > SDL_NUM_SCANCODES then SDL_NUM_SCANCODES
    else keyboard.length
  (List.range count).foldlM
    (fun ks n => if keyboard.getD n false then _keyeventcallback ks n true else some ks)
    cleared

/-- The transition table for keys in joystick behavior mode. -/
def joystick_trans : KeyState → KeyState
  | KS_OFF => KS_OFF
  | KS_ON => KS_ON
  | KS_DOWN => KS_DOWN
  | KS_STRUCK => KS_OFF
  | KS_PRESSED => KS_DOWN
  | KS_DOWNBUTOFF1 => KS_DOWN
  | KS_DOWNBUTOFF2 => KS_DOWN
  | KS_DOWNBUTOFF3 => KS_DOWN
  | KS_REPEATING => KS_DOWN

/-- The transition table for keys in keyboard behavior mode. -/
def keyboard_trans : KeyState → KeyState
  | KS_OFF => KS_OFF
  | KS_ON => KS_ON
  | KS_DOWN => KS_DOWN
  | KS_STRUCK => KS_OFF
  | KS_PRESSED => KS_DOWNBUTOFF1
  | KS_DOWNBUTOFF1 => KS_DOWNBUTOFF2
  | KS_DOWNBUTOFF2 => KS_DOWN
  | KS_DOWNBUTOFF3 => KS_DOWN
  | KS_REPEATING => KS_DOWN

/-- Update the key states. This is done at the start of each polling cycle. -/
def resetkeystates (joystickstyle : Bool) (keystates : Nat → KeyState) : Nat → KeyState :=
  let newstate := if joystickstyle then joystick_trans else keyboard_trans
  fun n => if n < SDL_NUM_SCANCODES then newstate (keystates n) else keystates n

/-! ## Mouse event functions -/

/-- This callback is called whenever there is a state change in the mouse
buttons. Up events are ignored. Down events are stored to be examined later. -/
def _mouseeventcallback (mouseinfo : mouseaction) (xpos ypos button : Int) (down : Bool) :
    mouseaction :=
  if down then ⟨KS_PRESSED, xpos, ypos, button⟩ else mouseinfo

/-- The largest value of the type `int`, which has 32 bits. -/
def INT_MAX : Int := 2147483647

/-- The value that an addition in the type `int` leaves for the exact sum `x`:
`x` itself when it lies between -2147483648 and `INT_MAX`, and otherwise `x`
reduced modulo 2^32 into that range (the two's-complement result; the C
standard leaves the overflowing sum undefined). -/
def intwrap (x : Int) : Int :=
  (x + 2147483648) % 4294967296 - 2147483648

/-- Return the command appropriate to the most recent mouse activity, together
with the updated mouse action. `windowmappos` is the external function mapping
a window position to a map index (negative if there is none). The function
returns an `int`, and the sum `CmdAbsMouseMoveFirst + n` is formed in `int`. -/
def retrievemousecommand (c : Cmds) (windowmappos : Int → Int → Int)
    (mouseinfo : mouseaction) : Int × mouseaction :=
  match mouseinfo.state with
  | KS_PRESSED =>
    if mouseinfo.button = SDL_BUTTON_LEFT then
      let n := windowmappos mouseinfo.x mouseinfo.y
      if n ≥ 0 then
        (intwrap (c.CmdAbsMouseMoveFirst + n), { mouseinfo with state := KS_DOWNBUTOFF1 })
      else (0, { mouseinfo with state := KS_OFF })
    else (0, { mouseinfo with state := KS_OFF })
  | KS_DOWNBUTOFF1 => (c.CmdPreserve, { mouseinfo with state := KS_DOWNBUTOFF2 })
  | KS_DOWNBUTOFF2 => (c.CmdPreserve, { mouseinfo with state := KS_DOWNBUTOFF3 })
  | KS_DOWNBUTOFF3 => (c.CmdPreserve, { mouseinfo with state := KS_OFF })
  | _ => (0, mouseinfo)

/-! ## The event source -/

/-- An event delivered by the event source to one of the two callbacks. -/
inductive Event where
  | key (scancode : Int) (down : Bool)
  | mouse (xpos ypos button : Int) (down : Bool)
  deriving DecidableEq, Repr

/-- Deliver one event to its callback. -/
def deliver (st : State) : Event → Option State
  | .key scancode down =>
    match _keyeventcallback st.keystates scancode down with
    | none => none
    | some ks => some { st with keystates := ks }
  | .mouse xpos ypos button down =>
    some { st with mouseinfo := _mouseeventcallback st.mouseinfo xpos ypos button down }

/-- Modelled from the spec: `eventupdate` (the event pump, an external
collaborator of `sdlin.c`) drains the queued hardware events, invoking the
keyboard and mouse callbacks synchronously, once per event and in order.
`events` are the events one call of the pump delivers. -/
def eventupdate (st : State) (events : List Event) : Option State :=
  events.foldlM deliver st

/-! ## Exported functions -/

/-- The test of the scan loop of `anykey`: the key is struck, pressed or
repeating. -/
def anykeyhit (k : KeyState) : Bool :=
  k = KS_STRUCK || k = KS_PRESSED || k = KS_REPEATING

/-- The scan loop of `anykey` from index `n` on, `fuel` being the number of
indices left up to `SDL_NUM_SCANCODES`: at the first key that is struck,
pressed or repeating the function returns whether that key is neither `'q'`
nor the escape key; `none` if the loop ends without finding one. -/
def anykeyscan (keystates : Nat → KeyState) : Nat → Nat → Option Bool
  | 0, _ => none
  | fuel + 1, n =>
    if anykeyhit (keystates n) then
      some (n ≠ Char.toNat 'q' && n ≠ SDL_SCANCODE_ESCAPE)
    else anykeyscan keystates fuel (n + 1)

/-- The `for (;;)` loop of `anykey`: each round updates the key states, pumps
the event source (blocking) and scans all keys. `pumps` lists the events that
the successive calls of the pump deliver; `none` when they are exhausted before
a key is found (the function is still blocked). -/
def anykeyloop (st : State) : List (List Event) → Option (Bool × State)
  | [] => none
  | events :: pumps =>
    match eventupdate
        { st with keystates := resetkeystates st.joystickstyle st.keystates } events with
    | none => none
    | some st1 =>
      match anykeyscan st1.keystates SDL_NUM_SCANCODES 0 with
      | some r => some (r, st1)
      | none => anykeyloop st1 pumps

/-- Wait for any non-shift key to be pressed down, ignoring any keys that may
be down at the time the function is called. Return FALSE if the key pressed is
suggestive of a desire to quit. `first` are the events of the initial
non-blocking pump. -/
def anykey (st : State) (first : List Event) (pumps : List (List Event)) :
    Option (Bool × State) :=
  match eventupdate
      { st with keystates := resetkeystates st.joystickstyle st.keystates } first with
  | none => none
  | some st0 => anykeyloop st0 pumps

/-- The value of `keystates[l] || keystates[r]`: 1 if either key has a
non-zero state, 0 otherwise. -/
def eitherdown (keystates : Nat → KeyState) (l r : Nat) : Int :=
  if keystates l ≠ KS_OFF ∨ keystates r ≠ KS_OFF then 1 else 0

/-- How the scan of the command table in `input` ends: with a `return` from
inside the loop, or at the terminating entry with the values of `cmd1`, `cmd`
and `lingerflag`. -/
inductive Scan where
  | ret (cmd : Nat)
  | done (cmd1 cmd : Nat) (lingerflag : Bool)
  deriving DecidableEq, Repr

/-- The loop `for (kc = keycmds; kc->scancode; ++kc)` of `input`. -/
def scankeys (c : Cmds) (joystickstyle : Bool) (mergeable : Nat → Nat)
    (keystates : Nat → KeyState) : List keycmdmap → Nat → Nat → Bool → Scan
  | [], cmd1, cmd, lingerflag => .done cmd1 cmd lingerflag
  | kc :: rest, cmd1, cmd, lingerflag =>
    if kc.scancode = 0 then .done cmd1 cmd lingerflag
    else
      let n := keystates kc.scancode
      if n = KS_OFF then
        scankeys c joystickstyle mergeable keystates rest cmd1 cmd lingerflag
      else if kc.shift ≠ -1
          ∧ kc.shift ≠ eitherdown keystates SDL_SCANCODE_LSHIFT SDL_SCANCODE_RSHIFT then
        scankeys c joystickstyle mergeable keystates rest cmd1 cmd lingerflag
      else if kc.ctl ≠ -1
          ∧ kc.ctl ≠ eitherdown keystates SDL_SCANCODE_LCTRL SDL_SCANCODE_RCTRL then
        scankeys c joystickstyle mergeable keystates rest cmd1 cmd lingerflag
      else if kc.alt ≠ -1
          ∧ kc.alt ≠ eitherdown keystates SDL_SCANCODE_LALT SDL_SCANCODE_RALT then
        scankeys c joystickstyle mergeable keystates rest cmd1 cmd lingerflag
      else if n = KS_PRESSED ∨ (kc.hold = true ∧ n = KS_DOWN) then
        if cmd1 = 0 then
          if joystickstyle = false ∨ kc.cmd > c.CmdKeyMoveLast ∨ mergeable kc.cmd = 0 then
            .ret kc.cmd
          else scankeys c joystickstyle mergeable keystates rest kc.cmd cmd lingerflag
        else if cmd1 ≤ c.CmdKeyMoveLast ∧ (mergeable cmd1 &&& kc.cmd) = kc.cmd then
          .ret (cmd1 ||| kc.cmd)
        else scankeys c joystickstyle mergeable keystates rest cmd1 cmd lingerflag
      else if n = KS_STRUCK ∨ n = KS_REPEATING then
        scankeys c joystickstyle mergeable keystates rest cmd1 kc.cmd lingerflag
      else if n = KS_DOWNBUTOFF1 ∨ n = KS_DOWNBUTOFF2 then
        scankeys c joystickstyle mergeable keystates rest cmd1 cmd true
      else scankeys c joystickstyle mergeable keystates rest cmd1 cmd lingerflag

/-- How one round of the `for (;;)` loop of `input` ends: with a `return`, or
by reaching the test of `wait` with the values of `cmd` and `lingerflag`. -/
inductive Round where
  | ret (cmd : Int) (st : State)
  | tail (cmd : Int) (lingerflag : Bool) (st : State)

/-- The part of one round of `input` that follows the event pump: the scan of
the command table, then the `return`s of `cmd1`, `cmd` and the mouse command. -/
def resolve (c : Cmds) (windowmappos : Int → Int → Int) (st : State) (lingerflag : Bool) :
    Round :=
  match scankeys c st.joystickstyle st.mergeable st.keystates st.keycmds 0 0 lingerflag with
  | .ret cmd => .ret (cmd : Int) st
  | .done cmd1 cmd lingerflag1 =>
    if cmd1 ≠ 0 then .ret (cmd1 : Int) st
    else if cmd ≠ 0 then .ret (cmd : Int) st
    else
      let r := retrievemousecommand c windowmappos st.mouseinfo
      if r.1 ≠ 0 then .ret r.1 { st with mouseinfo := r.2 }
      else .tail r.1 lingerflag1 { st with mouseinfo := r.2 }

/-- The `for (;;)` loop of `input` and the statements after it. `events` are
the events delivered by the pump of the first round, `pumps` those of the
following rounds; `none` when `wait` is TRUE and the pumps are exhausted before
a command is found (the function is still blocked). -/
def inputloop (c : Cmds) (windowmappos : Int → Int → Int) (wait : Bool) (st : State)
    (lingerflag : Bool) (events : List Event) (pumps : List (List Event)) :
    Option (Int × State) :=
  match eventupdate
      { st with keystates := resetkeystates st.joystickstyle st.keystates } events with
  | none => none
  | some st1 =>
    match resolve c windowmappos st1 lingerflag with
    | .ret cmd st2 => some (cmd, st2)
    | .tail cmd lingerflag1 st2 =>
      if wait then
        match pumps with
        | [] => none
        | events1 :: pumps1 => inputloop c windowmappos wait st2 lingerflag1 events1 pumps1
      else some (if cmd = 0 ∧ lingerflag1 = true then (c.CmdPreserve : Int) else cmd, st2)

/-- Poll the keyboard and return the command associated with the selected key,
if any, together with the updated variables. -/
def input (c : Cmds) (windowmappos : Int → Int → Int) (wait : Bool) (st : State)
    (events : List Event) (pumps : List (List Event)) : Option (Int × State) :=
  inputloop c windowmappos wait st false events pumps

/-- Turn joystick behavior mode on or off. `keyboard` is the physical state of
the keys as `SDL_GetKeyboardState` reports it. -/
def setkeyboardarrowsrepeat (st : State) (enable : Bool) (keyboard : List Bool) :
    Option State :=
  match restartkeystates st.keystates keyboard with
  | none => none
  | some ks => some { st with joystickstyle := enable, keystates := ks }

/-- Turn input mode on or off. When input mode is on, the input key command
map is used instead of the game key command map. -/
def setkeyboardinputmode (c : Cmds) (st : State) (enable : Bool) : State :=
  { st with keycmds := if enable then inputkeycmds c else gamekeycmds c }

/-- Initialization: the two chained assignments to `mergeable` (each chain
assigns its right-hand element first). -/
def _sdlinputinitialize (c : Cmds) (st : State) : State :=
  let m1 := Function.update st.mergeable c.CmdSouth (c.CmdWest ||| c.CmdEast)
  let m2 := Function.update m1 c.CmdNorth (c.CmdWest ||| c.CmdEast)
  let m3 := Function.update m2 c.CmdEast (c.CmdNorth ||| c.CmdSouth)
  let m4 := Function.update m3 c.CmdWest (c.CmdNorth ||| c.CmdSouth)
  { st with mergeable := m4 }

/-! ## Evaluation on concrete inputs -/

/-- No window position maps to a map index. -/
def nomap : Int → Int → Int := fun _ _ => -1

/-- The key-state table in which the listed scan codes have the given states
and every other key is off. -/
def keysOf (l : List (Nat × KeyState)) : Nat → KeyState :=
  fun n => match l.find? (fun p => p.1 = n) with
    | some p => p.2
    | none => KS_OFF

/-- The variables after initialization, with the given key states and repeat
style and with the game key command map. -/
def stateOf (c : Cmds) (joystickstyle : Bool) (keystates : Nat → KeyState) : State :=
  { _sdlinputinitialize c (initialState c) with
    keystates := keystates, joystickstyle := joystickstyle }

/-! ## Notions used in the statements -/

/-- The modifier-class keys as the specification lists them: shift, control,
alt, caps-lock, num-lock and mode-switch. -/
def specmodifier (scancode : Int) : Bool :=
  scancode = SDL_SCANCODE_LSHIFT || scancode = SDL_SCANCODE_RSHIFT
  || scancode = SDL_SCANCODE_LCTRL || scancode = SDL_SCANCODE_RCTRL
  || scancode = SDL_SCANCODE_LALT || scancode = SDL_SCANCODE_RALT
  || scancode = SDL_SCANCODE_CAPSLOCK || scancode = SDL_SCANCODE_NUMLOCKCLEAR
  || scancode = SDL_SCANCODE_MODE

/-- The modifier-class keys of the amended statements: the keys the
specification lists and, besides them, the left and right GUI keys. -/
def modifierclass (scancode : Int) : Bool :=
  specmodifier scancode
  || scancode = SDL_SCANCODE_LGUI || scancode = SDL_SCANCODE_RGUI

/-- The array `SDL_GetKeyboardState` returns when exactly the listed keys are
physically down. -/
def keyboardOf (l : List Nat) : List Bool :=
  (List.range SDL_NUM_SCANCODES).map (fun n => decide (n ∈ l))

/-- The commands returned by `k` successive calls of `retrievemousecommand`,
and the mouse action they leave. -/
def takes (c : Cmds) (windowmappos : Int → Int → Int) :
    Nat → mouseaction → List Int × mouseaction
  | 0, mouseinfo => ([], mouseinfo)
  | k + 1, mouseinfo =>
    let r := retrievemousecommand c windowmappos mouseinfo
    let rs := takes c windowmappos k r.2
    (r.1 :: rs.1, rs.2)

/-- The commands returned by successive calls `input(FALSE)`, one per element
of `ticks`, the element being the events that the pump of that call delivers. -/
def polls (c : Cmds) (windowmappos : Int → Int → Int) : State → List (List Event) →
    Option (List Int)
  | _, [] => some []
  | st, events :: ticks =>
    match input c windowmappos false st events [] with
    | none => none
    | some r => (polls c windowmappos r.2 ticks).map (fun cmds => r.1 :: cmds)

/-- The shift, ctrl and alt requirements of a table entry are met. -/
def modsmet (keystates : Nat → KeyState) (kc : keycmdmap) : Prop :=
  (kc.shift = -1 ∨ kc.shift = eitherdown keystates SDL_SCANCODE_LSHIFT SDL_SCANCODE_RSHIFT)
  ∧ (kc.ctl = -1 ∨ kc.ctl = eitherdown keystates SDL_SCANCODE_LCTRL SDL_SCANCODE_RCTRL)
  ∧ (kc.alt = -1 ∨ kc.alt = eitherdown keystates SDL_SCANCODE_LALT SDL_SCANCODE_RALT)

instance (keystates : Nat → KeyState) (kc : keycmdmap) : Decidable (modsmet keystates kc) := by
  unfold modsmet; infer_instance

/-- A table entry is asserted: its requirements are met and its key is pressed,
or down with the hold flag set. -/
def asserted (keystates : Nat → KeyState) (kc : keycmdmap) : Prop :=
  modsmet keystates kc ∧
    (keystates kc.scancode = KS_PRESSED ∨ (kc.hold = true ∧ keystates kc.scancode = KS_DOWN))

instance (keystates : Nat → KeyState) (kc : keycmdmap) : Decidable (asserted keystates kc) := by
  unfold asserted; infer_instance

/-- A table entry yields a fallback command: its requirements are met and its
key is struck or repeating. -/
def fallback (keystates : Nat → KeyState) (kc : keycmdmap) : Prop :=
  modsmet keystates kc ∧
    (keystates kc.scancode = KS_STRUCK ∨ keystates kc.scancode = KS_REPEATING)

instance (keystates : Nat → KeyState) (kc : keycmdmap) : Decidable (fallback keystates kc) := by
  unfold fallback; infer_instance

/-- A table entry lingers: its requirements are met and its key is in the
first or second tick after the press. -/
def lingers (keystates : Nat → KeyState) (kc : keycmdmap) : Prop :=
  modsmet keystates kc ∧
    (keystates kc.scancode = KS_DOWNBUTOFF1 ∨ keystates kc.scancode = KS_DOWNBUTOFF2)

instance (keystates : Nat → KeyState) (kc : keycmdmap) : Decidable (lingers keystates kc) := by
  unfold lingers; infer_instance

/-- The entries of a command table before its terminating entry. -/
def entries (table : List keycmdmap) : List keycmdmap :=
  table.takeWhile (fun kc => decide (kc.scancode ≠ 0))

/-- A table entry is inert: it is neither asserted, nor a fallback, nor
lingering, so the scan passes over it. -/
def inert (keystates : Nat → KeyState) (kc : keycmdmap) : Prop :=
  ¬ asserted keystates kc ∧ ¬ fallback keystates kc ∧ ¬ lingers keystates kc

/-- The assumptions made on the direction commands of `defs.h`: they are
non-zero key-move commands (at most `CmdKeyMoveLast`), and neither vertical
command equals a horizontal one. -/
def dircmds (c : Cmds) : Prop :=
  (c.CmdNorth ≠ 0 ∧ c.CmdWest ≠ 0 ∧ c.CmdSouth ≠ 0 ∧ c.CmdEast ≠ 0)
  ∧ (c.CmdNorth ≤ c.CmdKeyMoveLast ∧ c.CmdWest ≤ c.CmdKeyMoveLast
    ∧ c.CmdSouth ≤ c.CmdKeyMoveLast ∧ c.CmdEast ≤ c.CmdKeyMoveLast)
  ∧ (c.CmdNorth ≠ c.CmdWest ∧ c.CmdNorth ≠ c.CmdEast
    ∧ c.CmdSouth ≠ c.CmdWest ∧ c.CmdSouth ≠ c.CmdEast)

instance (c : Cmds) : Decidable (dircmds c) := by
  unfold dircmds; infer_instance

/-- The vertical arrow keys with their direction commands. -/
def verticalkeys (c : Cmds) : List (Nat × Nat) :=
  [(SDL_SCANCODE_UP, c.CmdNorth), (SDL_SCANCODE_DOWN, c.CmdSouth)]

/-- The horizontal arrow keys with their direction commands. -/
def horizontalkeys (c : Cmds) : List (Nat × Nat) :=
  [(SDL_SCANCODE_LEFT, c.CmdWest), (SDL_SCANCODE_RIGHT, c.CmdEast)]

/-- The four arrow keys. -/
def arrowkeys : List Nat :=
  [SDL_SCANCODE_UP, SDL_SCANCODE_LEFT, SDL_SCANCODE_DOWN, SDL_SCANCODE_RIGHT]

/-- A key is held as the scan sees it: pressed in this tick, or down. -/
def held (k : KeyState) : Prop := k = KS_PRESSED ∨ k = KS_DOWN

instance (k : KeyState) : Decidable (held k) := by
  unfold held; infer_instance

/-- The shift, ctrl and alt keys are all off. -/
def modsoff (keystates : Nat → KeyState) : Prop :=
  keystates SDL_SCANCODE_LSHIFT = KS_OFF ∧ keystates SDL_SCANCODE_RSHIFT = KS_OFF
  ∧ keystates SDL_SCANCODE_LCTRL = KS_OFF ∧ keystates SDL_SCANCODE_RCTRL = KS_OFF
  ∧ keystates SDL_SCANCODE_LALT = KS_OFF ∧ keystates SDL_SCANCODE_RALT = KS_OFF

instance (keystates : Nat → KeyState) : Decidable (modsoff keystates) := by
  unfold modsoff; infer_instance

/-- The state in which `input` pumps the event source: the key states have
been updated by `resetkeystates`. -/
def ticked (st : State) : State :=
  { st with keystates := resetkeystates st.joystickstyle st.keystates }

/-- Every key other than `key` and the shift-type keys is off. -/
def alone (keystates : Nat → KeyState) (key : Nat) : Prop :=
  ∀ n, n ≠ key → shifttype n = false → keystates n = KS_OFF

/-- The shift, ctrl and alt keys are each on or off. -/
def modssteady (keystates : Nat → KeyState) : Prop :=
  ∀ n ∈ [SDL_SCANCODE_LSHIFT, SDL_SCANCODE_RSHIFT, SDL_SCANCODE_LCTRL, SDL_SCANCODE_RCTRL,
    SDL_SCANCODE_LALT, SDL_SCANCODE_RALT], keystates n = KS_ON ∨ keystates n = KS_OFF

instance (keystates : Nat → KeyState) : Decidable (modssteady keystates) := by
  unfold modssteady; infer_instance

/-- The scan code and the shift, ctrl and alt requirements of a table entry. -/
def binding (kc : keycmdmap) : Nat × Int × Int × Int := (kc.scancode, kc.shift, kc.ctl, kc.alt)

/-- Two bindings of one key that cannot both have their requirements met: some
requirement is definite in both and differs. -/
def conflict (a b : Nat × Int × Int × Int) : Prop :=
  a.1 = b.1 →
    (a.2.1 ≠ -1 ∧ b.2.1 ≠ -1 ∧ a.2.1 ≠ b.2.1) ∨ (a.2.2.1 ≠ -1 ∧ b.2.2.1 ≠ -1 ∧ a.2.2.1 ≠ b.2.2.1)
    ∨ (a.2.2.2 ≠ -1 ∧ b.2.2.2 ≠ -1 ∧ a.2.2.2 ≠ b.2.2.2)

instance (a b : Nat × Int × Int × Int) : Decidable (conflict a b) := by
  unfold conflict; infer_instance

/-- A command table is well formed: its keys are ordinary (not shift-type) keys
of the key-state table, and no two entries of one key can both have their
requirements met. -/
def wellformed (table : List keycmdmap) : Prop :=
  ((entries table).map binding).Pairwise conflict
  ∧ ∀ b ∈ (entries table).map binding, shifttype b.1 = false ∧ b.1 < SDL_NUM_SCANCODES

/-- The command `input(FALSE)` answers for a table entry whose key is the only
active one, by the state of the key at the scan. -/
def answer (c : Cmds) (kc : keycmdmap) : KeyState → Nat
  | KS_PRESSED => kc.cmd
  | KS_DOWN => if kc.hold then kc.cmd else 0
  | KS_STRUCK => kc.cmd
  | KS_REPEATING => kc.cmd
  | KS_DOWNBUTOFF1 => c.CmdPreserve
  | KS_DOWNBUTOFF2 => c.CmdPreserve
  | _ => 0

/-- The table entry `kc` is bound to the only active key, its key is in state
`s`, its requirements are met, the shift, ctrl and alt keys are each on or off
and no mouse action is pending; the current table is well formed. -/
def solo (st : State) (kc : keycmdmap) (s : KeyState) : Prop :=
  (wellformed st.keycmds ∧ kc ∈ entries st.keycmds)
  ∧ alone st.keystates kc.scancode ∧ st.keystates kc.scancode = s
  ∧ modsmet st.keystates kc ∧ modssteady st.keystates ∧ st.mouseinfo.state = KS_OFF

/-- The transition table selected by the style flag. -/
def trans (joystickstyle : Bool) : KeyState → KeyState :=
  if joystickstyle then joystick_trans else keyboard_trans

/-- The states the specification gives for a key held under keyboard-style
repeat, by the number of ticks since the press was observed. -/
def holdstate : Nat → KeyState
  | 0 => KS_PRESSED
  | 1 => KS_DOWNBUTOFF1
  | 2 => KS_DOWNBUTOFF2
  | _ => KS_DOWN

/-- Example state: keyboard style, game table, the up arrow pressed in the
previous tick. -/
def lingerExample : State :=
  stateOf sampleCmds false (keysOf [(SDL_SCANCODE_UP, KS_PRESSED)])

/-- Example state at the scan: `lingerExample` after `resetkeystates` and a
press and release of Q delivered by one pump. -/
def struckExample : State :=
  { ticked lingerExample with
    keystates := Function.update
      (Function.update (ticked lingerExample).keystates SDL_SCANCODE_Q KS_PRESSED)
      SDL_SCANCODE_Q KS_STRUCK }

/-! ## Notions used in the statements of the later claims -/

/-- The transitions the specification lists for keyboard-style `advance_tick`. -/
def keyboardpairs : List (KeyState × KeyState) :=
  [(KS_PRESSED, KS_DOWNBUTOFF1), (KS_DOWNBUTOFF1, KS_DOWNBUTOFF2), (KS_DOWNBUTOFF2, KS_DOWN),
    (KS_DOWNBUTOFF3, KS_DOWN), (KS_STRUCK, KS_OFF), (KS_DOWN, KS_DOWN), (KS_ON, KS_ON),
    (KS_OFF, KS_OFF)]

/-- The transitions the specification lists for joystick-style `advance_tick`. -/
def joystickpairs : List (KeyState × KeyState) :=
  [(KS_PRESSED, KS_DOWN), (KS_DOWNBUTOFF1, KS_DOWN), (KS_DOWNBUTOFF2, KS_DOWN),
    (KS_DOWNBUTOFF3, KS_DOWN), (KS_REPEATING, KS_DOWN), (KS_STRUCK, KS_OFF), (KS_OFF, KS_OFF),
    (KS_ON, KS_ON), (KS_DOWN, KS_DOWN)]

/-- An operation of the key-state tracker: a key event (`_keyeventcallback`),
the update at the start of a polling cycle under one of the two repeat styles
(`resetkeystates`), or a re-initialization against the physical state of the
keys (`restartkeystates`). -/
inductive Op where
  | event (scancode : Int) (down : Bool)
  | tick (joystickstyle : Bool)
  | restart (keyboard : List Bool)

/-- Apply one operation to the key-state table. -/
def applyOp (keystates : Nat → KeyState) : Op → Option (Nat → KeyState)
  | .event scancode down => _keyeventcallback keystates scancode down
  | .tick joystickstyle => some (resetkeystates joystickstyle keystates)
  | .restart keyboard => restartkeystates keystates keyboard

/-- Apply a sequence of operations, in order. -/
def runOps (keystates : Nat → KeyState) (ops : List Op) : Option (Nat → KeyState) :=
  ops.foldlM applyOp keystates

/-- The all-off table the program starts with. -/
def alloff : Nat → KeyState := fun _ => KS_OFF

/-- The state-class invariant of the key-state table: a shift-type key is on
or off, any other key is never on, and no key is in `KS_DOWNBUTOFF3`. -/
def classinv (keystates : Nat → KeyState) : Prop :=
  ∀ n : Nat, (shifttype n = true → keystates n = KS_ON ∨ keystates n = KS_OFF)
    ∧ (shifttype n = false → keystates n ≠ KS_ON) ∧ keystates n ≠ KS_DOWNBUTOFF3

/-- The aggregate state of a modifier as the specification words it: down (1)
exactly when the left or the right physical key is on. -/
def aggregate (keystates : Nat → KeyState) (l r : Nat) : Int :=
  if keystates l = KS_ON ∨ keystates r = KS_ON then 1 else 0

/-- The requirements of a table entry are met in the words of the
specification: each is don't-care (-1) or equal to the aggregate state of its
modifier. -/
def specmet (keystates : Nat → KeyState) (kc : keycmdmap) : Prop :=
  (kc.shift = -1 ∨ kc.shift = aggregate keystates SDL_SCANCODE_LSHIFT SDL_SCANCODE_RSHIFT)
  ∧ (kc.ctl = -1 ∨ kc.ctl = aggregate keystates SDL_SCANCODE_LCTRL SDL_SCANCODE_RCTRL)
  ∧ (kc.alt = -1 ∨ kc.alt = aggregate keystates SDL_SCANCODE_LALT SDL_SCANCODE_RALT)

instance (keystates : Nat → KeyState) (kc : keycmdmap) : Decidable (specmet keystates kc) := by
  unfold specmet; infer_instance

/-- What the scan loop of `input` does with an entry that it considers, that
is after the test of the key state and the three modifier tests. -/
def considered (c : Cmds) (joystickstyle : Bool) (mergeable : Nat → Nat)
    (keystates : Nat → KeyState) (kc : keycmdmap) (rest : List keycmdmap)
    (cmd1 cmd : Nat) (lingerflag : Bool) : Scan :=
  let n := keystates kc.scancode
  if n = KS_PRESSED ∨ (kc.hold = true ∧ n = KS_DOWN) then
    if cmd1 = 0 then
      if joystickstyle = false ∨ kc.cmd > c.CmdKeyMoveLast ∨ mergeable kc.cmd = 0 then
        .ret kc.cmd
      else scankeys c joystickstyle mergeable keystates rest kc.cmd cmd lingerflag
    else if cmd1 ≤ c.CmdKeyMoveLast ∧ (mergeable cmd1 &&& kc.cmd) = kc.cmd then
      .ret (cmd1 ||| kc.cmd)
    else scankeys c joystickstyle mergeable keystates rest cmd1 cmd lingerflag
  else if n = KS_STRUCK ∨ n = KS_REPEATING then
    scankeys c joystickstyle mergeable keystates rest cmd1 kc.cmd lingerflag
  else if n = KS_DOWNBUTOFF1 ∨ n = KS_DOWNBUTOFF2 then
    scankeys c joystickstyle mergeable keystates rest cmd1 cmd true
  else scankeys c joystickstyle mergeable keystates rest cmd1 cmd lingerflag

/-- The last entry of a list, in list order, that yields a fallback command. -/
def lastfallback (keystates : Nat → KeyState) (l : List keycmdmap) : Option keycmdmap :=
  l.reverse.find? (fun e => decide (fallback keystates e))

/-- The fallback command after a list has been scanned: the command of its
last fallback entry, or the previous value `cmd` if it has none. -/
def fallbackcmd (keystates : Nat → KeyState) (l : List keycmdmap) (cmd : Nat) : Nat :=
  match lastfallback keystates l with
  | some f => f.cmd
  | none => cmd

/-- What the scan loop did besides computing its result: whether it returned
from the merge branch, and the indices at which it read `mergeable`, the latest
first. -/
structure Trace where
  result : Scan
  merged : Bool
  lookups : List Nat

/-- The scan loop of `input` once more, recording in addition whether it
returns from the merge branch (`return cmd1 | kc->cmd`) and every index at
which `mergeable` is read: in `!mergeable[cmd1]`, reached only when
`joystickstyle` is set and `cmd1 <= CmdKeyMoveLast`, and in
`mergeable[cmd1] & kc->cmd`, reached only when `cmd1 <= CmdKeyMoveLast`. -/
def scantrace (c : Cmds) (joystickstyle : Bool) (mergeable : Nat → Nat)
    (keystates : Nat → KeyState) : List keycmdmap → Nat → Nat → Bool → List Nat → Trace
  | [], cmd1, cmd, lingerflag, log => ⟨.done cmd1 cmd lingerflag, false, log⟩
  | kc :: rest, cmd1, cmd, lingerflag, log =>
    if kc.scancode = 0 then ⟨.done cmd1 cmd lingerflag, false, log⟩
    else
      let n := keystates kc.scancode
      if n = KS_OFF then
        scantrace c joystickstyle mergeable keystates rest cmd1 cmd lingerflag log
      else if kc.shift ≠ -1
          ∧ kc.shift ≠ eitherdown keystates SDL_SCANCODE_LSHIFT SDL_SCANCODE_RSHIFT then
        scantrace c joystickstyle mergeable keystates rest cmd1 cmd lingerflag log
      else if kc.ctl ≠ -1
          ∧ kc.ctl ≠ eitherdown keystates SDL_SCANCODE_LCTRL SDL_SCANCODE_RCTRL then
        scantrace c joystickstyle mergeable keystates rest cmd1 cmd lingerflag log
      else if kc.alt ≠ -1
          ∧ kc.alt ≠ eitherdown keystates SDL_SCANCODE_LALT SDL_SCANCODE_RALT then
        scantrace c joystickstyle mergeable keystates rest cmd1 cmd lingerflag log
      else if n = KS_PRESSED ∨ (kc.hold = true ∧ n = KS_DOWN) then
        if cmd1 = 0 then
          if joystickstyle = false ∨ kc.cmd > c.CmdKeyMoveLast then ⟨.ret kc.cmd, false, log⟩
          else if mergeable kc.cmd = 0 then ⟨.ret kc.cmd, false, kc.cmd :: log⟩
          else scantrace c joystickstyle mergeable keystates rest kc.cmd cmd lingerflag
            (kc.cmd :: log)
        else if cmd1 ≤ c.CmdKeyMoveLast then
          if (mergeable cmd1 &&& kc.cmd) = kc.cmd then
            ⟨.ret (cmd1 ||| kc.cmd), true, cmd1 :: log⟩
          else scantrace c joystickstyle mergeable keystates rest cmd1 cmd lingerflag
            (cmd1 :: log)
        else scantrace c joystickstyle mergeable keystates rest cmd1 cmd lingerflag log
      else if n = KS_STRUCK ∨ n = KS_REPEATING then
        scantrace c joystickstyle mergeable keystates rest cmd1 kc.cmd lingerflag log
      else if n = KS_DOWNBUTOFF1 ∨ n = KS_DOWNBUTOFF2 then
        scantrace c joystickstyle mergeable keystates rest cmd1 cmd true log
      else scantrace c joystickstyle mergeable keystates rest cmd1 cmd lingerflag log

/-- The four direction commands are distinct single bits, and `CmdKeyMoveLast`
is at least their union. -/
def bitcmds (c : Cmds) : Prop :=
  ∃ n w s e : Nat, (c.CmdNorth = 2 ^ n ∧ c.CmdWest = 2 ^ w ∧ c.CmdSouth = 2 ^ s
      ∧ c.CmdEast = 2 ^ e)
    ∧ (n ≠ w ∧ n ≠ s ∧ n ≠ e ∧ w ≠ s ∧ w ≠ e ∧ s ≠ e)
    ∧ (c.CmdNorth ||| c.CmdWest ||| c.CmdSouth ||| c.CmdEast) ≤ c.CmdKeyMoveLast

/-- The four direction commands. -/
def directions (c : Cmds) : List Nat := [c.CmdNorth, c.CmdWest, c.CmdSouth, c.CmdEast]

/-- Every entry of the table but the terminating one has a non-zero command
which, unless it is one of the four direction commands, is greater than
`CmdKeyMoveLast`. -/
def movetable (c : Cmds) (table : List keycmdmap) : Prop :=
  ∀ e ∈ table, e.scancode ≠ 0 →
    e.cmd ≠ 0 ∧ (e.cmd ≤ c.CmdKeyMoveLast → e.cmd ∈ directions c)

instance (c : Cmds) (table : List keycmdmap) : Decidable (movetable c table) := by
  unfold movetable; infer_instance

/-- A diagonal move: the union of one vertical and one horizontal direction
command. -/
def diagonal (c : Cmds) (r : Nat) : Prop :=
  ∃ v ∈ [c.CmdNorth, c.CmdSouth], ∃ h ∈ [c.CmdWest, c.CmdEast], r = v ||| h

instance (c : Cmds) (r : Nat) : Decidable (diagonal c r) := by
  unfold diagonal; infer_instance

/-- Example state: keyboard style, game table, the right shift key on. -/
def shiftExample : State :=
  stateOf sampleCmds false (keysOf [(SDL_SCANCODE_RSHIFT, KS_ON)])

/-- Example state at the scan: `shiftExample` after `resetkeystates` and a
press of Q. -/
def quitExample : State :=
  { ticked shiftExample with
    keystates := Function.update (ticked shiftExample).keystates SDL_SCANCODE_Q KS_PRESSED }

/-- The states in which a key rests when no event arrives: off, on or down. -/
def settled (k : KeyState) : Prop :=
  k = KS_OFF ∨ k = KS_ON ∨ k = KS_DOWN

instance (k : KeyState) : Decidable (settled k) := by
  unfold settled; infer_instance

/-! ## The key-event callback -/

/-- A scan code that is a natural number is never out of bounds below: the
callback returns the updated table. -/
theorem keyevent_nat (ks : Nat → KeyState) (n : Nat) (down : Bool) :
    _keyeventcallback ks n down = some
      (if shifttype n then Function.update ks n (if down then KS_ON else KS_OFF)
       else if n < SDL_NUM_SCANCODES then
         (if down then Function.update ks n (if ks n = KS_OFF then KS_PRESSED else KS_REPEATING)
          else Function.update ks n (if ks n = KS_PRESSED then KS_STRUCK else KS_OFF))
       else ks) := by
  unfold _keyeventcallback
  have h0 : ¬ ((n : Int) < 0) := by omega
  have h1 : ((n : Int) < (SDL_NUM_SCANCODES : Nat)) ↔ n < SDL_NUM_SCANCODES := by
    exact Int.ofNat_lt
  simp only [Int.toNat_ofNat, h0, if_false, h1]
  split_ifs <;> rfl

/-- A negative scan code passes the only guard of the default branch and
indexes the array out of bounds. -/
theorem keyevent_negative (ks : Nat → KeyState) (scancode : Int) (down : Bool)
    (h : scancode < 0) : _keyeventcallback ks scancode down = none := by
  unfold _keyeventcallback
  have hs : shifttype scancode = false := by
    unfold shifttype
    simp only [Bool.or_eq_false_iff, decide_eq_false_iff_not]
    refine ⟨⟨⟨⟨⟨⟨⟨⟨⟨⟨?_, ?_⟩, ?_⟩, ?_⟩, ?_⟩, ?_⟩, ?_⟩, ?_⟩, ?_⟩, ?_⟩, ?_⟩ <;> omega
  have h2 : scancode < 512 := by omega
  simp [hs, h2, h]

/-- A scan code at or above `SDL_NUM_SCANCODES` is ignored. -/
theorem keyevent_above (ks : Nat → KeyState) (scancode : Int) (down : Bool)
    (h : (SDL_NUM_SCANCODES : Int) ≤ scancode) : _keyeventcallback ks scancode down = some ks := by
  unfold _keyeventcallback
  have hs : shifttype scancode = false := by
    unfold shifttype
    simp only [Bool.or_eq_false_iff, decide_eq_false_iff_not]
    simp only [SDL_NUM_SCANCODES] at h
    refine ⟨⟨⟨⟨⟨⟨⟨⟨⟨⟨?_, ?_⟩, ?_⟩, ?_⟩, ?_⟩, ?_⟩, ?_⟩, ?_⟩, ?_⟩, ?_⟩, ?_⟩ <;>
      simp only [Nat.cast_ofNat] <;> omega
  have h2 : ¬ scancode < 512 := by
    simp only [SDL_NUM_SCANCODES, Nat.cast_ofNat] at h
    omega
  simp [hs, h2]

/-- C10 (code defect): a negative scan code is not ignored. The only guard of
the default branch of `_keyeventcallback` is `scancode < SDL_NUM_SCANCODES`, so
the scan code -1 reaches `keystates[scancode]`, an access outside the array: the
callback has no defined result there, whatever the table and the pressed flag. -/
theorem C10_negative_scancode_not_ignored (keystates : Nat → KeyState) (down : Bool) :
    _keyeventcallback keystates (-1) down = none :=
  keyevent_negative keystates (-1) down (by decide)

/-- C4 counterexample: the left GUI key (scan code 227) is not in the set the
claim excludes and is off, yet a press followed by a release leaves it off,
not struck. -/
theorem C4_counterexample :
    specmodifier SDL_SCANCODE_LGUI = false
    ∧ keysOf [] SDL_SCANCODE_LGUI = KS_OFF
    ∧ ((_keyeventcallback (keysOf []) SDL_SCANCODE_LGUI true).bind
        (fun ks => _keyeventcallback ks SDL_SCANCODE_LGUI false)).map
          (fun ks => ks SDL_SCANCODE_LGUI) = some KS_OFF
    ∧ KS_OFF ≠ KS_STRUCK := by
  decide

/-- C4 (amended): for every scan code of the table that is not one of the
shift-type keys of `_keyeventcallback` (shift, ctrl, alt, GUI, num-lock,
caps-lock, mode-switch) and whose state is off, a press immediately followed by
a release leaves the key struck and every other key as it was, and the next
`resetkeystates`, under either repeat style, returns it to off. -/
theorem C4_press_release_is_struck (keystates : Nat → KeyState) (n : Nat) (joystickstyle : Bool)
    (hn : n < SDL_NUM_SCANCODES) (hs : shifttype n = false) (hoff : keystates n = KS_OFF) :
    (_keyeventcallback keystates n true).bind (fun ks => _keyeventcallback ks n false)
        = some (Function.update keystates n KS_STRUCK)
    ∧ resetkeystates joystickstyle (Function.update keystates n KS_STRUCK) n = KS_OFF := by
  constructor
  · simp [keyevent_nat, hs, hn, hoff]
  · cases joystickstyle <;> simp [resetkeystates, hn, joystick_trans, keyboard_trans]

/-- C4 witness: the Q key, off in the all-off table. -/
theorem C4_witness :
    SDL_SCANCODE_Q < SDL_NUM_SCANCODES ∧ shifttype SDL_SCANCODE_Q = false
    ∧ keysOf [] SDL_SCANCODE_Q = KS_OFF
    ∧ ((_keyeventcallback (keysOf []) SDL_SCANCODE_Q true).bind
          (fun ks => _keyeventcallback ks SDL_SCANCODE_Q false)
        = some (Function.update (keysOf []) SDL_SCANCODE_Q KS_STRUCK)
      ∧ resetkeystates false (Function.update (keysOf []) SDL_SCANCODE_Q KS_STRUCK)
          SDL_SCANCODE_Q = KS_OFF) :=
  ⟨by decide, by decide, by decide,
    C4_press_release_is_struck (keysOf []) SDL_SCANCODE_Q false (by decide) (by decide)
      (by decide)⟩

/-! ## Re-initializing the key states -/

/-- The loop of `restartkeystates` after `k` rounds. -/
theorem restart_fold (ks : Nat → KeyState) (kb : Nat → Bool) (k : Nat)
    (hk : k ≤ SDL_NUM_SCANCODES) :
    (List.range k).foldlM
      (fun ks n => if kb n then _keyeventcallback ks n true else some ks)
      (fun n => if n < SDL_NUM_SCANCODES then KS_OFF else ks n)
    = some (fun n => if n < SDL_NUM_SCANCODES then
        (if n < k ∧ kb n = true then
          (if shifttype n then KS_ON else KS_PRESSED) else KS_OFF)
        else ks n) := by
  induction k with
  | zero => simp
  | succ k ih =>
    have hk1 : k < SDL_NUM_SCANCODES := hk
    rw [List.range_succ, List.foldlM_append, ih (Nat.le_of_lt hk1)]
    simp only [List.foldlM_cons, List.foldlM_nil, Option.some_bind, Option.bind_eq_bind]
    by_cases hd : kb k = true
    · simp only [hd, if_true, keyevent_nat, Option.some_bind, Option.pure_def, Option.bind_some,
        Option.some.injEq]
      funext n
      by_cases hn : n = k
      · subst hn
        by_cases hsh : shifttype (n : Int) = true
        · simp [hsh, hk1, hd]
        · simp [hsh, hk1, hd]
      · have hlt : (n < k + 1) ↔ n < k := by omega
        by_cases hsh : shifttype (k : Int) = true
        · simp [hsh, Function.update_noteq hn, hlt]
        · simp [hsh, hk1, Function.update_noteq hn, hlt]
    · simp only [hd, Bool.false_eq_true, if_false, Option.pure_def, Option.some_bind,
        Option.some.injEq]
      funext n
      by_cases hn : n = k
      · subst hn
        simp [hd]
      · have hlt : (n < k + 1) ↔ n < k := by omega
        simp [hlt]

/-- The table `restartkeystates` builds: a key the hardware reports as down is
on if it is shift-type and pressed otherwise; every other key is off. -/
theorem restartkeystates_eq (ks : Nat → KeyState) (keyboard : List Bool) :
    restartkeystates ks keyboard = some (fun n => if n < SDL_NUM_SCANCODES then
        (if keyboard.getD n false = true then
          (if shifttype n then KS_ON else KS_PRESSED) else KS_OFF)
        else ks n) := by
  unfold restartkeystates
  have hcount : (if keyboard.length > SDL_NUM_SCANCODES then SDL_NUM_SCANCODES
      else keyboard.length) ≤ SDL_NUM_SCANCODES := by
    split_ifs <;> omega
  have h := restart_fold ks (fun n => keyboard.getD n false) _ hcount
  refine h.trans ?_
  congr 1
  funext n
  by_cases hn : n < SDL_NUM_SCANCODES
  · simp only [hn, if_true]
    by_cases hd : keyboard.getD n false = true
    · have hlen : n < keyboard.length := by
        by_contra hc
        rw [List.getD_eq_default _ _ (by omega)] at hd
        exact Bool.false_ne_true hd
      have : n < (if keyboard.length > SDL_NUM_SCANCODES then SDL_NUM_SCANCODES
          else keyboard.length) := by
        split_ifs <;> omega
      simp only [hd, this, and_self, if_true]
    · simp only [hd, Bool.false_eq_true, and_false, if_false]
  · simp only [hn, if_false]

set_option maxRecDepth 100000 in
/-- C2 counterexample: with the up arrow physically held (and recorded as down
before the switch), the state of the key right after
`setkeyboardarrowsrepeat(TRUE)` is pressed, not down. -/
theorem C2_counterexample :
    (keyboardOf [SDL_SCANCODE_UP]).getD SDL_SCANCODE_UP false = true
    ∧ shifttype SDL_SCANCODE_UP = false
    ∧ (setkeyboardarrowsrepeat (stateOf sampleCmds false (keysOf [(SDL_SCANCODE_UP, KS_DOWN)]))
        true (keyboardOf [SDL_SCANCODE_UP])).map (fun st => st.keystates SDL_SCANCODE_UP)
        = some KS_PRESSED
    ∧ KS_PRESSED ≠ KS_DOWN := by
  refine ⟨by decide, by decide, ?_, by decide⟩
  simp only [setkeyboardarrowsrepeat, restartkeystates_eq, Option.map]
  decide

/-- C2 (amended): switching the repeat style while a key is physically held
records that key as pressed: for either value of the style flag and every scan
code of the table that is not shift-type and that the hardware reports as down,
the key's state right after `setkeyboardarrowsrepeat` is `KS_PRESSED` (so not
off); the first `resetkeystates` after the switch turns it into `KS_DOWN` under
joystick style and into `KS_DOWNBUTOFF1` under keyboard style. -/
theorem C2_restart_records_held_key_as_pressed (st : State) (enable : Bool)
    (keyboard : List Bool) (n : Nat) (hn : n < SDL_NUM_SCANCODES)
    (hs : shifttype n = false) (hd : keyboard.getD n false = true) :
    (setkeyboardarrowsrepeat st enable keyboard).map
        (fun s => (s.joystickstyle, s.keystates n)) = some (enable, KS_PRESSED)
    ∧ (setkeyboardarrowsrepeat st enable keyboard).map
        (fun s => resetkeystates s.joystickstyle s.keystates n)
        = some (if enable then KS_DOWN else KS_DOWNBUTOFF1) := by
  simp only [setkeyboardarrowsrepeat, restartkeystates_eq, Option.map, resetkeystates, hn,
    if_true, hd, hs, Bool.false_eq_true, if_false]
  cases enable <;> simp [joystick_trans, keyboard_trans]

set_option maxRecDepth 100000 in
/-- C2 witness: the up arrow held while joystick style is switched on. -/
theorem C2_witness :
    SDL_SCANCODE_UP < SDL_NUM_SCANCODES ∧ shifttype SDL_SCANCODE_UP = false
    ∧ (keyboardOf [SDL_SCANCODE_UP]).getD SDL_SCANCODE_UP false = true
    ∧ ((setkeyboardarrowsrepeat (stateOf sampleCmds false (keysOf [])) true
          (keyboardOf [SDL_SCANCODE_UP])).map
        (fun s => (s.joystickstyle, s.keystates SDL_SCANCODE_UP)) = some (true, KS_PRESSED)
      ∧ (setkeyboardarrowsrepeat (stateOf sampleCmds false (keysOf [])) true
          (keyboardOf [SDL_SCANCODE_UP])).map
        (fun s => resetkeystates s.joystickstyle s.keystates SDL_SCANCODE_UP)
        = some (if true then KS_DOWN else KS_DOWNBUTOFF1)) :=
  ⟨by decide, by decide, by decide,
    C2_restart_records_held_key_as_pressed (stateOf sampleCmds false (keysOf [])) true
      (keyboardOf [SDL_SCANCODE_UP]) SDL_SCANCODE_UP (by decide) (by decide) (by decide)⟩

/-! ## Waiting for any key -/

/-- The scan of `anykey` stops at the lowest-numbered key that is struck,
pressed or repeating, and compares its index with 113 and with the escape key. -/
theorem anykeyscan_first (ks : Nat → KeyState) (k : Nat) :
    ∀ (fuel n : Nat), n ≤ k → k < n + fuel → (∀ i, n ≤ i → i < k → anykeyhit (ks i) = false) →
      anykeyhit (ks k) = true →
      anykeyscan ks fuel n = some (decide (k ≠ Char.toNat 'q') && decide (k ≠ SDL_SCANCODE_ESCAPE)) := by
  intro fuel
  induction fuel with
  | zero => intro n h1 h2; omega
  | succ fuel ih =>
    intro n h1 h2 hlow hk
    rw [anykeyscan]
    by_cases hnk : n = k
    · subst hnk
      simp [hk]
    · have hn : anykeyhit (ks n) = false := hlow n (le_refl n) (by omega)
      simp only [hn, Bool.false_eq_true, if_false]
      exact ih (n + 1) (by omega) (by omega) (fun i hi hik => hlow i (by omega) hik) hk

/-- C3 (code defect): the Q key does not make the scan of `anykey` return
FALSE. The scan compares the index with the character `'q'` (113), not with
`SDL_SCANCODE_Q` (20): whenever Q is the lowest-numbered key that is struck,
pressed or repeating, the scan returns TRUE. -/
theorem C3_quit_key_returns_true (keystates : Nat → KeyState)
    (hq : anykeyhit (keystates SDL_SCANCODE_Q) = true)
    (hlow : ∀ i, i < SDL_SCANCODE_Q → anykeyhit (keystates i) = false) :
    anykeyscan keystates SDL_NUM_SCANCODES 0 = some true := by
  rw [anykeyscan_first keystates SDL_SCANCODE_Q SDL_NUM_SCANCODES 0 (by decide) (by decide)
    (fun i _ hi => hlow i hi) hq]
  decide

/-- C3 witness: Q pressed, every other key off. -/
theorem C3_witness :
    anykeyhit (keysOf [(SDL_SCANCODE_Q, KS_PRESSED)] SDL_SCANCODE_Q) = true
    ∧ (∀ i, i < SDL_SCANCODE_Q → anykeyhit (keysOf [(SDL_SCANCODE_Q, KS_PRESSED)] i) = false)
    ∧ anykeyscan (keysOf [(SDL_SCANCODE_Q, KS_PRESSED)]) SDL_NUM_SCANCODES 0 = some true :=
  ⟨by decide, by decide,
    C3_quit_key_returns_true (keysOf [(SDL_SCANCODE_Q, KS_PRESSED)]) (by decide) (by decide)⟩

/-! ## The mouse-state tracker -/

/-- An idle mouse yields no command, however often it is asked. -/
theorem takes_off (c : Cmds) (wmp : Int → Int → Int) (k : Nat) (m : mouseaction)
    (h : m.state = KS_OFF) : takes c wmp k m = (List.replicate k 0, m) := by
  induction k with
  | zero => rfl
  | succ k ih =>
    have hr : retrievemousecommand c wmp m = (0, m) := by
      unfold retrievemousecommand
      rw [h]
    simp only [takes, hr, ih, List.replicate_succ]

/-- An `int` sum that is representable is the exact sum. -/
theorem intwrap_exact (x : Int) (hlo : 0 ≤ x) (hhi : x ≤ INT_MAX) : intwrap x = x := by
  unfold INT_MAX at hhi
  unfold intwrap
  omega

/-- C8 counterexample: the numbering in which `CmdAbsMouseMoveFirst` is 512,
a press of the primary button at a position that `windowmappos` maps to the
index 2147483647, the largest `int`. The sum formed in `int` is not
`CmdAbsMouseMoveFirst + n`: the first call returns -2147483137. -/
theorem C8_counterexample :
    (0 : Int) ≤ 2147483647 ∧ (2147483647 : Int) ≤ INT_MAX
    ∧ takes sampleCmds (fun _ _ => 2147483647) 1
        (_mouseeventcallback ⟨KS_OFF, 0, 0, 0⟩ 10 20 SDL_BUTTON_LEFT true)
      = ([-2147483137], ⟨KS_DOWNBUTOFF1, 10, 20, SDL_BUTTON_LEFT⟩)
    ∧ (-2147483137 : Int) ≠ (sampleCmds.CmdAbsMouseMoveFirst : Int) + 2147483647 := by
  decide

/-- C8 (amended): after a press of the primary button at a position that
`windowmappos` maps to an index `n` with `0 ≤ n` and
`CmdAbsMouseMoveFirst + n ≤ INT_MAX`, successive calls of
`retrievemousecommand` with no further click return `CmdAbsMouseMoveFirst + n`,
then `CmdPreserve` three times, then 0 on every later call, and the mouse state
ends off. -/
theorem C8_click_then_three_preserves (c : Cmds) (windowmappos : Int → Int → Int)
    (mouseinfo : mouseaction) (x y n : Int) (hmap : windowmappos x y = n)
    (hn : 0 ≤ n) (hmax : (c.CmdAbsMouseMoveFirst : Int) + n ≤ INT_MAX) (k : Nat) :
    takes c windowmappos (4 + k) (_mouseeventcallback mouseinfo x y SDL_BUTTON_LEFT true)
      = (((c.CmdAbsMouseMoveFirst : Int) + n) :: (c.CmdPreserve : Int) :: (c.CmdPreserve : Int)
          :: (c.CmdPreserve : Int) :: List.replicate k 0, ⟨KS_OFF, x, y, SDL_BUTTON_LEFT⟩) := by
  have h4 : 4 + k = k + 1 + 1 + 1 + 1 := by omega
  have hsum : intwrap ((c.CmdAbsMouseMoveFirst : Int) + n) = (c.CmdAbsMouseMoveFirst : Int) + n :=
    intwrap_exact _ (by omega) hmax
  rw [h4]
  simp only [takes, _mouseeventcallback, if_true, retrievemousecommand, hmap]
  have hn2 : n ≥ 0 := hn
  simp only [hn2, if_true, hsum]
  rw [takes_off c windowmappos k _ rfl]

/-- C8 witness: a click at a position mapped to index 3, followed by six
calls. -/
theorem C8_witness :
    (fun _ _ => (3 : Int)) (10 : Int) (20 : Int) = (3 : Int)
    ∧ (0 : Int) ≤ 3 ∧ (sampleCmds.CmdAbsMouseMoveFirst : Int) + 3 ≤ INT_MAX
    ∧ takes sampleCmds (fun _ _ => 3) (4 + 2)
        (_mouseeventcallback ⟨KS_OFF, 0, 0, 0⟩ 10 20 SDL_BUTTON_LEFT true)
      = (((sampleCmds.CmdAbsMouseMoveFirst : Int) + 3) :: (sampleCmds.CmdPreserve : Int)
          :: (sampleCmds.CmdPreserve : Int) :: (sampleCmds.CmdPreserve : Int)
          :: List.replicate 2 0, ⟨KS_OFF, 10, 20, SDL_BUTTON_LEFT⟩) :=
  ⟨rfl, by decide, by decide,
    C8_click_then_three_preserves sampleCmds (fun _ _ => 3) ⟨KS_OFF, 0, 0, 0⟩ 10 20 3 rfl
      (by decide) (by decide) 2⟩

/-! ## The command resolver -/

section scanbasic
variable (c : Cmds) (j : Bool) (m : Nat → Nat) (ks : Nat → KeyState)

/-- One round of the scan loop, by the role of the entry. -/
theorem scankeys_cons (kc : keycmdmap) (rest : List keycmdmap) (cmd1 cmd : Nat) (lf : Bool) :
    scankeys c j m ks (kc :: rest) cmd1 cmd lf =
      if kc.scancode = 0 then .done cmd1 cmd lf
      else if asserted ks kc then
        if cmd1 = 0 then
          if j = false ∨ kc.cmd > c.CmdKeyMoveLast ∨ m kc.cmd = 0 then .ret kc.cmd
          else scankeys c j m ks rest kc.cmd cmd lf
        else if cmd1 ≤ c.CmdKeyMoveLast ∧ (m cmd1 &&& kc.cmd) = kc.cmd then
          .ret (cmd1 ||| kc.cmd)
        else scankeys c j m ks rest cmd1 cmd lf
      else if fallback ks kc then scankeys c j m ks rest cmd1 kc.cmd lf
      else if lingers ks kc then scankeys c j m ks rest cmd1 cmd true
      else scankeys c j m ks rest cmd1 cmd lf := by
  rw [scankeys]
  by_cases hz : kc.scancode = 0
  · simp [hz]
  by_cases hs : kc.shift ≠ -1
      ∧ kc.shift ≠ eitherdown ks SDL_SCANCODE_LSHIFT SDL_SCANCODE_RSHIFT
  · have hm : ¬ modsmet ks kc := fun h => by
      rcases h.1 with h1 | h1
      · exact hs.1 h1
      · exact hs.2 h1
    simp [hz, hs, asserted, fallback, lingers, hm]
  by_cases hc : kc.ctl ≠ -1
      ∧ kc.ctl ≠ eitherdown ks SDL_SCANCODE_LCTRL SDL_SCANCODE_RCTRL
  · have hm : ¬ modsmet ks kc := fun h => by
      rcases h.2.1 with h1 | h1
      · exact hc.1 h1
      · exact hc.2 h1
    simp [hz, hs, hc, asserted, fallback, lingers, hm]
  by_cases ha : kc.alt ≠ -1
      ∧ kc.alt ≠ eitherdown ks SDL_SCANCODE_LALT SDL_SCANCODE_RALT
  · have hm : ¬ modsmet ks kc := fun h => by
      rcases h.2.2 with h1 | h1
      · exact ha.1 h1
      · exact ha.2 h1
    simp [hz, hs, hc, ha, asserted, fallback, lingers, hm]
  have hm : modsmet ks kc := by
    unfold modsmet
    refine ⟨?_, ?_, ?_⟩
    · by_cases h : kc.shift = -1
      · exact Or.inl h
      · exact Or.inr (by by_contra h2; exact hs ⟨h, h2⟩)
    · by_cases h : kc.ctl = -1
      · exact Or.inl h
      · exact Or.inr (by by_contra h2; exact hc ⟨h, h2⟩)
    · by_cases h : kc.alt = -1
      · exact Or.inl h
      · exact Or.inr (by by_contra h2; exact ha ⟨h, h2⟩)
  simp only [hz, hs, hc, ha, if_false, asserted, fallback, lingers, hm, true_and]
  cases hk : ks kc.scancode <;> simp

theorem scankeys_cons_inert (kc : keycmdmap) (rest : List keycmdmap) (cmd1 cmd : Nat)
    (lf : Bool) (hz : kc.scancode ≠ 0) (hi : inert ks kc) :
    scankeys c j m ks (kc :: rest) cmd1 cmd lf = scankeys c j m ks rest cmd1 cmd lf := by
  rw [scankeys_cons]
  simp only [hz, hi.1, hi.2.1, hi.2.2, if_false]

/-- The scan only sees the entries before the terminating entry. -/
theorem scankeys_entries (table : List keycmdmap) (cmd1 cmd : Nat) (lf : Bool) :
    scankeys c j m ks table cmd1 cmd lf = scankeys c j m ks (entries table) cmd1 cmd lf := by
  induction table generalizing cmd1 cmd lf with
  | nil => rfl
  | cons kc rest ih =>
    by_cases hz : kc.scancode = 0
    · have he : entries (kc :: rest) = [] := by simp [entries, hz]
      rw [he, scankeys_cons]
      simp [hz, scankeys]
    · have he : entries (kc :: rest) = kc :: entries rest := by simp [entries, hz]
      rw [he, scankeys_cons, scankeys_cons]
      simp only [ih]

theorem entries_ne_zero (table : List keycmdmap) (kc : keycmdmap) (h : kc ∈ entries table) :
    kc.scancode ≠ 0 := by
  have := List.mem_takeWhile_imp h
  simpa using this

theorem scankeys_skip_inert (pre rest : List keycmdmap) (cmd1 cmd : Nat) (lf : Bool)
    (h : ∀ e ∈ pre, e.scancode ≠ 0 ∧ inert ks e) :
    scankeys c j m ks (pre ++ rest) cmd1 cmd lf = scankeys c j m ks rest cmd1 cmd lf := by
  induction pre with
  | nil => rfl
  | cons e pre ih =>
    have he := h e (List.mem_cons_self _ _)
    rw [List.cons_append, scankeys_cons_inert c j m ks e _ cmd1 cmd lf he.1 he.2]
    exact ih (fun e2 h2 => h e2 (List.mem_cons_of_mem _ h2))

theorem scankeys_inert_all (l : List keycmdmap) (cmd1 cmd : Nat) (lf : Bool)
    (h : ∀ e ∈ l, inert ks e) :
    scankeys c j m ks l cmd1 cmd lf = .done cmd1 cmd lf := by
  induction l with
  | nil => rfl
  | cons e l ih =>
    have he := h e (List.mem_cons_self _ _)
    rw [scankeys_cons]
    by_cases hz : e.scancode = 0
    · simp [hz]
    · simp only [hz, he.1, he.2.1, he.2.2, if_false]
      exact ih (fun e2 h2 => h e2 (List.mem_cons_of_mem _ h2))

/-- Keyboard style: the scan returns the command of the first asserted entry. -/
theorem scankeys_keyboard_first (table : List keycmdmap) (kc : keycmdmap) (cmd : Nat) (lf : Bool)
    (h : (entries table).find? (fun e => decide (asserted ks e)) = some kc) :
    scankeys c false m ks table 0 cmd lf = .ret kc.cmd := by
  induction table generalizing cmd lf with
  | nil => simp [entries] at h
  | cons e rest ih =>
    by_cases hz : e.scancode = 0
    · simp [entries, hz] at h
    · have he : entries (e :: rest) = e :: entries rest := by simp [entries, hz]
      rw [he, List.find?_cons] at h
      rw [scankeys_cons]
      by_cases ha : asserted ks e
      · simp only [ha, decide_True] at h
        cases h
        simp [hz, ha]
      · simp only [ha, decide_False] at h
        simp only [hz, ha, if_false]
        split_ifs
        · exact ih _ _ h
        · exact ih _ _ h
        · exact ih _ _ h

/-- The scan of a table in which every entry but `kc` is inert. -/
theorem scankeys_single (pre post : List keycmdmap) (kc : keycmdmap) (lf : Bool)
    (hpre : ∀ e ∈ pre, e.scancode ≠ 0 ∧ inert ks e) (hpost : ∀ e ∈ post, inert ks e)
    (hz : kc.scancode ≠ 0) :
    scankeys c j m ks (pre ++ kc :: post) 0 0 lf =
      if asserted ks kc then
        if j = false ∨ kc.cmd > c.CmdKeyMoveLast ∨ m kc.cmd = 0 then .ret kc.cmd
        else .done kc.cmd 0 lf
      else if fallback ks kc then .done 0 kc.cmd lf
      else if lingers ks kc then .done 0 0 true
      else .done 0 0 lf := by
  rw [scankeys_skip_inert c j m ks pre _ 0 0 lf hpre, scankeys_cons]
  simp only [hz, if_false, if_true, scankeys_inert_all c j m ks post _ _ _ hpost]

end scanbasic

theorem deliver_fields (st st1 : State) (e : Event) (h : deliver st e = some st1) :
    st1.joystickstyle = st.joystickstyle ∧ st1.keycmds = st.keycmds
    ∧ st1.mergeable = st.mergeable := by
  cases e with
  | key scancode down =>
    simp only [deliver] at h
    cases hk : _keyeventcallback st.keystates scancode down with
    | none => simp [hk] at h
    | some ks =>
      simp only [hk, Option.some.injEq] at h
      subst h
      exact ⟨rfl, rfl, rfl⟩
  | mouse x y b d =>
    simp only [deliver, Option.some.injEq] at h
    subst h
    exact ⟨rfl, rfl, rfl⟩

theorem eventupdate_fields (events : List Event) (st st1 : State)
    (h : eventupdate st events = some st1) :
    st1.joystickstyle = st.joystickstyle ∧ st1.keycmds = st.keycmds
    ∧ st1.mergeable = st.mergeable := by
  induction events generalizing st with
  | nil =>
    simp only [eventupdate, List.foldlM_nil, Option.pure_def, Option.some.injEq] at h
    subst h
    exact ⟨rfl, rfl, rfl⟩
  | cons e events ih =>
    simp only [eventupdate, List.foldlM_cons, Option.bind_eq_bind] at h
    cases hd : deliver st e with
    | none => simp [hd] at h
    | some st2 =>
      simp only [hd, Option.some_bind] at h
      have h1 := deliver_fields st st2 e hd
      have h2 := ih st2 h
      exact ⟨h2.1.trans h1.1, h2.2.1.trans h1.2.1, h2.2.2.trans h1.2.2⟩

/-- A `return` from inside the scan loop is the result of `input`. -/
theorem input_of_scan_ret (c : Cmds) (wmp : Int → Int → Int) (wait : Bool) (st st1 : State)
    (events : List Event) (pumps : List (List Event)) (cmd : Nat)
    (hpump : eventupdate (ticked st) events = some st1)
    (hscan : scankeys c st1.joystickstyle st1.mergeable st1.keystates st1.keycmds 0 0 false
      = .ret cmd) :
    input c wmp wait st events pumps = some ((cmd : Int), st1) := by
  unfold input inputloop
  unfold ticked at hpump
  cases pumps <;> simp only [hpump, resolve, hscan]

theorem input_of_scan_primary (c : Cmds) (wmp : Int → Int → Int) (wait : Bool) (st st1 : State)
    (events : List Event) (pumps : List (List Event)) (cmd1 cmd : Nat) (lf : Bool)
    (hpump : eventupdate (ticked st) events = some st1)
    (hscan : scankeys c st1.joystickstyle st1.mergeable st1.keystates st1.keycmds 0 0 false
      = .done cmd1 cmd lf) (h1 : cmd1 ≠ 0) :
    input c wmp wait st events pumps = some ((cmd1 : Int), st1) := by
  unfold input inputloop
  unfold ticked at hpump
  cases pumps <;> simp [hpump, resolve, hscan, h1]

/-- C7: in keyboard-style mode merging never applies. Whatever the key states
at the scan and whatever the command table, if some entry of the table is
asserted (requirements met, key pressed, or down with the hold flag), `input`
returns exactly the command of the first asserted entry in table order, and
leaves the variables as the pump left them. -/
theorem C7_keyboard_style_first_asserted_wins (c : Cmds) (windowmappos : Int → Int → Int)
    (wait : Bool) (st st1 : State) (events : List Event) (pumps : List (List Event))
    (kc : keycmdmap) (hstyle : st.joystickstyle = false)
    (hpump : eventupdate (ticked st) events = some st1)
    (hfirst : (entries st1.keycmds).find? (fun e => decide (asserted st1.keystates e))
      = some kc) :
    input c windowmappos wait st events pumps = some ((kc.cmd : Int), st1) := by
  have hj : st1.joystickstyle = false := (eventupdate_fields events _ st1 hpump).1.trans hstyle
  apply input_of_scan_ret c windowmappos wait st st1 events pumps kc.cmd hpump
  rw [hj]
  exact scankeys_keyboard_first c st1.mergeable st1.keystates st1.keycmds kc 0 false hfirst

/-- C7 witness: keyboard style, up and right both held: the poll returns
`CmdNorth`, the command of the first asserted entry, not `CmdNorth | CmdEast`. -/
theorem C7_witness :
    (stateOf sampleCmds false
      (keysOf [(SDL_SCANCODE_UP, KS_DOWN), (SDL_SCANCODE_RIGHT, KS_DOWN)])).joystickstyle = false
    ∧ eventupdate (ticked (stateOf sampleCmds false
        (keysOf [(SDL_SCANCODE_UP, KS_DOWN), (SDL_SCANCODE_RIGHT, KS_DOWN)]))) []
      = some (ticked (stateOf sampleCmds false
        (keysOf [(SDL_SCANCODE_UP, KS_DOWN), (SDL_SCANCODE_RIGHT, KS_DOWN)])))
    ∧ (entries (ticked (stateOf sampleCmds false
        (keysOf [(SDL_SCANCODE_UP, KS_DOWN), (SDL_SCANCODE_RIGHT, KS_DOWN)]))).keycmds).find?
        (fun e => decide (asserted (ticked (stateOf sampleCmds false
          (keysOf [(SDL_SCANCODE_UP, KS_DOWN), (SDL_SCANCODE_RIGHT, KS_DOWN)]))).keystates e))
      = some ⟨SDL_SCANCODE_UP, 0, 0, 0, sampleCmds.CmdNorth, true⟩
    ∧ input sampleCmds nomap false (stateOf sampleCmds false
        (keysOf [(SDL_SCANCODE_UP, KS_DOWN), (SDL_SCANCODE_RIGHT, KS_DOWN)])) [] []
      = some (((⟨SDL_SCANCODE_UP, 0, 0, 0, sampleCmds.CmdNorth, true⟩ : keycmdmap).cmd : Int),
          ticked (stateOf sampleCmds false
            (keysOf [(SDL_SCANCODE_UP, KS_DOWN), (SDL_SCANCODE_RIGHT, KS_DOWN)]))) :=
  ⟨rfl, rfl, by decide,
    C7_keyboard_style_first_asserted_wins sampleCmds nomap false _ _ [] [] _ rfl rfl
      (by decide)⟩

theorem lor_land_right (a b : Nat) : (a ||| b) &&& b = b := by
  apply Nat.eq_of_testBit_eq
  intro i
  simp only [Nat.testBit_and, Nat.testBit_or]
  cases a.testBit i <;> cases b.testBit i <;> rfl

theorem lor_land_left (a b : Nat) : (a ||| b) &&& a = a := by
  rw [Nat.lor_comm]
  exact lor_land_right b a

theorem lor_ne_zero_right (a b : Nat) (h : b ≠ 0) : a ||| b ≠ 0 := by
  intro h0
  have := lor_land_right a b
  rw [h0, Nat.zero_and] at this
  exact h this.symm

/-- The merge table that `_sdlinputinitialize` sets up. -/
theorem mergeable_init (c : Cmds) (st : State) (hc : dircmds c) :
    ( _sdlinputinitialize c st).mergeable c.CmdNorth = c.CmdWest ||| c.CmdEast
    ∧ ( _sdlinputinitialize c st).mergeable c.CmdSouth = c.CmdWest ||| c.CmdEast
    ∧ ( _sdlinputinitialize c st).mergeable c.CmdWest = c.CmdNorth ||| c.CmdSouth
    ∧ ( _sdlinputinitialize c st).mergeable c.CmdEast = c.CmdNorth ||| c.CmdSouth := by
  obtain ⟨-, -, h1, h2, h3, h4⟩ := hc
  simp only [ _sdlinputinitialize, Function.update_apply]
  refine ⟨?_, ?_, ?_, ?_⟩
  · simp [h1, h2]
  · simp [h3, h4]
  · simp
  · simp

section scanmerge
variable (c : Cmds) (m : Nat → Nat) (ks : Nat → KeyState)

theorem scankeys_skip_unasserted (pre rest : List keycmdmap) (cmd1 cmd : Nat) (lf : Bool)
    (j : Bool) (h : ∀ e ∈ pre, e.scancode ≠ 0 ∧ ¬ asserted ks e) :
    ∃ cmd2 lf2, scankeys c j m ks (pre ++ rest) cmd1 cmd lf
      = scankeys c j m ks rest cmd1 cmd2 lf2 := by
  induction pre generalizing cmd lf with
  | nil => exact ⟨cmd, lf, rfl⟩
  | cons e pre ih =>
    have he := h e (List.mem_cons_self _ _)
    have hrest := fun e2 h2 => h e2 (List.mem_cons_of_mem _ h2)
    rw [List.cons_append, scankeys_cons]
    simp only [he.1, he.2, if_false]
    split_ifs
    · exact ih _ _ hrest
    · exact ih _ _ hrest
    · exact ih _ _ hrest

theorem scankeys_skip_unmerged (mid rest : List keycmdmap) (cmd1 cmd : Nat) (lf : Bool)
    (j : Bool) (h1 : cmd1 ≠ 0)
    (h : ∀ e ∈ mid, e.scancode ≠ 0 ∧ (¬ asserted ks e ∨ (m cmd1 &&& e.cmd) ≠ e.cmd)) :
    ∃ cmd2 lf2, scankeys c j m ks (mid ++ rest) cmd1 cmd lf
      = scankeys c j m ks rest cmd1 cmd2 lf2 := by
  induction mid generalizing cmd lf with
  | nil => exact ⟨cmd, lf, rfl⟩
  | cons e mid ih =>
    have he := h e (List.mem_cons_self _ _)
    have hrest := fun e2 h2 => h e2 (List.mem_cons_of_mem _ h2)
    rw [List.cons_append, scankeys_cons]
    simp only [he.1, h1, if_false]
    by_cases ha : asserted ks e
    · have hm : (m cmd1 &&& e.cmd) ≠ e.cmd := by
        rcases he.2 with h2 | h2
        · exact absurd ha h2
        · exact h2
      simp only [ha, if_true, hm, and_false, if_false]
      exact ih _ _ hrest
    · simp only [ha, if_false]
      split_ifs
      · exact ih _ _ hrest
      · exact ih _ _ hrest
      · exact ih _ _ hrest

/-- Joystick style: the first asserted entry `a` is a mergeable key-move
command and `b` is the first later asserted entry that may be merged with it. -/
theorem scankeys_joystick_pair (pre mid post : List keycmdmap) (a b : keycmdmap)
    (cmd : Nat) (lf : Bool)
    (hpre : ∀ e ∈ pre, e.scancode ≠ 0 ∧ ¬ asserted ks e)
    (haz : a.scancode ≠ 0) (ha : asserted ks a) (ha0 : a.cmd ≠ 0)
    (hal : a.cmd ≤ c.CmdKeyMoveLast) (ham : m a.cmd ≠ 0)
    (hmid : ∀ e ∈ mid, e.scancode ≠ 0 ∧ (¬ asserted ks e ∨ (m a.cmd &&& e.cmd) ≠ e.cmd))
    (hbz : b.scancode ≠ 0) (hb : asserted ks b) (hbm : (m a.cmd &&& b.cmd) = b.cmd) :
    scankeys c true m ks (pre ++ a :: (mid ++ b :: post)) 0 cmd lf = .ret (a.cmd ||| b.cmd) := by
  obtain ⟨cmd2, lf2, h2⟩ := scankeys_skip_unasserted c m ks pre (a :: (mid ++ b :: post)) 0 cmd lf
    true hpre
  rw [h2, scankeys_cons]
  have hnl : ¬ a.cmd > c.CmdKeyMoveLast := by omega
  simp only [haz, ha, if_true, if_false, hnl, ham, or_self, Bool.true_eq_false]
  obtain ⟨cmd3, lf3, h3⟩ := scankeys_skip_unmerged c m ks mid (b :: post) a.cmd cmd2 lf2 true
    ha0 hmid
  rw [h3, scankeys_cons]
  simp [hbz, hb, ha0, hal, hbm]

end scanmerge

theorem modsmet_plain (ks : Nat → KeyState) (hmods : modsoff ks) (n cmd : Nat) (hold : Bool) :
    modsmet ks ⟨n, 0, 0, 0, cmd, hold⟩ := by
  obtain ⟨h1, h2, h3, h4, h5, h6⟩ := hmods
  simp [modsmet, eitherdown, h1, h2, h3, h4, h5, h6]

theorem asserted_plain_hold (ks : Nat → KeyState) (hmods : modsoff ks) (n cmd : Nat) :
    asserted ks ⟨n, 0, 0, 0, cmd, true⟩ ↔ held (ks n) := by
  simp [asserted, modsmet_plain ks hmods, held]

/-- C6: in joystick-style mode, with the game table and the merge table as set
by `_sdlinputinitialize`, when a vertical and a horizontal arrow key are both
held at the scan (pressed, or down), the two other arrow keys are not, and
shift, ctrl and alt are up, a single call of `input` returns the bitwise OR of
the two direction commands. -/
theorem C6_joystick_merges_orthogonal_arrows (c : Cmds) (windowmappos : Int → Int → Int)
    (wait : Bool) (st st1 : State) (events : List Event) (pumps : List (List Event))
    (v h : Nat × Nat) (hc : dircmds c)
    (hstyle : st.joystickstyle = true) (htable : st.keycmds = gamekeycmds c)
    (hmerge : st.mergeable = ( _sdlinputinitialize c (initialState c)).mergeable)
    (hpump : eventupdate (ticked st) events = some st1)
    (hv : v ∈ verticalkeys c) (hh : h ∈ horizontalkeys c)
    (hvheld : held (st1.keystates v.1)) (hhheld : held (st1.keystates h.1))
    (hothers : ∀ n ∈ arrowkeys, n ≠ v.1 → n ≠ h.1 → ¬ held (st1.keystates n))
    (hmods : modsoff st1.keystates) :
    input c windowmappos wait st events pumps = some (((v.2 ||| h.2 : Nat) : Int), st1) := by
  obtain ⟨hj, ht, hm⟩ := eventupdate_fields events _ st1 hpump
  have hj1 : st1.joystickstyle = true := hj.trans hstyle
  have ht1 : st1.keycmds = gamekeycmds c := ht.trans htable
  have hm1 : st1.mergeable = ( _sdlinputinitialize c (initialState c)).mergeable :=
    hm.trans hmerge
  obtain ⟨mN, mS, mW, mE⟩ := mergeable_init c (initialState c) hc
  rw [← hm1] at mN mS mW mE
  obtain ⟨⟨n0, w0, s0, e0⟩, ⟨nl, wl, sl, el⟩, -⟩ := hc
  have hA := asserted_plain_hold st1.keystates hmods
  apply input_of_scan_ret c windowmappos wait st st1 events pumps _ hpump
  rw [hj1, ht1]
  simp only [verticalkeys, horizontalkeys, List.mem_cons, List.mem_singleton,
    List.not_mem_nil, or_false] at hv hh
  rcases hv with rfl | rfl <;> rcases hh with rfl | rfl
  · -- up and left
    exact scankeys_joystick_pair c st1.mergeable st1.keystates [] [] ((gamekeycmds c).drop 2)
      ⟨SDL_SCANCODE_UP, 0, 0, 0, c.CmdNorth, true⟩ ⟨SDL_SCANCODE_LEFT, 0, 0, 0, c.CmdWest, true⟩
      0 false (by simp) (by simp) ((hA _ _).2 hvheld) n0 nl
      (by rw [mN]; exact lor_ne_zero_right _ _ e0) (by simp) (by simp) ((hA _ _).2 hhheld)
      (by show (st1.mergeable c.CmdNorth &&& c.CmdWest) = c.CmdWest
          rw [mN]; exact lor_land_left _ _)
  · -- up and right
    have hl : ¬ held (st1.keystates SDL_SCANCODE_LEFT) :=
      hothers SDL_SCANCODE_LEFT (by simp [arrowkeys]) (by simp) (by simp)
    have hd : ¬ held (st1.keystates SDL_SCANCODE_DOWN) :=
      hothers SDL_SCANCODE_DOWN (by simp [arrowkeys]) (by simp) (by simp)
    exact scankeys_joystick_pair c st1.mergeable st1.keystates []
      [⟨SDL_SCANCODE_LEFT, 0, 0, 0, c.CmdWest, true⟩, ⟨SDL_SCANCODE_DOWN, 0, 0, 0, c.CmdSouth, true⟩]
      ((gamekeycmds c).drop 4)
      ⟨SDL_SCANCODE_UP, 0, 0, 0, c.CmdNorth, true⟩ ⟨SDL_SCANCODE_RIGHT, 0, 0, 0, c.CmdEast, true⟩
      0 false (by simp) (by simp) ((hA _ _).2 hvheld) n0 nl
      (by rw [mN]; exact lor_ne_zero_right _ _ e0)
      (by
        intro e he
        simp only [List.mem_cons, List.mem_singleton, List.not_mem_nil, or_false] at he
        rcases he with rfl | rfl
        · exact ⟨by simp, Or.inl (fun h => hl ((hA _ _).1 h))⟩
        · exact ⟨by simp, Or.inl (fun h => hd ((hA _ _).1 h))⟩)
      (by simp) ((hA _ _).2 hhheld)
      (by show (st1.mergeable c.CmdNorth &&& c.CmdEast) = c.CmdEast
          rw [mN]; exact lor_land_right _ _)
  · -- down and left
    have hu : ¬ held (st1.keystates SDL_SCANCODE_UP) :=
      hothers SDL_SCANCODE_UP (by simp [arrowkeys]) (by simp) (by simp)
    have key := scankeys_joystick_pair c st1.mergeable st1.keystates
      [⟨SDL_SCANCODE_UP, 0, 0, 0, c.CmdNorth, true⟩] [] ((gamekeycmds c).drop 3)
      ⟨SDL_SCANCODE_LEFT, 0, 0, 0, c.CmdWest, true⟩ ⟨SDL_SCANCODE_DOWN, 0, 0, 0, c.CmdSouth, true⟩
      0 false
      (by
        intro e he
        simp only [List.mem_singleton] at he
        subst he
        exact ⟨by simp, fun h => hu ((hA _ _).1 h)⟩)
      (by simp) ((hA _ _).2 hhheld) w0 wl
      (by rw [mW]; exact lor_ne_zero_right _ _ s0) (by simp) (by simp) ((hA _ _).2 hvheld)
      (by show (st1.mergeable c.CmdWest &&& c.CmdSouth) = c.CmdSouth
          rw [mW]; exact lor_land_right _ _)
    rw [Nat.lor_comm]
    exact key
  · -- down and right
    have hu : ¬ held (st1.keystates SDL_SCANCODE_UP) :=
      hothers SDL_SCANCODE_UP (by simp [arrowkeys]) (by simp) (by simp)
    have hl : ¬ held (st1.keystates SDL_SCANCODE_LEFT) :=
      hothers SDL_SCANCODE_LEFT (by simp [arrowkeys]) (by simp) (by simp)
    exact scankeys_joystick_pair c st1.mergeable st1.keystates
      [⟨SDL_SCANCODE_UP, 0, 0, 0, c.CmdNorth, true⟩, ⟨SDL_SCANCODE_LEFT, 0, 0, 0, c.CmdWest, true⟩]
      [] ((gamekeycmds c).drop 4)
      ⟨SDL_SCANCODE_DOWN, 0, 0, 0, c.CmdSouth, true⟩ ⟨SDL_SCANCODE_RIGHT, 0, 0, 0, c.CmdEast, true⟩
      0 false
      (by
        intro e he
        simp only [List.mem_cons, List.mem_singleton, List.not_mem_nil, or_false] at he
        rcases he with rfl | rfl
        · exact ⟨by simp, fun h => hu ((hA _ _).1 h)⟩
        · exact ⟨by simp, fun h => hl ((hA _ _).1 h)⟩)
      (by simp) ((hA _ _).2 hvheld) s0 sl
      (by rw [mS]; exact lor_ne_zero_right _ _ e0) (by simp) (by simp) ((hA _ _).2 hhheld)
      (by show (st1.mergeable c.CmdSouth &&& c.CmdEast) = c.CmdEast
          rw [mS]; exact lor_land_right _ _)

/-- The game table is well formed, whatever the command identifiers are. -/
theorem gamekeycmds_wellformed (c : Cmds) : wellformed (gamekeycmds c) := by
  have h : (entries (gamekeycmds c)).map binding
      = (entries (gamekeycmds sampleCmds)).map binding := rfl
  unfold wellformed
  rw [h]
  decide

/-- The input table is well formed, whatever the command identifiers are. -/
theorem inputkeycmds_wellformed (c : Cmds) : wellformed (inputkeycmds c) := by
  have h : (entries (inputkeycmds c)).map binding
      = (entries (inputkeycmds sampleCmds)).map binding := rfl
  unfold wellformed
  rw [h]
  decide

theorem inert_of_off (ks : Nat → KeyState) (kc : keycmdmap) (h : ks kc.scancode = KS_OFF) :
    inert ks kc := by
  simp [inert, asserted, fallback, lingers, h]

theorem inert_of_not_modsmet (ks : Nat → KeyState) (kc : keycmdmap) (h : ¬ modsmet ks kc) :
    inert ks kc := by
  simp [inert, asserted, fallback, lingers, h]

theorem modsmet_conflict (ks : Nat → KeyState) (a b : keycmdmap)
    (hs : a.scancode = b.scancode) (hc : conflict (binding a) (binding b))
    (ha : modsmet ks a) : ¬ modsmet ks b := by
  intro hb
  obtain ⟨a1, a2, a3⟩ := ha
  obtain ⟨b1, b2, b3⟩ := hb
  rcases hc hs with ⟨h1, h2, h3⟩ | ⟨h1, h2, h3⟩ | ⟨h1, h2, h3⟩
  · simp only [binding] at h1 h2 h3
    rcases a1 with a1 | a1
    · exact h1 a1
    · rcases b1 with b1 | b1
      · exact h2 b1
      · exact h3 (a1.trans b1.symm)
  · simp only [binding] at h1 h2 h3
    rcases a2 with a2 | a2
    · exact h1 a2
    · rcases b2 with b2 | b2
      · exact h2 b2
      · exact h3 (a2.trans b2.symm)
  · simp only [binding] at h1 h2 h3
    rcases a3 with a3 | a3
    · exact h1 a3
    · rcases b3 with b3 | b3
      · exact h2 b3
      · exact h3 (a3.trans b3.symm)

theorem conflict_symm (a b : Nat × Int × Int × Int) (h : conflict a b) : conflict b a := by
  intro hs
  rcases h hs.symm with ⟨h1, h2, h3⟩ | ⟨h1, h2, h3⟩ | ⟨h1, h2, h3⟩
  · exact Or.inl ⟨h2, h1, Ne.symm h3⟩
  · exact Or.inr (Or.inl ⟨h2, h1, Ne.symm h3⟩)
  · exact Or.inr (Or.inr ⟨h2, h1, Ne.symm h3⟩)

theorem alone_split (table : List keycmdmap) (kc : keycmdmap) (ks : Nat → KeyState)
    (hw : wellformed table) (hkc : kc ∈ entries table) (hal : alone ks kc.scancode)
    (hm : modsmet ks kc) :
    ∃ pre post, entries table = pre ++ kc :: post
      ∧ (∀ e ∈ pre, e.scancode ≠ 0 ∧ inert ks e) ∧ (∀ e ∈ post, inert ks e) := by
  obtain ⟨pre, post, hsplit⟩ := List.append_of_mem hkc
  have hpw := List.pairwise_map.1 hw.1
  rw [hsplit, List.pairwise_append, List.pairwise_cons] at hpw
  obtain ⟨-, ⟨hpost, -⟩, hpre⟩ := hpw
  have hother : ∀ e ∈ entries table, conflict (binding kc) (binding e) → inert ks e := by
    intro e he hc
    by_cases hs : e.scancode = kc.scancode
    · exact inert_of_not_modsmet ks e (modsmet_conflict ks kc e hs.symm hc hm)
    · have hsh := (hw.2 (binding e) (List.mem_map_of_mem binding he)).1
      exact inert_of_off ks e (hal e.scancode hs hsh)
  refine ⟨pre, post, hsplit, ?_, ?_⟩
  · intro e he
    have hmem : e ∈ entries table := by
      rw [hsplit]; exact List.mem_append_left _ he
    exact ⟨entries_ne_zero table e hmem,
      hother e hmem (conflict_symm _ _ (hpre e he kc (List.mem_cons_self _ _)))⟩
  · intro e he
    have hmem : e ∈ entries table := by
      rw [hsplit]; exact List.mem_append_right _ (List.mem_cons_of_mem _ he)
    exact hother e hmem (hpost e he)

theorem scankeys_alone (c : Cmds) (j : Bool) (m : Nat → Nat) (ks : Nat → KeyState)
    (table : List keycmdmap) (kc : keycmdmap) (lf : Bool)
    (hw : wellformed table) (hkc : kc ∈ entries table) (hal : alone ks kc.scancode)
    (hm : modsmet ks kc) :
    scankeys c j m ks table 0 0 lf =
      if asserted ks kc then
        if j = false ∨ kc.cmd > c.CmdKeyMoveLast ∨ m kc.cmd = 0 then .ret kc.cmd
        else .done kc.cmd 0 lf
      else if fallback ks kc then .done 0 kc.cmd lf
      else if lingers ks kc then .done 0 0 true
      else .done 0 0 lf := by
  obtain ⟨pre, post, hsplit, hpre, hpost⟩ := alone_split table kc ks hw hkc hal hm
  rw [scankeys_entries, hsplit]
  exact scankeys_single c j m ks pre post kc lf hpre hpost (entries_ne_zero table kc hkc)

/-- The result of a non-blocking poll when the key of `kc` is the only active
key at the scan. -/
theorem input_alone (c : Cmds) (wmp : Int → Int → Int) (st st1 : State) (events : List Event)
    (kc : keycmdmap) (hpump : eventupdate (ticked st) events = some st1)
    (hw : wellformed st1.keycmds) (hkc : kc ∈ entries st1.keycmds)
    (hal : alone st1.keystates kc.scancode) (hm : modsmet st1.keystates kc)
    (hmouse : st1.mouseinfo.state = KS_OFF) (hcmd : kc.cmd ≠ 0) :
    input c wmp false st events []
      = some ((answer c kc (st1.keystates kc.scancode) : Int), st1) := by
  have hr : retrievemousecommand c wmp st1.mouseinfo = (0, st1.mouseinfo) := by
    unfold retrievemousecommand
    rw [hmouse]
  unfold ticked at hpump
  unfold input inputloop
  simp only [hpump, resolve]
  rw [scankeys_alone c st1.joystickstyle st1.mergeable st1.keystates st1.keycmds kc false hw hkc
    hal hm]
  simp only [asserted, fallback, lingers, hm, true_and, hr]
  cases hs : st1.keystates kc.scancode <;> cases hh : kc.hold <;>
    simp [answer, hcmd, hh]
  all_goals split_ifs <;> simp [hcmd]

theorem entries_plain (table : List keycmdmap) (kc : keycmdmap) (hw : wellformed table)
    (hkc : kc ∈ entries table) :
    shifttype kc.scancode = false ∧ kc.scancode < SDL_NUM_SCANCODES :=
  hw.2 (binding kc) (List.mem_map_of_mem binding hkc)

theorem resetkeystates_apply (j : Bool) (ks : Nat → KeyState) (n : Nat)
    (hn : n < SDL_NUM_SCANCODES) : resetkeystates j ks n = trans j (ks n) := by
  simp only [resetkeystates, hn, if_true, trans]

theorem trans_steady (j : Bool) (k : KeyState) (h : k = KS_ON ∨ k = KS_OFF) : trans j k = k := by
  rcases h with rfl | rfl <;> cases j <;> rfl

theorem eitherdown_congr (ks ks2 : Nat → KeyState) (l r : Nat) (hl : ks2 l = ks l)
    (hr : ks2 r = ks r) : eitherdown ks2 l r = eitherdown ks l r := by
  simp only [eitherdown, hl, hr]

theorem modsmet_congr (ks ks2 : Nat → KeyState) (kc : keycmdmap)
    (h : ∀ n ∈ [SDL_SCANCODE_LSHIFT, SDL_SCANCODE_RSHIFT, SDL_SCANCODE_LCTRL,
      SDL_SCANCODE_RCTRL, SDL_SCANCODE_LALT, SDL_SCANCODE_RALT], ks2 n = ks n)
    (hm : modsmet ks kc) : modsmet ks2 kc := by
  unfold modsmet
  rw [eitherdown_congr ks ks2 _ _ (h _ (by simp)) (h _ (by simp)),
    eitherdown_congr ks ks2 _ _ (h _ (by simp)) (h _ (by simp)),
    eitherdown_congr ks ks2 _ _ (h _ (by simp)) (h _ (by simp))]
  exact hm

theorem ticked_mods (j : Bool) (ks : Nat → KeyState) (hs : modssteady ks) :
    ∀ n ∈ [SDL_SCANCODE_LSHIFT, SDL_SCANCODE_RSHIFT, SDL_SCANCODE_LCTRL,
      SDL_SCANCODE_RCTRL, SDL_SCANCODE_LALT, SDL_SCANCODE_RALT],
      resetkeystates j ks n = ks n := by
  intro n hn
  have hlt : n < SDL_NUM_SCANCODES := by
    simp only [List.mem_cons, List.mem_singleton, List.not_mem_nil, or_false] at hn
    rcases hn with rfl | rfl | rfl | rfl | rfl | rfl <;> decide
  rw [resetkeystates_apply j ks n hlt]
  exact trans_steady j _ (hs n hn)

/-- `resetkeystates` keeps the key alone and moves it along the transition
table. -/
theorem solo_ticked (st : State) (kc : keycmdmap) (s : KeyState) (h : solo st kc s) :
    solo (ticked st) kc (trans st.joystickstyle s) := by
  obtain ⟨⟨hw, hkc⟩, hal, hk, hm, hs, hmouse⟩ := h
  have hp := entries_plain _ kc hw hkc
  have hmods := ticked_mods st.joystickstyle st.keystates hs
  refine ⟨⟨hw, hkc⟩, ?_, ?_, ?_, ?_, hmouse⟩
  · intro n hn hsh
    show resetkeystates st.joystickstyle st.keystates n = KS_OFF
    by_cases hlt : n < SDL_NUM_SCANCODES
    · rw [resetkeystates_apply _ _ n hlt, hal n hn hsh]
      cases st.joystickstyle <;> rfl
    · simp only [resetkeystates, hlt, if_false]
      exact hal n hn hsh
  · show resetkeystates st.joystickstyle st.keystates kc.scancode = _
    rw [resetkeystates_apply _ _ _ hp.2, hk]
  · exact modsmet_congr st.keystates _ kc hmods hm
  · intro n hn
    show resetkeystates st.joystickstyle st.keystates n = KS_ON
      ∨ resetkeystates st.joystickstyle st.keystates n = KS_OFF
    rw [hmods n hn]
    exact hs n hn

theorem eventupdate_nil (st : State) : eventupdate st [] = some st := rfl

/-- A press of the key while it is off makes it pressed and keeps it alone. -/
theorem solo_press (st : State) (kc : keycmdmap) (h : solo st kc KS_OFF) :
    ∃ st1, eventupdate st [.key kc.scancode true] = some st1 ∧ solo st1 kc KS_PRESSED
      ∧ st1.joystickstyle = st.joystickstyle := by
  obtain ⟨⟨hw, hkc⟩, hal, hk, hm, hs, hmouse⟩ := h
  have hp := entries_plain _ kc hw hkc
  refine ⟨{ st with keystates := Function.update st.keystates kc.scancode KS_PRESSED }, ?_, ?_,
    rfl⟩
  · simp [eventupdate, deliver, keyevent_nat, hp.1, hp.2, hk]
  · have hne : ∀ n ∈ [SDL_SCANCODE_LSHIFT, SDL_SCANCODE_RSHIFT, SDL_SCANCODE_LCTRL,
        SDL_SCANCODE_RCTRL, SDL_SCANCODE_LALT, SDL_SCANCODE_RALT],
        Function.update st.keystates kc.scancode KS_PRESSED n = st.keystates n := by
      intro n hn
      apply Function.update_noteq
      intro heq
      have hsh : shifttype (n : Int) = true := by
        simp only [List.mem_cons, List.mem_singleton, List.not_mem_nil, or_false] at hn
        rcases hn with rfl | rfl | rfl | rfl | rfl | rfl <;> decide
      rw [heq, hp.1] at hsh
      exact Bool.false_ne_true hsh
    refine ⟨⟨hw, hkc⟩, ?_, ?_, ?_, ?_, hmouse⟩
    · intro n hn hsh
      show Function.update st.keystates kc.scancode KS_PRESSED n = KS_OFF
      rw [Function.update_noteq hn]
      exact hal n hn hsh
    · show Function.update st.keystates kc.scancode KS_PRESSED kc.scancode = KS_PRESSED
      exact Function.update_same _ _ _
    · exact modsmet_congr st.keystates _ kc hne hm
    · intro n hn
      show Function.update st.keystates kc.scancode KS_PRESSED n = KS_ON
        ∨ Function.update st.keystates kc.scancode KS_PRESSED n = KS_OFF
      rw [hne n hn]
      exact hs n hn

theorem input_solo (c : Cmds) (wmp : Int → Int → Int) (st st1 : State) (events : List Event)
    (kc : keycmdmap) (s : KeyState) (hpump : eventupdate (ticked st) events = some st1)
    (h : solo st1 kc s) (hcmd : kc.cmd ≠ 0) :
    input c wmp false st events [] = some ((answer c kc s : Int), st1) := by
  obtain ⟨⟨hw, hkc⟩, hal, hk, hm, -, hmouse⟩ := h
  rw [input_alone c wmp st st1 events kc hpump hw hkc hal hm hmouse hcmd, hk]

theorem polls_cons (c : Cmds) (wmp : Int → Int → Int) (st st1 : State) (events : List Event)
    (ticks : List (List Event)) (cmd : Int)
    (h : input c wmp false st events [] = some (cmd, st1)) :
    polls c wmp st (events :: ticks) = (polls c wmp st1 ticks).map (fun cmds => cmd :: cmds) := by
  simp only [polls, h]

/-- One poll without events, for an entry bound to the only active key. -/
theorem polls_idle (c : Cmds) (wmp : Int → Int → Int) (st : State) (kc : keycmdmap)
    (s : KeyState) (ticks : List (List Event)) (h : solo st kc s) (hcmd : kc.cmd ≠ 0) :
    polls c wmp st ([] :: ticks)
      = (polls c wmp (ticked st) ticks).map
          (fun cmds => (answer c kc (trans st.joystickstyle s) : Int) :: cmds) :=
  polls_cons c wmp st (ticked st) [] ticks _
    (input_solo c wmp st (ticked st) [] kc _ (eventupdate_nil _) (solo_ticked st kc s h) hcmd)

/-- A key that is down stays down: every poll gives the same answer. -/
theorem polls_down (c : Cmds) (wmp : Int → Int → Int) (kc : keycmdmap) (hcmd : kc.cmd ≠ 0)
    (k : Nat) : ∀ st : State, solo st kc KS_DOWN →
      polls c wmp st (List.replicate k [])
        = some (List.replicate k (answer c kc KS_DOWN : Int)) := by
  induction k with
  | zero => intro st _; rfl
  | succ k ih =>
    intro st h
    have h2 := solo_ticked st kc KS_DOWN h
    have ht : trans st.joystickstyle KS_DOWN = KS_DOWN := by
      cases st.joystickstyle <;> rfl
    rw [ht] at h2
    rw [List.replicate_succ, polls_idle c wmp st kc KS_DOWN _ h hcmd, ih _ h2, ht]
    rfl

section scantap
variable (c : Cmds) (j : Bool) (m : Nat → Nat) (ks : Nat → KeyState)

/-- Once a primary command is set, the scan ends with it or returns its merge
with the command of a later asserted entry. -/
theorem scankeys_from_primary (post : List keycmdmap) (cmd1 cmd : Nat) (lf : Bool)
    (h1 : cmd1 ≠ 0) :
    (∃ cmd2 lf2, scankeys c j m ks post cmd1 cmd lf = .done cmd1 cmd2 lf2)
    ∨ (∃ b ∈ post, asserted ks b ∧ scankeys c j m ks post cmd1 cmd lf = .ret (cmd1 ||| b.cmd)) := by
  induction post generalizing cmd lf with
  | nil => exact Or.inl ⟨cmd, lf, rfl⟩
  | cons e post ih =>
    have lift : ∀ cmd3 lf3,
        ((∃ cmd2 lf2, scankeys c j m ks post cmd1 cmd3 lf3 = .done cmd1 cmd2 lf2)
        ∨ (∃ b ∈ post, asserted ks b
            ∧ scankeys c j m ks post cmd1 cmd3 lf3 = .ret (cmd1 ||| b.cmd))) →
        ((∃ cmd2 lf2, scankeys c j m ks post cmd1 cmd3 lf3 = .done cmd1 cmd2 lf2)
        ∨ (∃ b ∈ e :: post, asserted ks b
            ∧ scankeys c j m ks post cmd1 cmd3 lf3 = .ret (cmd1 ||| b.cmd))) := by
      intro cmd3 lf3 h
      rcases h with h | ⟨b, hb, hab, hr⟩
      · exact Or.inl h
      · exact Or.inr ⟨b, List.mem_cons_of_mem _ hb, hab, hr⟩
    rw [scankeys_cons]
    by_cases hz : e.scancode = 0
    · simp only [hz, if_true]
      exact Or.inl ⟨cmd, lf, rfl⟩
    simp only [hz, if_false, h1]
    by_cases ha : asserted ks e
    · simp only [ha, if_true]
      by_cases hmg : cmd1 ≤ c.CmdKeyMoveLast ∧ (m cmd1 &&& e.cmd) = e.cmd
      · simp only [hmg, and_self, if_true]
        exact Or.inr ⟨e, List.mem_cons_self _ _, ha, rfl⟩
      · simp only [hmg, if_false]
        exact lift _ _ (ih _ _)
    · simp only [ha, if_false]
      split_ifs
      · exact lift _ _ (ih _ _)
      · exact lift _ _ (ih _ _)
      · exact lift _ _ (ih _ _)

theorem scankeys_quiet (l : List keycmdmap) (cmd1 cmd : Nat) (lf : Bool)
    (h : ∀ e ∈ l, ¬ asserted ks e ∧ ¬ fallback ks e) :
    ∃ lf2, scankeys c j m ks l cmd1 cmd lf = .done cmd1 cmd lf2 := by
  induction l generalizing lf with
  | nil => exact ⟨lf, rfl⟩
  | cons e l ih =>
    have he := h e (List.mem_cons_self _ _)
    have hrest := fun e2 h2 => h e2 (List.mem_cons_of_mem _ h2)
    rw [scankeys_cons]
    by_cases hz : e.scancode = 0
    · simp only [hz, if_true]
      exact ⟨lf, rfl⟩
    simp only [hz, he.1, he.2, if_false]
    split_ifs
    · exact ih _ hrest
    · exact ih _ hrest

end scantap

theorem input_of_scan_fallback (c : Cmds) (wmp : Int → Int → Int) (wait : Bool) (st st1 : State)
    (events : List Event) (pumps : List (List Event)) (cmd : Nat) (lf : Bool)
    (hpump : eventupdate (ticked st) events = some st1)
    (hscan : scankeys c st1.joystickstyle st1.mergeable st1.keystates st1.keycmds 0 0 false
      = .done 0 cmd lf) (h1 : cmd ≠ 0) :
    input c wmp wait st events pumps = some ((cmd : Int), st1) := by
  unfold input inputloop
  unfold ticked at hpump
  cases pumps <;> simp [hpump, resolve, hscan, h1]

/-- C5 (amended): a tap is reported unless another entry pre-empts it. For
either repeat style and any command table, let `kc` be a table entry with a
non-zero command whose requirements are met at the scan, `pre` the entries
before it and `post` those after it. If its key is pressed and no earlier entry
is asserted, `input` returns `kc.cmd` or the merge of `kc.cmd` with the command
of a later asserted entry. If its key is struck, no entry is asserted and no
later entry is struck or repeating, `input` returns `kc.cmd`. -/
theorem C5_tap_reported_unless_preempted (c : Cmds) (windowmappos : Int → Int → Int)
    (wait : Bool) (st st1 : State) (events : List Event) (pumps : List (List Event))
    (pre post : List keycmdmap) (kc : keycmdmap)
    (hpump : eventupdate (ticked st) events = some st1)
    (hsplit : entries st1.keycmds = pre ++ kc :: post)
    (hmods : modsmet st1.keystates kc) (hcmd : kc.cmd ≠ 0)
    (hstate : st1.keystates kc.scancode = KS_PRESSED ∨ st1.keystates kc.scancode = KS_STRUCK)
    (hpre : ∀ e ∈ pre, ¬ asserted st1.keystates e)
    (hpost : st1.keystates kc.scancode = KS_STRUCK →
      ∀ e ∈ post, ¬ asserted st1.keystates e ∧ ¬ fallback st1.keystates e) :
    input c windowmappos wait st events pumps = some ((kc.cmd : Int), st1)
    ∨ ∃ b ∈ post, asserted st1.keystates b
        ∧ input c windowmappos wait st events pumps
          = some (((kc.cmd ||| b.cmd : Nat) : Int), st1) := by
  have hz : kc.scancode ≠ 0 :=
    entries_ne_zero st1.keycmds kc (by rw [hsplit]; simp)
  have hpre2 : ∀ e ∈ pre, e.scancode ≠ 0 ∧ ¬ asserted st1.keystates e := fun e he =>
    ⟨entries_ne_zero st1.keycmds e (by rw [hsplit]; exact List.mem_append_left _ he), hpre e he⟩
  obtain ⟨cmd2, lf2, hskip⟩ := scankeys_skip_unasserted c st1.mergeable st1.keystates pre
    (kc :: post) 0 0 false st1.joystickstyle hpre2
  have hscan0 : scankeys c st1.joystickstyle st1.mergeable st1.keystates st1.keycmds 0 0 false
      = scankeys c st1.joystickstyle st1.mergeable st1.keystates (kc :: post) 0 cmd2 lf2 := by
    rw [scankeys_entries, hsplit, hskip]
  rcases hstate with hp | hs
  · have ha : asserted st1.keystates kc := ⟨hmods, Or.inl hp⟩
    rw [scankeys_cons] at hscan0
    simp only [hz, ha, if_true, if_false] at hscan0
    by_cases hnow : st1.joystickstyle = false ∨ kc.cmd > c.CmdKeyMoveLast
        ∨ st1.mergeable kc.cmd = 0
    · simp only [hnow, if_true] at hscan0
      exact Or.inl (input_of_scan_ret c windowmappos wait st st1 events pumps _ hpump hscan0)
    · simp only [hnow, if_false] at hscan0
      rcases scankeys_from_primary c st1.joystickstyle st1.mergeable st1.keystates post kc.cmd
        cmd2 lf2 hcmd with ⟨cmd3, lf3, hd⟩ | ⟨b, hb, hab, hr⟩
      · rw [hd] at hscan0
        exact Or.inl (input_of_scan_primary c windowmappos wait st st1 events pumps _ _ _ hpump
          hscan0 hcmd)
      · rw [hr] at hscan0
        exact Or.inr ⟨b, hb, hab,
          input_of_scan_ret c windowmappos wait st st1 events pumps _ hpump hscan0⟩
  · have hna : ¬ asserted st1.keystates kc := by
      simp [asserted, hs]
    have hf : fallback st1.keystates kc := ⟨hmods, Or.inl hs⟩
    rw [scankeys_cons] at hscan0
    simp only [hz, hna, hf, if_true, if_false] at hscan0
    obtain ⟨lf3, hq⟩ := scankeys_quiet c st1.joystickstyle st1.mergeable st1.keystates post 0
      kc.cmd lf2 (hpost hs)
    rw [hq] at hscan0
    exact Or.inl (input_of_scan_fallback c windowmappos wait st st1 events pumps _ _ hpump
      hscan0 hcmd)

theorem polls_after_press (c : Cmds) (wmp : Int → Int → Int) (st : State) (kc : keycmdmap)
    (ticks : List (List Event)) (h : solo st kc KS_OFF) (hcmd : kc.cmd ≠ 0) :
    ∃ st1, solo st1 kc KS_PRESSED ∧ st1.joystickstyle = st.joystickstyle
      ∧ polls c wmp st ([.key kc.scancode true] :: ticks)
        = (polls c wmp st1 ticks).map (fun cmds => (kc.cmd : Int) :: cmds) := by
  have h1 := solo_ticked st kc KS_OFF h
  have ht : trans st.joystickstyle KS_OFF = KS_OFF := by
    cases st.joystickstyle <;> rfl
  rw [ht] at h1
  obtain ⟨st1, hpump, hs1, hj⟩ := solo_press (ticked st) kc h1
  refine ⟨st1, hs1, hj, ?_⟩
  exact polls_cons c wmp st st1 _ ticks kc.cmd
    (input_solo c wmp st st1 _ kc KS_PRESSED hpump hs1 hcmd)

theorem polls_hold_joystick (c : Cmds) (wmp : Int → Int → Int) (st : State) (kc : keycmdmap)
    (k : Nat) (h : solo st kc KS_PRESSED) (hcmd : kc.cmd ≠ 0) (hj : st.joystickstyle = true) :
    polls c wmp st (List.replicate (1 + k) [])
      = some (List.replicate (1 + k) (answer c kc KS_DOWN : Int)) := by
  have h1 := solo_ticked st kc KS_PRESSED h
  rw [hj] at h1
  rw [Nat.add_comm, List.replicate_succ, polls_idle c wmp st kc KS_PRESSED _ h hcmd,
    polls_down c wmp kc hcmd k _ h1, hj]
  rfl

theorem polls_hold_keyboard (c : Cmds) (wmp : Int → Int → Int) (st : State) (kc : keycmdmap)
    (k : Nat) (h : solo st kc KS_PRESSED) (hcmd : kc.cmd ≠ 0) (hj : st.joystickstyle = false) :
    polls c wmp st (List.replicate (2 + k) [])
      = some ((c.CmdPreserve : Int) :: (c.CmdPreserve : Int)
          :: List.replicate k (answer c kc KS_DOWN : Int)) := by
  have h1 := solo_ticked st kc KS_PRESSED h
  rw [hj] at h1
  have h2 := solo_ticked _ kc _ h1
  have hj1 : (ticked st).joystickstyle = false := hj
  rw [hj1] at h2
  have h3 := solo_ticked _ kc _ h2
  have hj2 : (ticked (ticked st)).joystickstyle = false := hj
  rw [hj2] at h3
  have e2 : 2 + k = (k + 1) + 1 := by omega
  rw [e2, List.replicate_succ, polls_idle c wmp st kc KS_PRESSED _ h hcmd,
    List.replicate_succ, polls_idle c wmp _ kc _ _ h1 hcmd, hj, hj1]
  cases k with
  | zero => rfl
  | succ k =>
    rw [List.replicate_succ, polls_idle c wmp _ kc _ _ h2 hcmd, hj2,
      polls_down c wmp kc hcmd k _ h3]
    rfl

/-- C1 (amended): a key bound to a hold-flagged entry of the game table
(requirements met, no other key active, no pending mouse action) is pressed
while off and then held with no further events. Under joystick style every
poll from the one that observes the press onward returns the entry's command.
Under keyboard style the poll that observes the press returns the command, the
next two polls return `CmdPreserve`, and every later poll returns the
command. -/
theorem C1_hold_key_reports_with_keyboard_linger (c : Cmds) (windowmappos : Int → Int → Int)
    (st : State) (kc : keycmdmap) (k : Nat)
    (htable : st.keycmds = gamekeycmds c) (hkc : kc ∈ entries (gamekeycmds c))
    (hhold : kc.hold = true) (hcmd : kc.cmd ≠ 0)
    (hoff : st.keystates kc.scancode = KS_OFF) (halone : alone st.keystates kc.scancode)
    (hmods : modsmet st.keystates kc) (hsteady : modssteady st.keystates)
    (hmouse : st.mouseinfo.state = KS_OFF) :
    polls c windowmappos st ([.key kc.scancode true] :: List.replicate (2 + k) [])
      = some (if st.joystickstyle then List.replicate (3 + k) (kc.cmd : Int)
          else (kc.cmd : Int) :: (c.CmdPreserve : Int) :: (c.CmdPreserve : Int)
            :: List.replicate k (kc.cmd : Int)) := by
  have h0 : solo st kc KS_OFF := by
    refine ⟨⟨?_, ?_⟩, halone, hoff, hmods, hsteady, hmouse⟩
    · rw [htable]; exact gamekeycmds_wellformed c
    · rw [htable]; exact hkc
  obtain ⟨st1, hs1, hj, hp⟩ := polls_after_press c windowmappos st kc
    (List.replicate (2 + k) []) h0 hcmd
  have hdown : answer c kc KS_DOWN = kc.cmd := by simp [answer, hhold]
  rw [hp]
  cases hstyle : st.joystickstyle with
  | true =>
    have e : 2 + k = 1 + (1 + k) := by omega
    rw [e, polls_hold_joystick c windowmappos st1 kc (1 + k) hs1 hcmd (hj.trans hstyle), hdown]
    have e3 : 3 + k = (1 + (1 + k)) + 1 := by omega
    simp only [Option.map_some', if_true, e3, List.replicate_succ]
  | false =>
    rw [polls_hold_keyboard c windowmappos st1 kc k hs1 hcmd (hj.trans hstyle), hdown]
    simp

theorem iterate_reset_apply (j : Bool) (n : Nat) (hn : n < SDL_NUM_SCANCODES) (i : Nat) :
    ∀ ks : Nat → KeyState, (resetkeystates j)^[i] ks n = (trans j)^[i] (ks n) := by
  induction i with
  | zero => intro ks; rfl
  | succ i ih =>
    intro ks
    rw [Function.iterate_succ_apply, Function.iterate_succ_apply, ih,
      resetkeystates_apply j ks n hn]

theorem keyboard_trans_iterate (i : Nat) : (trans false)^[i] KS_PRESSED = holdstate i := by
  have hdown : ∀ i, (trans false)^[i] KS_DOWN = KS_DOWN := by
    intro i
    induction i with
    | zero => rfl
    | succ i ih => rw [Function.iterate_succ_apply]; exact ih
  match i with
  | 0 => rfl
  | 1 => rfl
  | 2 => rfl
  | i + 3 =>
    rw [Function.iterate_succ_apply, Function.iterate_succ_apply, Function.iterate_succ_apply]
    exact hdown i

/-- The shift-type case labels of `_keyeventcallback` are exactly the
modifier-class keys of the amended statements. -/
theorem shifttype_modifierclass (scancode : Int) :
    shifttype scancode = modifierclass scancode := by
  have h : shifttype scancode = true ↔ modifierclass scancode = true := by
    simp only [shifttype, modifierclass, specmodifier, Bool.or_eq_true, decide_eq_true_eq]
    tauto
  cases hs : shifttype scancode <;> cases hm : modifierclass scancode <;> simp_all

/-- C9 counterexample: the right GUI key (231), which is not among the
modifiers the specification lists, is pressed while off under keyboard-style
repeat. It is on after the press and after one, two and three `resetkeystates`
calls, not pressed, `KS_DOWNBUTOFF1`, `KS_DOWNBUTOFF2`, down. -/
theorem C9_counterexample :
    specmodifier SDL_SCANCODE_RGUI = false
    ∧ keysOf [] SDL_SCANCODE_RGUI = KS_OFF
    ∧ (List.range 4).map (fun i =>
        (_keyeventcallback (keysOf []) SDL_SCANCODE_RGUI true).map
          (fun ks => (resetkeystates false)^[i] ks SDL_SCANCODE_RGUI))
      = [some KS_ON, some KS_ON, some KS_ON, some KS_ON]
    ∧ (List.range 4).map holdstate
      = [KS_PRESSED, KS_DOWNBUTOFF1, KS_DOWNBUTOFF2, KS_DOWN] := by
  decide

/-- C9 (amended): under keyboard-style repeat, a key `n` of the table that is
not a modifier-class key (shift, ctrl, alt, GUI, caps-lock, num-lock,
mode-switch), pressed while off and then held, is pressed, then
`KS_DOWNBUTOFF1`, then `KS_DOWNBUTOFF2`, then down for ever on successive
`resetkeystates` calls; and for a table entry without hold flag (key alone,
requirements met, no pending mouse action) whose command differs from 0 and
from `CmdPreserve`, `input` returns the entry's command on the tick of the
press and `CmdPreserve`, `CmdPreserve`, 0, 0, ... on the later ticks of the
hold, never that command. -/
theorem C9_keyboard_style_press_then_linger (c : Cmds) (windowmappos : Int → Int → Int)
    (st : State) (kc : keycmdmap) (k i n : Nat)
    (hn : n < SDL_NUM_SCANCODES) (hclass : modifierclass n = false)
    (hnoff : st.keystates n = KS_OFF) (hstyle : st.joystickstyle = false)
    (htable : st.keycmds = gamekeycmds c ∨ st.keycmds = inputkeycmds c)
    (hkc : kc ∈ entries st.keycmds) (hhold : kc.hold = false)
    (hcmd : kc.cmd ≠ 0) (hpreserve : kc.cmd ≠ c.CmdPreserve)
    (hoff : st.keystates kc.scancode = KS_OFF) (halone : alone st.keystates kc.scancode)
    (hmods : modsmet st.keystates kc) (hsteady : modssteady st.keystates)
    (hmouse : st.mouseinfo.state = KS_OFF) :
    (_keyeventcallback st.keystates n true).map
        (fun ks => (resetkeystates false)^[i] ks n) = some (holdstate i)
    ∧ polls c windowmappos st ([.key kc.scancode true] :: List.replicate (2 + k) [])
      = some ((kc.cmd : Int) :: (c.CmdPreserve : Int) :: (c.CmdPreserve : Int)
          :: List.replicate k 0)
    ∧ (kc.cmd : Int) ∉ (c.CmdPreserve : Int) :: (c.CmdPreserve : Int) :: List.replicate k 0 := by
  have hw : wellformed st.keycmds := by
    rcases htable with h | h
    · rw [h]; exact gamekeycmds_wellformed c
    · rw [h]; exact inputkeycmds_wellformed c
  have h0 : solo st kc KS_OFF := ⟨⟨hw, hkc⟩, halone, hoff, hmods, hsteady, hmouse⟩
  have hshift : shifttype n = false := by rw [shifttype_modifierclass]; exact hclass
  refine ⟨?_, ?_, ?_⟩
  · rw [keyevent_nat]
    simp only [hshift, hn, hnoff, if_true, Bool.false_eq_true, if_false, Option.map_some',
      Option.some.injEq]
    rw [iterate_reset_apply false _ hn, Function.update_same]
    exact keyboard_trans_iterate i
  · obtain ⟨st1, hs1, hj, hpl⟩ := polls_after_press c windowmappos st kc
      (List.replicate (2 + k) []) h0 hcmd
    have hdown : answer c kc KS_DOWN = 0 := by simp [answer, hhold]
    rw [hpl, polls_hold_keyboard c windowmappos st1 kc k hs1 hcmd (hj.trans hstyle), hdown]
    rfl
  · intro hmem
    simp only [List.mem_cons, List.mem_replicate, Nat.cast_inj] at hmem
    rcases hmem with h | h | h
    · exact hpreserve h
    · exact hpreserve h
    · exact hcmd (by exact_mod_cast h.2)

/-- C1 counterexample: keyboard style, the up arrow pressed while off and then
held. The second and third polls return `CmdPreserve`, not `CmdNorth`. -/
theorem C1_counterexample :
    polls sampleCmds nomap (stateOf sampleCmds false (keysOf []))
        [[.key SDL_SCANCODE_UP true], [], [], []]
      = some [(sampleCmds.CmdNorth : Int), (sampleCmds.CmdPreserve : Int),
          (sampleCmds.CmdPreserve : Int), (sampleCmds.CmdNorth : Int)]
    ∧ sampleCmds.CmdPreserve ≠ sampleCmds.CmdNorth := by
  constructor
  · rfl
  · decide

/-- C1 witness: keyboard style, the up arrow pressed and held for three more
polls. -/
theorem C1_witness :
    (stateOf sampleCmds false (keysOf [])).keycmds = gamekeycmds sampleCmds
    ∧ (⟨SDL_SCANCODE_UP, 0, 0, 0, sampleCmds.CmdNorth, true⟩ : keycmdmap)
        ∈ entries (gamekeycmds sampleCmds)
    ∧ (⟨SDL_SCANCODE_UP, 0, 0, 0, sampleCmds.CmdNorth, true⟩ : keycmdmap).hold = true
    ∧ (⟨SDL_SCANCODE_UP, 0, 0, 0, sampleCmds.CmdNorth, true⟩ : keycmdmap).cmd ≠ 0
    ∧ (stateOf sampleCmds false (keysOf [])).keystates SDL_SCANCODE_UP = KS_OFF
    ∧ alone (stateOf sampleCmds false (keysOf [])).keystates SDL_SCANCODE_UP
    ∧ modsmet (stateOf sampleCmds false (keysOf [])).keystates
        ⟨SDL_SCANCODE_UP, 0, 0, 0, sampleCmds.CmdNorth, true⟩
    ∧ modssteady (stateOf sampleCmds false (keysOf [])).keystates
    ∧ (stateOf sampleCmds false (keysOf [])).mouseinfo.state = KS_OFF
    ∧ polls sampleCmds nomap (stateOf sampleCmds false (keysOf []))
        ([.key SDL_SCANCODE_UP true] :: List.replicate (2 + 1) [])
      = some (if (stateOf sampleCmds false (keysOf [])).joystickstyle
          then List.replicate (3 + 1) (sampleCmds.CmdNorth : Int)
          else (sampleCmds.CmdNorth : Int) :: (sampleCmds.CmdPreserve : Int)
            :: (sampleCmds.CmdPreserve : Int)
            :: List.replicate 1 (sampleCmds.CmdNorth : Int)) :=
  ⟨rfl, by decide, rfl, by decide, rfl, fun _ _ _ => rfl, by decide, by decide, rfl,
    C1_hold_key_reports_with_keyboard_linger sampleCmds nomap (stateOf sampleCmds false (keysOf []))
      ⟨SDL_SCANCODE_UP, 0, 0, 0, sampleCmds.CmdNorth, true⟩ 1 rfl (by decide) rfl (by decide) rfl
      (fun _ _ _ => rfl) (by decide) (by decide) rfl⟩

/-- C9 witness: keyboard style; the states of the A key three ticks after its
press, and Q pressed and held for four more polls. -/
theorem C9_witness :
    SDL_SCANCODE_A < SDL_NUM_SCANCODES ∧ modifierclass SDL_SCANCODE_A = false
    ∧ (stateOf sampleCmds false (keysOf [])).keystates SDL_SCANCODE_A = KS_OFF
    ∧ (stateOf sampleCmds false (keysOf [])).joystickstyle = false
    ∧ ((stateOf sampleCmds false (keysOf [])).keycmds = gamekeycmds sampleCmds
      ∨ (stateOf sampleCmds false (keysOf [])).keycmds = inputkeycmds sampleCmds)
    ∧ (⟨SDL_SCANCODE_Q, 0, 0, 0, sampleCmds.CmdQuitLevel, false⟩ : keycmdmap)
        ∈ entries (stateOf sampleCmds false (keysOf [])).keycmds
    ∧ (⟨SDL_SCANCODE_Q, 0, 0, 0, sampleCmds.CmdQuitLevel, false⟩ : keycmdmap).hold = false
    ∧ (⟨SDL_SCANCODE_Q, 0, 0, 0, sampleCmds.CmdQuitLevel, false⟩ : keycmdmap).cmd ≠ 0
    ∧ (⟨SDL_SCANCODE_Q, 0, 0, 0, sampleCmds.CmdQuitLevel, false⟩ : keycmdmap).cmd
        ≠ sampleCmds.CmdPreserve
    ∧ (stateOf sampleCmds false (keysOf [])).keystates SDL_SCANCODE_Q = KS_OFF
    ∧ alone (stateOf sampleCmds false (keysOf [])).keystates SDL_SCANCODE_Q
    ∧ modsmet (stateOf sampleCmds false (keysOf [])).keystates
        ⟨SDL_SCANCODE_Q, 0, 0, 0, sampleCmds.CmdQuitLevel, false⟩
    ∧ modssteady (stateOf sampleCmds false (keysOf [])).keystates
    ∧ (stateOf sampleCmds false (keysOf [])).mouseinfo.state = KS_OFF
    ∧ ((_keyeventcallback (stateOf sampleCmds false (keysOf [])).keystates SDL_SCANCODE_A
          true).map (fun ks => (resetkeystates false)^[3] ks SDL_SCANCODE_A)
        = some (holdstate 3)
      ∧ polls sampleCmds nomap (stateOf sampleCmds false (keysOf []))
          ([.key SDL_SCANCODE_Q true] :: List.replicate (2 + 2) [])
        = some ((sampleCmds.CmdQuitLevel : Int) :: (sampleCmds.CmdPreserve : Int)
            :: (sampleCmds.CmdPreserve : Int) :: List.replicate 2 0)
      ∧ (sampleCmds.CmdQuitLevel : Int)
          ∉ (sampleCmds.CmdPreserve : Int) :: (sampleCmds.CmdPreserve : Int)
            :: List.replicate 2 0) :=
  ⟨by decide, by decide, rfl, rfl, Or.inl rfl, by decide, rfl, by decide, by decide, rfl,
    fun _ _ _ => rfl, by decide, by decide, rfl,
    C9_keyboard_style_press_then_linger sampleCmds nomap (stateOf sampleCmds false (keysOf []))
      ⟨SDL_SCANCODE_Q, 0, 0, 0, sampleCmds.CmdQuitLevel, false⟩ 2 3 SDL_SCANCODE_A (by decide)
      (by decide) rfl rfl (Or.inl rfl) (by decide) rfl (by decide) (by decide) rfl
      (fun _ _ _ => rfl) (by decide) (by decide) rfl⟩

/-- C6 witness: joystick style, up pressed and right down: `input` returns
`CmdNorth | CmdEast`. -/
theorem C6_witness :
    dircmds sampleCmds
    ∧ (stateOf sampleCmds true
        (keysOf [(SDL_SCANCODE_UP, KS_PRESSED), (SDL_SCANCODE_RIGHT, KS_DOWN)])).joystickstyle
        = true
    ∧ (stateOf sampleCmds true
        (keysOf [(SDL_SCANCODE_UP, KS_PRESSED), (SDL_SCANCODE_RIGHT, KS_DOWN)])).keycmds
        = gamekeycmds sampleCmds
    ∧ (stateOf sampleCmds true
        (keysOf [(SDL_SCANCODE_UP, KS_PRESSED), (SDL_SCANCODE_RIGHT, KS_DOWN)])).mergeable
        = ( _sdlinputinitialize sampleCmds (initialState sampleCmds)).mergeable
    ∧ eventupdate (ticked (stateOf sampleCmds true
        (keysOf [(SDL_SCANCODE_UP, KS_PRESSED), (SDL_SCANCODE_RIGHT, KS_DOWN)]))) []
      = some (ticked (stateOf sampleCmds true
        (keysOf [(SDL_SCANCODE_UP, KS_PRESSED), (SDL_SCANCODE_RIGHT, KS_DOWN)])))
    ∧ (SDL_SCANCODE_UP, sampleCmds.CmdNorth) ∈ verticalkeys sampleCmds
    ∧ (SDL_SCANCODE_RIGHT, sampleCmds.CmdEast) ∈ horizontalkeys sampleCmds
    ∧ held ((ticked (stateOf sampleCmds true
        (keysOf [(SDL_SCANCODE_UP, KS_PRESSED), (SDL_SCANCODE_RIGHT, KS_DOWN)]))).keystates
          SDL_SCANCODE_UP)
    ∧ held ((ticked (stateOf sampleCmds true
        (keysOf [(SDL_SCANCODE_UP, KS_PRESSED), (SDL_SCANCODE_RIGHT, KS_DOWN)]))).keystates
          SDL_SCANCODE_RIGHT)
    ∧ (∀ n ∈ arrowkeys, n ≠ SDL_SCANCODE_UP → n ≠ SDL_SCANCODE_RIGHT →
        ¬ held ((ticked (stateOf sampleCmds true
          (keysOf [(SDL_SCANCODE_UP, KS_PRESSED), (SDL_SCANCODE_RIGHT, KS_DOWN)]))).keystates n))
    ∧ modsoff (ticked (stateOf sampleCmds true
        (keysOf [(SDL_SCANCODE_UP, KS_PRESSED), (SDL_SCANCODE_RIGHT, KS_DOWN)]))).keystates
    ∧ input sampleCmds nomap false (stateOf sampleCmds true
        (keysOf [(SDL_SCANCODE_UP, KS_PRESSED), (SDL_SCANCODE_RIGHT, KS_DOWN)])) [] []
      = some (((sampleCmds.CmdNorth ||| sampleCmds.CmdEast : Nat) : Int),
        ticked (stateOf sampleCmds true
        (keysOf [(SDL_SCANCODE_UP, KS_PRESSED), (SDL_SCANCODE_RIGHT, KS_DOWN)]))) :=
  ⟨by decide, rfl, rfl, rfl, rfl, by decide, by decide, by decide, by decide, by decide,
    by decide,
    C6_joystick_merges_orthogonal_arrows sampleCmds nomap false _ _ [] []
      (SDL_SCANCODE_UP, sampleCmds.CmdNorth) (SDL_SCANCODE_RIGHT, sampleCmds.CmdEast)
      (by decide) rfl rfl rfl rfl (by decide) (by decide) (by decide) (by decide) (by decide)
      (by decide)⟩

/-- C5 counterexample: keyboard style, game table, up and right both pressed
during one pump. Right is pressed at the scan with its requirements met, yet
the poll returns `CmdNorth`, which is neither `CmdEast` nor a merged command
containing it. -/
theorem C5_counterexample :
    (input sampleCmds nomap false (stateOf sampleCmds false (keysOf []))
        [.key SDL_SCANCODE_UP true, .key SDL_SCANCODE_RIGHT true] []).map
      (fun r => (r.1, r.2.keystates SDL_SCANCODE_RIGHT,
        decide (modsmet r.2.keystates ⟨SDL_SCANCODE_RIGHT, 0, 0, 0, sampleCmds.CmdEast, true⟩)))
      = some ((sampleCmds.CmdNorth : Int), KS_PRESSED, true)
    ∧ (⟨SDL_SCANCODE_RIGHT, 0, 0, 0, sampleCmds.CmdEast, true⟩ : keycmdmap)
        ∈ entries (gamekeycmds sampleCmds)
    ∧ sampleCmds.CmdNorth ≠ sampleCmds.CmdEast
    ∧ sampleCmds.CmdNorth &&& sampleCmds.CmdEast ≠ sampleCmds.CmdEast := by
  refine ⟨by rfl, by decide, by decide, by decide⟩

/-- C5 witness: keyboard style, the up arrow lingering, Q pressed and released
within one pump: the poll returns `CmdQuitLevel`. -/
theorem C5_witness :
    eventupdate (ticked lingerExample) [.key SDL_SCANCODE_Q true, .key SDL_SCANCODE_Q false]
      = some struckExample
    ∧ entries struckExample.keycmds
      = (entries (gamekeycmds sampleCmds)).take 8
        ++ ⟨SDL_SCANCODE_Q, 0, 0, 0, sampleCmds.CmdQuitLevel, false⟩
          :: (entries (gamekeycmds sampleCmds)).drop 9
    ∧ modsmet struckExample.keystates ⟨SDL_SCANCODE_Q, 0, 0, 0, sampleCmds.CmdQuitLevel, false⟩
    ∧ (⟨SDL_SCANCODE_Q, 0, 0, 0, sampleCmds.CmdQuitLevel, false⟩ : keycmdmap).cmd ≠ 0
    ∧ (struckExample.keystates SDL_SCANCODE_Q = KS_PRESSED
      ∨ struckExample.keystates SDL_SCANCODE_Q = KS_STRUCK)
    ∧ (∀ e ∈ (entries (gamekeycmds sampleCmds)).take 8, ¬ asserted struckExample.keystates e)
    ∧ (struckExample.keystates SDL_SCANCODE_Q = KS_STRUCK →
        ∀ e ∈ (entries (gamekeycmds sampleCmds)).drop 9,
          ¬ asserted struckExample.keystates e ∧ ¬ fallback struckExample.keystates e)
    ∧ (input sampleCmds nomap false lingerExample
          [.key SDL_SCANCODE_Q true, .key SDL_SCANCODE_Q false] []
        = some ((sampleCmds.CmdQuitLevel : Int), struckExample)
      ∨ ∃ b ∈ (entries (gamekeycmds sampleCmds)).drop 9, asserted struckExample.keystates b
          ∧ input sampleCmds nomap false lingerExample
              [.key SDL_SCANCODE_Q true, .key SDL_SCANCODE_Q false] []
            = some (((sampleCmds.CmdQuitLevel ||| b.cmd : Nat) : Int), struckExample)) :=
  ⟨rfl, by decide, by decide, by decide, by decide, by decide, by decide,
    C5_tap_reported_unless_preempted sampleCmds nomap false lingerExample struckExample
      [.key SDL_SCANCODE_Q true, .key SDL_SCANCODE_Q false] []
      ((entries (gamekeycmds sampleCmds)).take 8) ((entries (gamekeycmds sampleCmds)).drop 9)
      ⟨SDL_SCANCODE_Q, 0, 0, 0, sampleCmds.CmdQuitLevel, false⟩
      rfl (by decide) (by decide) (by decide) (by decide) (by decide) (by decide)⟩

/-! ## Events, ticks, the mouse and the scan in detail -/

/-- C11 counterexample: the left GUI key (227), which is not among the
modifier-class codes the specification lists, is pressed while off. It becomes
on, not pressed; released while pressed it becomes off, not struck. -/
theorem C11_counterexample :
    SDL_SCANCODE_LGUI < SDL_NUM_SCANCODES
    ∧ specmodifier SDL_SCANCODE_LGUI = false
    ∧ keysOf [] SDL_SCANCODE_LGUI = KS_OFF
    ∧ (_keyeventcallback (keysOf []) SDL_SCANCODE_LGUI true).map
        (fun ks => ks SDL_SCANCODE_LGUI) = some KS_ON
    ∧ KS_ON ≠ KS_PRESSED
    ∧ (_keyeventcallback (keysOf [(SDL_SCANCODE_LGUI, KS_PRESSED)]) SDL_SCANCODE_LGUI false).map
        (fun ks => ks SDL_SCANCODE_LGUI) = some KS_OFF
    ∧ KS_OFF ≠ KS_STRUCK := by
  decide

/-- C11 (amended): `_keyeventcallback` on a scan code of the table changes
only that code's entry, and sets it as follows: a modifier-class code (shift,
ctrl, alt, GUI, caps-lock, num-lock, mode-switch) becomes on when pressed and
off when released, whatever its previous state; any other code becomes pressed
when pressed while off and repeating when pressed otherwise, and becomes struck
when released while pressed and off when released otherwise. -/
theorem C11_key_event_sets_one_entry (keystates : Nat → KeyState) (n : Nat) (down : Bool)
    (hn : n < SDL_NUM_SCANCODES) :
    _keyeventcallback keystates n down = some (Function.update keystates n
      (if modifierclass n then (if down then KS_ON else KS_OFF)
       else if down then (if keystates n = KS_OFF then KS_PRESSED else KS_REPEATING)
       else (if keystates n = KS_PRESSED then KS_STRUCK else KS_OFF))) := by
  rw [keyevent_nat, shifttype_modifierclass]
  simp only [hn, if_true]
  split_ifs <;> rfl

/-- C11 witness: Q pressed again while it is down becomes repeating. -/
theorem C11_witness :
    SDL_SCANCODE_Q < SDL_NUM_SCANCODES
    ∧ _keyeventcallback (keysOf [(SDL_SCANCODE_Q, KS_DOWN)]) SDL_SCANCODE_Q true
      = some (Function.update (keysOf [(SDL_SCANCODE_Q, KS_DOWN)]) SDL_SCANCODE_Q
        (if modifierclass SDL_SCANCODE_Q then (if true then KS_ON else KS_OFF)
         else if true then
          (if keysOf [(SDL_SCANCODE_Q, KS_DOWN)] SDL_SCANCODE_Q = KS_OFF then KS_PRESSED
            else KS_REPEATING)
         else (if keysOf [(SDL_SCANCODE_Q, KS_DOWN)] SDL_SCANCODE_Q = KS_PRESSED then KS_STRUCK
            else KS_OFF))) :=
  ⟨by decide, C11_key_event_sets_one_entry _ SDL_SCANCODE_Q true (by decide)⟩

/-- C12: `resetkeystates` replaces the state of every scan code of the table
by its image under the transition table selected by the style flag, and does
nothing else: every transition the specification lists for the selected style
is the one the code makes, the entries beyond the table and the other
variables are untouched. -/
theorem C12_reset_applies_transition_table (st : State) (n : Nat) (p : KeyState × KeyState)
    (hn : n < SDL_NUM_SCANCODES)
    (hp : p ∈ (if st.joystickstyle then joystickpairs else keyboardpairs))
    (hs : st.keystates n = p.1) :
    resetkeystates st.joystickstyle st.keystates n = p.2
    ∧ (∀ i, i < SDL_NUM_SCANCODES → resetkeystates st.joystickstyle st.keystates i
        = (if st.joystickstyle then joystick_trans else keyboard_trans) (st.keystates i))
    ∧ (∀ i, SDL_NUM_SCANCODES ≤ i →
        resetkeystates st.joystickstyle st.keystates i = st.keystates i)
    ∧ (ticked st).mouseinfo = st.mouseinfo ∧ (ticked st).joystickstyle = st.joystickstyle
    ∧ (ticked st).keycmds = st.keycmds ∧ (ticked st).mergeable = st.mergeable := by
  refine ⟨?_, ?_, ?_, rfl, rfl, rfl, rfl⟩
  · simp only [resetkeystates, hn, if_true, hs]
    cases hj : st.joystickstyle
    · simp only [hj, Bool.false_eq_true, if_false, keyboardpairs, List.mem_cons,
        List.mem_singleton, List.not_mem_nil, or_false] at hp ⊢
      rcases hp with rfl | rfl | rfl | rfl | rfl | rfl | rfl | rfl <;> rfl
    · simp only [hj, if_true, joystickpairs, List.mem_cons, List.mem_singleton,
        List.not_mem_nil, or_false] at hp ⊢
      rcases hp with rfl | rfl | rfl | rfl | rfl | rfl | rfl | rfl | rfl <;> rfl
  · intro i hi
    simp only [resetkeystates, hi, if_true]
  · intro i hi
    have : ¬ i < SDL_NUM_SCANCODES := by omega
    simp only [resetkeystates, this, if_false]

/-- C12 witness: keyboard style, the up arrow pressed becomes
`KS_DOWNBUTOFF1`. -/
theorem C12_witness :
    SDL_SCANCODE_UP < SDL_NUM_SCANCODES
    ∧ (KS_PRESSED, KS_DOWNBUTOFF1) ∈ (if lingerExample.joystickstyle then joystickpairs
        else keyboardpairs)
    ∧ lingerExample.keystates SDL_SCANCODE_UP = (KS_PRESSED, KS_DOWNBUTOFF1).1
    ∧ (resetkeystates lingerExample.joystickstyle lingerExample.keystates SDL_SCANCODE_UP
        = (KS_PRESSED, KS_DOWNBUTOFF1).2
      ∧ (∀ i, i < SDL_NUM_SCANCODES →
          resetkeystates lingerExample.joystickstyle lingerExample.keystates i
          = (if lingerExample.joystickstyle then joystick_trans else keyboard_trans)
              (lingerExample.keystates i))
      ∧ (∀ i, SDL_NUM_SCANCODES ≤ i →
          resetkeystates lingerExample.joystickstyle lingerExample.keystates i
          = lingerExample.keystates i)
      ∧ (ticked lingerExample).mouseinfo = lingerExample.mouseinfo
      ∧ (ticked lingerExample).joystickstyle = lingerExample.joystickstyle
      ∧ (ticked lingerExample).keycmds = lingerExample.keycmds
      ∧ (ticked lingerExample).mergeable = lingerExample.mergeable) :=
  ⟨by decide, by decide, rfl,
    C12_reset_applies_transition_table lingerExample SDL_SCANCODE_UP
      (KS_PRESSED, KS_DOWNBUTOFF1) (by decide) (by decide) rfl⟩

/-- C15: `_mouseeventcallback` with `down` false leaves the pending mouse
action unchanged, whatever it is; with `down` true it sets it to exactly
(pressed, x, y, button), whatever it was. Delivering either event leaves the
key-state table, and every other variable, untouched. -/
theorem C15_click_overwrites_release_ignored (st : State) (xpos ypos button : Int) :
    _mouseeventcallback st.mouseinfo xpos ypos button false = st.mouseinfo
    ∧ _mouseeventcallback st.mouseinfo xpos ypos button true = ⟨KS_PRESSED, xpos, ypos, button⟩
    ∧ deliver st (.mouse xpos ypos button false) = some st
    ∧ deliver st (.mouse xpos ypos button true)
      = some { st with mouseinfo := ⟨KS_PRESSED, xpos, ypos, button⟩ } := by
  refine ⟨rfl, rfl, rfl, rfl⟩

/-- C14 counterexample: the numbering in which `CmdAbsMouseMoveFirst` is 512,
a pending press of the primary button at a position that `windowmappos` maps
to the index 5000. `retrievemousecommand` returns `CmdAbsMouseMoveFirst + 5000`,
which is not 0, and leaves the mouse in `KS_DOWNBUTOFF1`, not off. -/
theorem C14_counterexample :
    retrievemousecommand sampleCmds (fun _ _ => 5000) ⟨KS_PRESSED, 0, 0, SDL_BUTTON_LEFT⟩
        = ((sampleCmds.CmdAbsMouseMoveFirst : Int) + 5000,
          ⟨KS_DOWNBUTOFF1, 0, 0, SDL_BUTTON_LEFT⟩)
    ∧ (sampleCmds.CmdAbsMouseMoveFirst : Int) + 5000 ≠ 0
    ∧ KS_DOWNBUTOFF1 ≠ KS_OFF := by
  decide

/-- C14 (amended): for a pending mouse action in state pressed, if the button
is not the primary button or `windowmappos` returns a negative value,
`retrievemousecommand` returns no command (0) and leaves the mouse state off,
position and button unchanged. -/
theorem C14_bad_click_yields_nothing (c : Cmds) (windowmappos : Int → Int → Int)
    (mouseinfo : mouseaction) (hstate : mouseinfo.state = KS_PRESSED)
    (hbad : mouseinfo.button ≠ SDL_BUTTON_LEFT ∨ windowmappos mouseinfo.x mouseinfo.y < 0) :
    retrievemousecommand c windowmappos mouseinfo
      = (0, ⟨KS_OFF, mouseinfo.x, mouseinfo.y, mouseinfo.button⟩) := by
  unfold retrievemousecommand
  rw [hstate]
  simp only []
  rcases hbad with h | h
  · simp [h]
  · have : ¬ windowmappos mouseinfo.x mouseinfo.y ≥ 0 := by omega
    split_ifs <;> rfl

/-- C14 witness: a press of button 2. -/
theorem C14_witness :
    (⟨KS_PRESSED, 3, 4, 2⟩ : mouseaction).state = KS_PRESSED
    ∧ ((⟨KS_PRESSED, 3, 4, 2⟩ : mouseaction).button ≠ SDL_BUTTON_LEFT
      ∨ nomap (⟨KS_PRESSED, 3, 4, 2⟩ : mouseaction).x (⟨KS_PRESSED, 3, 4, 2⟩ : mouseaction).y < 0)
    ∧ retrievemousecommand sampleCmds nomap ⟨KS_PRESSED, 3, 4, 2⟩
      = (0, ⟨KS_OFF, (⟨KS_PRESSED, 3, 4, 2⟩ : mouseaction).x,
          (⟨KS_PRESSED, 3, 4, 2⟩ : mouseaction).y, (⟨KS_PRESSED, 3, 4, 2⟩ : mouseaction).button⟩) :=
  ⟨rfl, by decide, C14_bad_click_yields_nothing sampleCmds nomap ⟨KS_PRESSED, 3, 4, 2⟩ rfl
    (by decide)⟩

/-- A key event that has a result carries a non-negative scan code. -/
theorem keyevent_some (ks ks1 : Nat → KeyState) (scancode : Int) (down : Bool)
    (h : _keyeventcallback ks scancode down = some ks1) :
    ∃ n : Nat, scancode = (n : Int) := by
  by_cases hneg : scancode < 0
  · rw [keyevent_negative ks scancode down hneg] at h
    exact absurd h (by simp)
  · exact ⟨scancode.toNat, (Int.toNat_of_nonneg (by omega)).symm⟩

/-- A key event keeps the state classes. -/
theorem classinv_event (ks ks1 : Nat → KeyState) (scancode : Int) (down : Bool)
    (hinv : classinv ks) (h : _keyeventcallback ks scancode down = some ks1) :
    classinv ks1 := by
  obtain ⟨k, rfl⟩ := keyevent_some ks ks1 scancode down h
  rw [keyevent_nat, Option.some.injEq] at h
  subst h
  intro n
  by_cases hsh : shifttype (k : Int) = true
  · simp only [hsh, if_true]
    by_cases hn : n = k
    · subst hn
      simp only [Function.update_same, hsh]
      cases down <;> simp
    · simp only [Function.update_noteq hn]
      exact hinv n
  · simp only [hsh, Bool.false_eq_true, if_false]
    by_cases hlt : k < SDL_NUM_SCANCODES
    · simp only [hlt, if_true]
      by_cases hn : n = k
      · subst hn
        cases down
        · simp only [Bool.false_eq_true, if_false, Function.update_same, hsh]
          split_ifs <;> simp
        · simp only [if_true, Function.update_same, hsh]
          split_ifs <;> simp
      · cases down
        · simp only [Bool.false_eq_true, if_false, Function.update_noteq hn]
          exact hinv n
        · simp only [if_true, Function.update_noteq hn]
          exact hinv n
    · simp only [hlt, if_false]
      exact hinv n

theorem trans_class (j : Bool) (k : KeyState) :
    ((k = KS_ON ∨ k = KS_OFF) → (trans j k = KS_ON ∨ trans j k = KS_OFF))
    ∧ (k ≠ KS_ON → trans j k ≠ KS_ON) ∧ trans j k ≠ KS_DOWNBUTOFF3 := by
  cases j <;> cases k <;> simp [trans, joystick_trans, keyboard_trans]

/-- `resetkeystates` keeps the state classes. -/
theorem classinv_tick (ks : Nat → KeyState) (j : Bool) (hinv : classinv ks) :
    classinv (resetkeystates j ks) := by
  intro n
  by_cases hlt : n < SDL_NUM_SCANCODES
  · rw [resetkeystates_apply j ks n hlt]
    obtain ⟨h1, h2, -⟩ := hinv n
    obtain ⟨t1, t2, t3⟩ := trans_class j (ks n)
    exact ⟨fun hs => t1 (h1 hs), fun hs => t2 (h2 hs), t3⟩
  · simp only [resetkeystates, hlt, if_false]
    exact hinv n

/-- `restartkeystates` keeps the state classes. -/
theorem classinv_restart (ks ks1 : Nat → KeyState) (keyboard : List Bool)
    (hinv : classinv ks) (h : restartkeystates ks keyboard = some ks1) : classinv ks1 := by
  rw [restartkeystates_eq, Option.some.injEq] at h
  subst h
  intro n
  by_cases hlt : n < SDL_NUM_SCANCODES
  · simp only [hlt, if_true]
    generalize keyboard.getD n false = d
    cases d <;> cases hs : shifttype (n : Int) <;> simp
  · simp only [hlt, if_false]
    exact hinv n

theorem classinv_step (ks ks1 : Nat → KeyState) (op : Op) (hinv : classinv ks)
    (h : applyOp ks op = some ks1) : classinv ks1 := by
  cases op with
  | event scancode down => exact classinv_event ks ks1 scancode down hinv h
  | tick j =>
    simp only [applyOp, Option.some.injEq] at h
    subst h
    exact classinv_tick ks j hinv
  | restart keyboard => exact classinv_restart ks ks1 keyboard hinv h

/-- Every table reached by a sequence of operations keeps the state classes. -/
theorem classinv_run (ops : List Op) (ks ks1 : Nat → KeyState) (hinv : classinv ks)
    (h : runOps ks ops = some ks1) : classinv ks1 := by
  induction ops generalizing ks with
  | nil =>
    simp only [runOps, List.foldlM_nil, Option.pure_def, Option.some.injEq] at h
    subst h
    exact hinv
  | cons op ops ih =>
    simp only [runOps, List.foldlM_cons, Option.bind_eq_bind] at h
    cases hs : applyOp ks op with
    | none => simp [hs] at h
    | some ks2 =>
      simp only [hs, Option.some_bind] at h
      exact ih ks2 (classinv_step ks ks2 op hinv hs) h

theorem classinv_alloff : classinv alloff := by
  intro n
  simp [alloff]

/-- Every modifier the specification lists is a shift-type key of the code. -/
theorem specmodifier_shifttype (scancode : Int) (h : specmodifier scancode = true) :
    shifttype scancode = true := by
  simp only [specmodifier, shifttype, Bool.or_eq_true, decide_eq_true_eq] at h ⊢
  tauto

/-- C18 counterexample: from the all-off table, one press of the left GUI key
(227), which the claim does not count as a modifier, leaves that key on. -/
theorem C18_counterexample :
    specmodifier SDL_SCANCODE_LGUI = false
    ∧ (runOps alloff [.event SDL_SCANCODE_LGUI true]).map (fun ks => ks SDL_SCANCODE_LGUI)
      = some KS_ON := by
  decide

/-- C18 (amended): starting from the all-off table, after any finite
sequence of key events, `resetkeystates` calls of either style and
`restartkeystates` calls, every shift-type key (shift, ctrl, alt, GUI,
num-lock, caps-lock, mode-switch; in particular every modifier the
specification lists) is on or off, and every other key is never on. -/
theorem C18_state_classes (ops : List Op) (keystates : Nat → KeyState) (n : Nat)
    (hrun : runOps alloff ops = some keystates) :
    (specmodifier n = true → keystates n = KS_ON ∨ keystates n = KS_OFF)
    ∧ (shifttype n = true → keystates n = KS_ON ∨ keystates n = KS_OFF)
    ∧ (shifttype n = false → keystates n ≠ KS_ON) := by
  obtain ⟨h1, h2, -⟩ := classinv_run ops alloff keystates classinv_alloff hrun n
  exact ⟨fun h => h1 (specmodifier_shifttype _ h), h1, h2⟩

/-- C18 witness: left shift pressed, Q pressed, one keyboard-style tick. -/
theorem C18_witness :
    runOps alloff [.event SDL_SCANCODE_LSHIFT true, .event SDL_SCANCODE_Q true, .tick false]
      = some (resetkeystates false (Function.update
          (Function.update alloff SDL_SCANCODE_LSHIFT KS_ON) SDL_SCANCODE_Q KS_PRESSED))
    ∧ ((specmodifier SDL_SCANCODE_LSHIFT = true →
        resetkeystates false (Function.update
          (Function.update alloff SDL_SCANCODE_LSHIFT KS_ON) SDL_SCANCODE_Q KS_PRESSED)
          SDL_SCANCODE_LSHIFT = KS_ON
        ∨ resetkeystates false (Function.update
          (Function.update alloff SDL_SCANCODE_LSHIFT KS_ON) SDL_SCANCODE_Q KS_PRESSED)
          SDL_SCANCODE_LSHIFT = KS_OFF)
      ∧ (shifttype SDL_SCANCODE_LSHIFT = true →
        resetkeystates false (Function.update
          (Function.update alloff SDL_SCANCODE_LSHIFT KS_ON) SDL_SCANCODE_Q KS_PRESSED)
          SDL_SCANCODE_LSHIFT = KS_ON
        ∨ resetkeystates false (Function.update
          (Function.update alloff SDL_SCANCODE_LSHIFT KS_ON) SDL_SCANCODE_Q KS_PRESSED)
          SDL_SCANCODE_LSHIFT = KS_OFF)
      ∧ (shifttype SDL_SCANCODE_LSHIFT = false →
        resetkeystates false (Function.update
          (Function.update alloff SDL_SCANCODE_LSHIFT KS_ON) SDL_SCANCODE_Q KS_PRESSED)
          SDL_SCANCODE_LSHIFT ≠ KS_ON)) :=
  ⟨rfl, C18_state_classes
    [.event SDL_SCANCODE_LSHIFT true, .event SDL_SCANCODE_Q true, .tick false] _
    SDL_SCANCODE_LSHIFT rfl⟩

/-- C20 counterexample: Q is pressed, one keyboard-style tick makes it
`KS_DOWNBUTOFF1`, and a `restartkeystates` that finds no key held returns it to
off, without any release event. -/
theorem C20_counterexample :
    (runOps alloff [.event SDL_SCANCODE_Q true, .tick false]).map (fun ks => ks SDL_SCANCODE_Q)
      = some KS_DOWNBUTOFF1
    ∧ (runOps alloff [.event SDL_SCANCODE_Q true, .tick false, .restart []]).map
        (fun ks => ks SDL_SCANCODE_Q) = some KS_OFF := by
  decide

/-- C20 (amended): starting from the all-off table, after any finite
sequence of key events, `resetkeystates` calls of either style and
`restartkeystates` calls, no key is in `KS_DOWNBUTOFF3`; a pressed key becomes
`KS_DOWNBUTOFF1`, `KS_DOWNBUTOFF2`, then down on the next three keyboard-style
ticks; and a lingering key is returned to off by no operation other than a
release event for it or a `restartkeystates` for which the hardware reports
the key up. -/
theorem C20_no_third_linger_state (ops : List Op) (keystates : Nat → KeyState) (n : Nat)
    (hrun : runOps alloff ops = some keystates) :
    keystates n ≠ KS_DOWNBUTOFF3
    ∧ (n < SDL_NUM_SCANCODES → keystates n = KS_PRESSED →
        resetkeystates false keystates n = KS_DOWNBUTOFF1
        ∧ (resetkeystates false)^[2] keystates n = KS_DOWNBUTOFF2
        ∧ (resetkeystates false)^[3] keystates n = KS_DOWN)
    ∧ (∀ (op : Op) (ks1 : Nat → KeyState),
        keystates n = KS_DOWNBUTOFF1 ∨ keystates n = KS_DOWNBUTOFF2 →
        applyOp keystates op = some ks1 → ks1 n = KS_OFF →
        op = .event n false ∨ ∃ keyboard, op = .restart keyboard
          ∧ keyboard.getD n false = false) := by
  have hinv := classinv_run ops alloff keystates classinv_alloff hrun
  refine ⟨(hinv n).2.2, ?_, ?_⟩
  · intro hn hp
    rw [iterate_reset_apply false n hn, iterate_reset_apply false n hn,
      resetkeystates_apply false keystates n hn, hp]
    exact ⟨rfl, rfl, rfl⟩
  · intro op ks1 hl hstep hoff
    have hnoff : keystates n ≠ KS_OFF := by
      rcases hl with h | h <;> rw [h] <;> simp
    have hnsh : shifttype (n : Int) = false := by
      cases hs : shifttype (n : Int)
      · rfl
      · rcases (hinv n).1 hs with h | h <;> rcases hl with h2 | h2 <;> rw [h] at h2 <;>
          simp at h2
    cases op with
    | event scancode down =>
      left
      obtain ⟨k, rfl⟩ := keyevent_some keystates ks1 scancode down hstep
      simp only [applyOp] at hstep
      rw [keyevent_nat, Option.some.injEq] at hstep
      subst hstep
      by_cases hk : n = k
      · subst hk
        simp only [hnsh, Bool.false_eq_true, if_false] at hoff
        by_cases hlt : n < SDL_NUM_SCANCODES
        · simp only [hlt, if_true] at hoff
          cases down
          · rfl
          · simp only [if_true, Function.update_same, hnoff, if_false] at hoff
            exact absurd hoff (by simp)
        · simp only [hlt, if_false] at hoff
          exact absurd hoff hnoff
      · exfalso
        apply hnoff
        revert hoff
        split_ifs <;> simp [Function.update_noteq hk]
    | tick j =>
      exfalso
      simp only [applyOp, Option.some.injEq] at hstep
      subst hstep
      by_cases hlt : n < SDL_NUM_SCANCODES
      · rw [resetkeystates_apply j keystates n hlt] at hoff
        rcases hl with h | h <;> rw [h] at hoff <;> cases j <;> simp [trans, joystick_trans,
          keyboard_trans] at hoff
      · simp only [resetkeystates, hlt, if_false] at hoff
        exact hnoff hoff
    | restart keyboard =>
      right
      refine ⟨keyboard, rfl, ?_⟩
      simp only [applyOp] at hstep
      rw [restartkeystates_eq, Option.some.injEq] at hstep
      subst hstep
      by_cases hlt : n < SDL_NUM_SCANCODES
      · simp only [hlt, if_true] at hoff
        generalize keyboard.getD n false = d at hoff ⊢
        cases d
        · rfl
        · simp only [if_true, hnsh, Bool.false_eq_true, if_false] at hoff
          exact absurd hoff (by simp)
      · simp only [hlt, if_false] at hoff
        exact absurd hoff hnoff

/-- C20 witness: Q pressed, then one keyboard-style tick. -/
theorem C20_witness :
    runOps alloff [.event SDL_SCANCODE_Q true, .tick false]
      = some (resetkeystates false (Function.update alloff SDL_SCANCODE_Q KS_PRESSED))
    ∧ (resetkeystates false (Function.update alloff SDL_SCANCODE_Q KS_PRESSED) SDL_SCANCODE_Q
        ≠ KS_DOWNBUTOFF3
      ∧ (SDL_SCANCODE_Q < SDL_NUM_SCANCODES →
        resetkeystates false (Function.update alloff SDL_SCANCODE_Q KS_PRESSED) SDL_SCANCODE_Q
          = KS_PRESSED →
        resetkeystates false
            (resetkeystates false (Function.update alloff SDL_SCANCODE_Q KS_PRESSED))
            SDL_SCANCODE_Q = KS_DOWNBUTOFF1
        ∧ (resetkeystates false)^[2]
            (resetkeystates false (Function.update alloff SDL_SCANCODE_Q KS_PRESSED))
            SDL_SCANCODE_Q = KS_DOWNBUTOFF2
        ∧ (resetkeystates false)^[3]
            (resetkeystates false (Function.update alloff SDL_SCANCODE_Q KS_PRESSED))
            SDL_SCANCODE_Q = KS_DOWN)
      ∧ (∀ (op : Op) (ks1 : Nat → KeyState),
        resetkeystates false (Function.update alloff SDL_SCANCODE_Q KS_PRESSED) SDL_SCANCODE_Q
            = KS_DOWNBUTOFF1
          ∨ resetkeystates false (Function.update alloff SDL_SCANCODE_Q KS_PRESSED)
            SDL_SCANCODE_Q = KS_DOWNBUTOFF2 →
        applyOp (resetkeystates false (Function.update alloff SDL_SCANCODE_Q KS_PRESSED)) op
          = some ks1 →
        ks1 SDL_SCANCODE_Q = KS_OFF →
        op = .event SDL_SCANCODE_Q false ∨ ∃ keyboard, op = .restart keyboard
          ∧ keyboard.getD SDL_SCANCODE_Q false = false)) :=
  ⟨rfl, C20_no_third_linger_state [.event SDL_SCANCODE_Q true, .tick false] _ SDL_SCANCODE_Q
    rfl⟩

/-- On every table reached from the all-off table, the shift, ctrl and alt keys
are each on or off. -/
theorem reachable_modssteady (ops : List Op) (ks : Nat → KeyState)
    (h : runOps alloff ops = some ks) : modssteady ks := by
  intro n hn
  have hsh : shifttype (n : Int) = true := by
    simp only [List.mem_cons, List.mem_singleton, List.not_mem_nil, or_false] at hn
    rcases hn with rfl | rfl | rfl | rfl | rfl | rfl <;> decide
  exact (classinv_run ops alloff ks classinv_alloff h n).1 hsh

/-- For modifier keys that are on or off, the value the code computes is the
aggregate of the specification. -/
theorem aggregate_eq (ks : Nat → KeyState) (l r : Nat)
    (hl : ks l = KS_ON ∨ ks l = KS_OFF) (hr : ks r = KS_ON ∨ ks r = KS_OFF) :
    eitherdown ks l r = aggregate ks l r := by
  rcases hl with hl | hl <;> rcases hr with hr | hr <;> simp [eitherdown, aggregate, hl, hr]

theorem modsmet_iff_specmet (ks : Nat → KeyState) (kc : keycmdmap) (hs : modssteady ks) :
    modsmet ks kc ↔ specmet ks kc := by
  unfold modsmet specmet
  rw [aggregate_eq ks _ _ (hs _ (by simp)) (hs _ (by simp)),
    aggregate_eq ks _ _ (hs _ (by simp)) (hs _ (by simp)),
    aggregate_eq ks _ _ (hs _ (by simp)) (hs _ (by simp))]

/-- The result of a poll when the only active key is asserted. -/
theorem input_alone_asserted (c : Cmds) (wmp : Int → Int → Int) (wait : Bool) (st st1 : State)
    (events : List Event) (pumps : List (List Event)) (kc : keycmdmap)
    (hpump : eventupdate (ticked st) events = some st1)
    (hw : wellformed st1.keycmds) (hkc : kc ∈ entries st1.keycmds)
    (hal : alone st1.keystates kc.scancode) (ha : asserted st1.keystates kc)
    (hcmd : kc.cmd ≠ 0) :
    input c wmp wait st events pumps = some ((kc.cmd : Int), st1) := by
  have hscan := scankeys_alone c st1.joystickstyle st1.mergeable st1.keystates st1.keycmds kc
    false hw hkc hal ha.1
  simp only [ha, if_true] at hscan
  by_cases hnow : st1.joystickstyle = false ∨ kc.cmd > c.CmdKeyMoveLast
      ∨ st1.mergeable kc.cmd = 0
  · simp only [hnow, if_true] at hscan
    exact input_of_scan_ret c wmp wait st st1 events pumps _ hpump hscan
  · simp only [hnow, if_false] at hscan
    exact input_of_scan_primary c wmp wait st st1 events pumps _ _ _ hpump hscan hcmd

/-- C13: with the shift, ctrl and alt keys each on or off, the scan considers
a table entry whose key is not idle if and only if each of its three
requirements is don't-care (-1) or equal to the aggregate state of the
modifier, which is down exactly when the left or the right key is on;
otherwise it passes over the entry. On the game table, with Q the only active
key, pressed, and ctrl and alt up, `input` returns `CmdQuit` when either shift
key is on and `CmdQuitLevel` when both are off. -/
theorem C13_modifier_requirements (c : Cmds) (joystickstyle : Bool) (mergeable : Nat → Nat)
    (keystates : Nat → KeyState) (kc : keycmdmap) (rest : List keycmdmap) (cmd1 cmd : Nat)
    (lingerflag : Bool) (hsteady : modssteady keystates) (hz : kc.scancode ≠ 0)
    (hkey : keystates kc.scancode ≠ KS_OFF) :
    scankeys c joystickstyle mergeable keystates (kc :: rest) cmd1 cmd lingerflag
      = (if specmet keystates kc then
          considered c joystickstyle mergeable keystates kc rest cmd1 cmd lingerflag
        else scankeys c joystickstyle mergeable keystates rest cmd1 cmd lingerflag)
    ∧ ∀ (windowmappos : Int → Int → Int) (wait : Bool) (st st1 : State) (events : List Event)
        (pumps : List (List Event)),
        eventupdate (ticked st) events = some st1 → st1.keystates = keystates →
        st.keycmds = gamekeycmds c → c.CmdQuitLevel ≠ 0 → c.CmdQuit ≠ 0 →
        keystates SDL_SCANCODE_Q = KS_PRESSED → alone keystates SDL_SCANCODE_Q →
        aggregate keystates SDL_SCANCODE_LCTRL SDL_SCANCODE_RCTRL = 0 →
        aggregate keystates SDL_SCANCODE_LALT SDL_SCANCODE_RALT = 0 →
        input c windowmappos wait st events pumps
          = some (((if keystates SDL_SCANCODE_LSHIFT = KS_ON
                ∨ keystates SDL_SCANCODE_RSHIFT = KS_ON
              then c.CmdQuit else c.CmdQuitLevel : Nat) : Int), st1) := by
  have hiff := modsmet_iff_specmet keystates kc hsteady
  constructor
  · rw [scankeys_cons]
    simp only [hz, if_false, asserted, fallback, lingers, hiff, considered]
    by_cases hm : specmet keystates kc
    · simp only [hm, true_and, if_true]
    · simp only [hm, false_and, if_false]
  · intro wmp wait st st1 events pumps hpump hks htable hq1 hq2 hq hal hctl halt
    subst hks
    have ht1 : st1.keycmds = gamekeycmds c :=
      (eventupdate_fields events _ st1 hpump).2.1.trans htable
    have hw : wellformed st1.keycmds := by rw [ht1]; exact gamekeycmds_wellformed c
    by_cases hsh : st1.keystates SDL_SCANCODE_LSHIFT = KS_ON
        ∨ st1.keystates SDL_SCANCODE_RSHIFT = KS_ON
    · have hmet : specmet st1.keystates ⟨SDL_SCANCODE_Q, 1, 0, 0, c.CmdQuit, false⟩ :=
        ⟨Or.inr (by simp [aggregate, hsh]), Or.inr hctl.symm, Or.inr halt.symm⟩
      have hmm := (modsmet_iff_specmet st1.keystates _ hsteady).2 hmet
      rw [if_pos hsh]
      exact input_alone_asserted c wmp wait st st1 events pumps
        ⟨SDL_SCANCODE_Q, 1, 0, 0, c.CmdQuit, false⟩ hpump hw
        (by rw [ht1]; simp [entries, gamekeycmds]) hal ⟨hmm, Or.inl hq⟩ hq2
    · have hmet : specmet st1.keystates ⟨SDL_SCANCODE_Q, 0, 0, 0, c.CmdQuitLevel, false⟩ :=
        ⟨Or.inr (by simp [aggregate, hsh]), Or.inr hctl.symm, Or.inr halt.symm⟩
      have hmm := (modsmet_iff_specmet st1.keystates _ hsteady).2 hmet
      rw [if_neg hsh]
      exact input_alone_asserted c wmp wait st st1 events pumps
        ⟨SDL_SCANCODE_Q, 0, 0, 0, c.CmdQuitLevel, false⟩ hpump hw
        (by rw [ht1]; simp [entries, gamekeycmds]) hal ⟨hmm, Or.inl hq⟩ hq1

theorem fallbackcmd_cons (ks : Nat → KeyState) (e : keycmdmap) (l : List keycmdmap)
    (cmd : Nat) :
    fallbackcmd ks (e :: l) cmd = fallbackcmd ks l (if fallback ks e then e.cmd else cmd) := by
  unfold fallbackcmd lastfallback
  rw [List.reverse_cons, List.find?_append]
  cases h : l.reverse.find? (fun e => decide (fallback ks e)) with
  | some f => simp
  | none =>
    by_cases hf : fallback ks e
    · simp [List.find?_cons, hf]
    · simp [List.find?_cons, hf]

theorem not_lingers_of_fallback (ks : Nat → KeyState) (e : keycmdmap) (h : fallback ks e) :
    ¬ lingers ks e := by
  intro hl
  rcases h.2 with h1 | h1 <;> rcases hl.2 with h2 | h2 <;> rw [h1] at h2 <;> simp at h2

/-- The scan of a list without asserted entry runs to its end: the fallback
command is that of the last fallback entry, and the linger flag is set exactly
when it was set before or some entry lingers. -/
theorem scankeys_unasserted (c : Cmds) (j : Bool) (m : Nat → Nat) (ks : Nat → KeyState)
    (l : List keycmdmap) (cmd : Nat) (lf : Bool)
    (h : ∀ e ∈ l, e.scancode ≠ 0 ∧ ¬ asserted ks e) :
    scankeys c j m ks l 0 cmd lf
      = .done 0 (fallbackcmd ks l cmd) (lf || l.any (fun e => decide (lingers ks e))) := by
  induction l generalizing cmd lf with
  | nil => simp [scankeys, fallbackcmd, lastfallback]
  | cons e l ih =>
    have he := h e (List.mem_cons_self _ _)
    have hrest := fun e2 h2 => h e2 (List.mem_cons_of_mem _ h2)
    rw [scankeys_cons, fallbackcmd_cons]
    simp only [he.1, he.2, if_false, List.any_cons]
    by_cases hf : fallback ks e
    · have hl := not_lingers_of_fallback ks e hf
      simp only [hf, if_true, hl, decide_False, Bool.false_or]
      exact ih _ _ hrest
    · simp only [hf, if_false]
      by_cases hl : lingers ks e
      · simp only [hl, if_true, decide_True, Bool.true_or, Bool.or_true]
        rw [ih _ _ hrest]
        simp
      · simp only [hl, if_false, decide_False, Bool.false_or]
        exact ih _ _ hrest

/-- The scan of a table that has an asserted entry returns the command of the
first asserted entry, or its merge with the command of another asserted entry,
from inside the loop or as the primary command at its end. -/
theorem scankeys_asserted (c : Cmds) (j : Bool) (m : Nat → Nat) (ks : Nat → KeyState)
    (table : List keycmdmap) (a : keycmdmap) (lf : Bool) (hcmd : a.cmd ≠ 0)
    (hfirst : (entries table).find? (fun e => decide (asserted ks e)) = some a) :
    ∃ r, (scankeys c j m ks table 0 0 lf = .ret r
        ∨ ∃ cmd2 lf2, r ≠ 0 ∧ scankeys c j m ks table 0 0 lf = .done r cmd2 lf2)
      ∧ (r = a.cmd ∨ ∃ b ∈ entries table, asserted ks b ∧ r = a.cmd ||| b.cmd) := by
  obtain ⟨ha, pre, post, hsplit, hpre⟩ := List.find?_eq_some.1 hfirst
  have ha : asserted ks a := by simpa using ha
  have hz : a.scancode ≠ 0 := entries_ne_zero table a (by rw [hsplit]; simp)
  have hpre2 : ∀ e ∈ pre, e.scancode ≠ 0 ∧ ¬ asserted ks e := fun e he =>
    ⟨entries_ne_zero table e (by rw [hsplit]; exact List.mem_append_left _ he),
      by simpa using hpre e he⟩
  obtain ⟨cmd2, lf2, hskip⟩ := scankeys_skip_unasserted c m ks pre (a :: post) 0 0 lf j hpre2
  have hscan : scankeys c j m ks table 0 0 lf = scankeys c j m ks (a :: post) 0 cmd2 lf2 := by
    rw [scankeys_entries, hsplit, hskip]
  rw [scankeys_cons] at hscan
  simp only [hz, ha, if_true, if_false] at hscan
  by_cases hnow : j = false ∨ a.cmd > c.CmdKeyMoveLast ∨ m a.cmd = 0
  · simp only [hnow, if_true] at hscan
    exact ⟨a.cmd, Or.inl hscan, Or.inl rfl⟩
  · simp only [hnow, if_false] at hscan
    rcases scankeys_from_primary c j m ks post a.cmd cmd2 lf2 hcmd with
      ⟨cmd3, lf3, hd⟩ | ⟨b, hb, hab, hr⟩
    · rw [hd] at hscan
      exact ⟨a.cmd, Or.inr ⟨cmd3, lf3, hcmd, hscan⟩, Or.inl rfl⟩
    · rw [hr] at hscan
      refine ⟨a.cmd ||| b.cmd, Or.inl hscan, Or.inr ⟨b, ?_, hab, rfl⟩⟩
      rw [hsplit]
      exact List.mem_append_right _ (List.mem_cons_of_mem _ hb)

/-- C16: the result precedence of one scan, for a table whose commands are
non-zero. If some entry is asserted, the result is the command of the first
asserted entry or its merge with the command of another asserted entry, and
the variables (the pending mouse action among them) are unchanged. Otherwise,
if some entry is a fallback (key struck or repeating, requirements met), the
result is the command of the last such entry in table order, again with the
variables unchanged. Only when neither exists is `retrievemousecommand`
called, and its result returned when it is non-zero. -/
theorem C16_result_precedence (c : Cmds) (windowmappos : Int → Int → Int) (st : State)
    (lingerflag : Bool) (hnz : ∀ e ∈ entries st.keycmds, e.cmd ≠ 0) :
    (∀ a, (entries st.keycmds).find? (fun e => decide (asserted st.keystates e)) = some a →
      ∃ r : Nat, resolve c windowmappos st lingerflag = .ret (r : Int) st
        ∧ (r = a.cmd
          ∨ ∃ b ∈ entries st.keycmds, asserted st.keystates b ∧ r = a.cmd ||| b.cmd))
    ∧ ((∀ e ∈ entries st.keycmds, ¬ asserted st.keystates e) →
        ∀ f, lastfallback st.keystates (entries st.keycmds) = some f →
          resolve c windowmappos st lingerflag = .ret (f.cmd : Int) st)
    ∧ ((∀ e ∈ entries st.keycmds, ¬ asserted st.keystates e) →
        lastfallback st.keystates (entries st.keycmds) = none →
        resolve c windowmappos st lingerflag
          = (if (retrievemousecommand c windowmappos st.mouseinfo).1 ≠ 0 then
              .ret (retrievemousecommand c windowmappos st.mouseinfo).1
                { st with mouseinfo := (retrievemousecommand c windowmappos st.mouseinfo).2 }
            else .tail (retrievemousecommand c windowmappos st.mouseinfo).1
                (lingerflag
                  || (entries st.keycmds).any (fun e => decide (lingers st.keystates e)))
                { st with mouseinfo := (retrievemousecommand c windowmappos st.mouseinfo).2 })) := by
  have hquiet : (∀ e ∈ entries st.keycmds, ¬ asserted st.keystates e) →
      scankeys c st.joystickstyle st.mergeable st.keystates st.keycmds 0 0 lingerflag
        = .done 0 (fallbackcmd st.keystates (entries st.keycmds) 0)
          (lingerflag || (entries st.keycmds).any (fun e => decide (lingers st.keystates e))) := by
    intro hna
    rw [scankeys_entries]
    exact scankeys_unasserted c _ _ _ _ 0 lingerflag
      (fun e he => ⟨entries_ne_zero _ e he, hna e he⟩)
  refine ⟨?_, ?_, ?_⟩
  · intro a hfirst
    have hmem : a ∈ entries st.keycmds := List.mem_of_find?_eq_some hfirst
    obtain ⟨r, hres, hr⟩ := scankeys_asserted c st.joystickstyle st.mergeable st.keystates
      st.keycmds a lingerflag (hnz a hmem) hfirst
    refine ⟨r, ?_, hr⟩
    unfold resolve
    rcases hres with h | ⟨cmd2, lf2, hr0, h⟩
    · rw [h]
    · rw [h]
      simp [hr0]
  · intro hna f hf
    have hmem : f ∈ entries st.keycmds := by
      have := List.mem_of_find?_eq_some hf
      simpa using this
    unfold resolve
    rw [hquiet hna]
    simp [fallbackcmd, hf, hnz f hmem]
  · intro hna hf
    unfold resolve
    rw [hquiet hna]
    simp only [fallbackcmd, hf, ne_eq, not_true_eq_false, if_false]

/-- C17: for `input(FALSE)`, when no entry is asserted, none is a fallback
and the mouse yields nothing, the result is `CmdPreserve` if some table entry
with its requirements met has its key in `KS_DOWNBUTOFF1` or
`KS_DOWNBUTOFF2`, and 0 otherwise. -/
theorem C17_preserve_iff_lingering (c : Cmds) (windowmappos : Int → Int → Int) (st st1 : State)
    (events : List Event) (pumps : List (List Event))
    (hpump : eventupdate (ticked st) events = some st1)
    (hnoprimary : ∀ e ∈ entries st1.keycmds, ¬ asserted st1.keystates e)
    (hnofallback : ∀ e ∈ entries st1.keycmds, ¬ fallback st1.keystates e)
    (hnomouse : (retrievemousecommand c windowmappos st1.mouseinfo).1 = 0) :
    input c windowmappos false st events pumps
      = some (if ∃ e ∈ entries st1.keycmds, lingers st1.keystates e
            then (c.CmdPreserve : Int) else 0,
          { st1 with mouseinfo := (retrievemousecommand c windowmappos st1.mouseinfo).2 }) := by
  have hscan : scankeys c st1.joystickstyle st1.mergeable st1.keystates st1.keycmds 0 0 false
      = .done 0 0 ((entries st1.keycmds).any (fun e => decide (lingers st1.keystates e))) := by
    rw [scankeys_entries, scankeys_unasserted c _ _ _ _ 0 false
      (fun e he => ⟨entries_ne_zero _ e he, hnoprimary e he⟩)]
    have hfb : lastfallback st1.keystates (entries st1.keycmds) = none := by
      unfold lastfallback
      rw [List.find?_eq_none]
      intro e he
      simpa using hnofallback e (by simpa using he)
    simp [fallbackcmd, hfb]
  unfold ticked at hpump
  unfold input inputloop
  simp only [hpump, resolve, hscan, hnomouse]
  by_cases hl : ∃ e ∈ entries st1.keycmds, lingers st1.keystates e
  · have hany : (entries st1.keycmds).any (fun e => decide (lingers st1.keystates e)) = true := by
      rw [List.any_eq_true]
      obtain ⟨e, he, hle⟩ := hl
      exact ⟨e, he, by simpa using hle⟩
    simp [hany, hl]
  · have hany : (entries st1.keycmds).any (fun e => decide (lingers st1.keystates e)) = false := by
      rw [Bool.eq_false_iff]
      intro h
      rw [List.any_eq_true] at h
      obtain ⟨e, he, hle⟩ := h
      exact hl ⟨e, he, by simpa using hle⟩
    simp [hany, hl]

section tracing
variable (c : Cmds) (j : Bool) (m : Nat → Nat) (ks : Nat → KeyState)

/-- One round of the traced scan loop, by the role of the entry. -/
theorem scantrace_cons (kc : keycmdmap) (rest : List keycmdmap) (cmd1 cmd : Nat) (lf : Bool)
    (log : List Nat) :
    scantrace c j m ks (kc :: rest) cmd1 cmd lf log =
      if kc.scancode = 0 then ⟨.done cmd1 cmd lf, false, log⟩
      else if asserted ks kc then
        if cmd1 = 0 then
          if j = false ∨ kc.cmd > c.CmdKeyMoveLast then ⟨.ret kc.cmd, false, log⟩
          else if m kc.cmd = 0 then ⟨.ret kc.cmd, false, kc.cmd :: log⟩
          else scantrace c j m ks rest kc.cmd cmd lf (kc.cmd :: log)
        else if cmd1 ≤ c.CmdKeyMoveLast then
          if (m cmd1 &&& kc.cmd) = kc.cmd then ⟨.ret (cmd1 ||| kc.cmd), true, cmd1 :: log⟩
          else scantrace c j m ks rest cmd1 cmd lf (cmd1 :: log)
        else scantrace c j m ks rest cmd1 cmd lf log
      else if fallback ks kc then scantrace c j m ks rest cmd1 kc.cmd lf log
      else if lingers ks kc then scantrace c j m ks rest cmd1 cmd true log
      else scantrace c j m ks rest cmd1 cmd lf log := by
  rw [scantrace]
  by_cases hz : kc.scancode = 0
  · simp [hz]
  by_cases hs : kc.shift ≠ -1
      ∧ kc.shift ≠ eitherdown ks SDL_SCANCODE_LSHIFT SDL_SCANCODE_RSHIFT
  · have hm : ¬ modsmet ks kc := fun h => by
      rcases h.1 with h1 | h1
      · exact hs.1 h1
      · exact hs.2 h1
    simp [hz, hs, asserted, fallback, lingers, hm]
  by_cases hc : kc.ctl ≠ -1
      ∧ kc.ctl ≠ eitherdown ks SDL_SCANCODE_LCTRL SDL_SCANCODE_RCTRL
  · have hm : ¬ modsmet ks kc := fun h => by
      rcases h.2.1 with h1 | h1
      · exact hc.1 h1
      · exact hc.2 h1
    simp [hz, hs, hc, asserted, fallback, lingers, hm]
  by_cases ha : kc.alt ≠ -1
      ∧ kc.alt ≠ eitherdown ks SDL_SCANCODE_LALT SDL_SCANCODE_RALT
  · have hm : ¬ modsmet ks kc := fun h => by
      rcases h.2.2 with h1 | h1
      · exact ha.1 h1
      · exact ha.2 h1
    simp [hz, hs, hc, ha, asserted, fallback, lingers, hm]
  have hm : modsmet ks kc := by
    unfold modsmet
    refine ⟨?_, ?_, ?_⟩
    · by_cases h : kc.shift = -1
      · exact Or.inl h
      · exact Or.inr (by by_contra h2; exact hs ⟨h, h2⟩)
    · by_cases h : kc.ctl = -1
      · exact Or.inl h
      · exact Or.inr (by by_contra h2; exact hc ⟨h, h2⟩)
    · by_cases h : kc.alt = -1
      · exact Or.inl h
      · exact Or.inr (by by_contra h2; exact ha ⟨h, h2⟩)
  simp only [hz, hs, hc, ha, if_false, asserted, fallback, lingers, hm, true_and]
  cases hk : ks kc.scancode <;> simp

/-- The traced scan computes the result of the scan. -/
theorem scantrace_result (l : List keycmdmap) (cmd1 cmd : Nat) (lf : Bool) (log : List Nat) :
    (scantrace c j m ks l cmd1 cmd lf log).result = scankeys c j m ks l cmd1 cmd lf := by
  induction l generalizing cmd1 cmd lf log with
  | nil => rfl
  | cons kc rest ih =>
    rw [scantrace_cons, scankeys_cons]
    by_cases hz : kc.scancode = 0
    · simp [hz]
    simp only [hz, if_false]
    by_cases ha : asserted ks kc
    · simp only [ha, if_true]
      by_cases h1 : cmd1 = 0
      · simp only [h1, if_true]
        by_cases hj : j = false ∨ kc.cmd > c.CmdKeyMoveLast
        · have : j = false ∨ kc.cmd > c.CmdKeyMoveLast ∨ m kc.cmd = 0 := by tauto
          simp only [hj, this, if_true]
        · by_cases hm0 : m kc.cmd = 0
          · have : j = false ∨ kc.cmd > c.CmdKeyMoveLast ∨ m kc.cmd = 0 := by tauto
            rw [if_neg hj, if_pos hm0, if_pos this]
          · have : ¬ (j = false ∨ kc.cmd > c.CmdKeyMoveLast ∨ m kc.cmd = 0) := by tauto
            rw [if_neg hj, if_neg hm0, if_neg this]
            exact ih _ _ _ _
      · simp only [h1, if_false]
        by_cases hl : cmd1 ≤ c.CmdKeyMoveLast
        · by_cases hmg : (m cmd1 &&& kc.cmd) = kc.cmd
          · simp only [hl, hmg, and_self, if_true]
          · simp only [hl, hmg, and_false, if_true, if_false]
            exact ih _ _ _ _
        · simp only [hl, false_and, if_false]
          exact ih _ _ _ _
    · simp only [ha, if_false]
      split_ifs
      · exact ih _ _ _ _
      · exact ih _ _ _ _
      · exact ih _ _ _ _

end tracing

theorem le_lor_left (a b : Nat) : a ≤ a ||| b := by
  have h := lor_land_left a b
  calc a = (a ||| b) &&& a := h.symm
    _ ≤ a ||| b := Nat.and_le_left

theorem le_lor_right (a b : Nat) : b ≤ a ||| b := by
  rw [Nat.lor_comm]
  exact le_lor_left b a

/-- A single bit contained in the union of two single bits is one of them. -/
theorem submask_pow (a b k : Nat) (h : (2 ^ a ||| 2 ^ b) &&& 2 ^ k = 2 ^ k) : a = k ∨ b = k := by
  have h2 := congrArg (fun x => Nat.testBit x k) h
  simp only [Nat.testBit_and, Nat.testBit_or, Nat.testBit_two_pow, decide_True, Bool.and_true,
    Bool.or_eq_true, decide_eq_true_eq] at h2
  exact h2

theorem lor_pow_ne (a b x y : Nat) (hxa : x ≠ a) (hxb : x ≠ b) :
    2 ^ x ||| 2 ^ y ≠ 2 ^ a ||| 2 ^ b := by
  intro h
  have h2 := congrArg (fun z => Nat.testBit z x) h
  simp only [Nat.testBit_or, Nat.testBit_two_pow, decide_True, Bool.true_or] at h2
  have : (decide (a = x) || decide (b = x)) = false := by
    simp [Ne.symm hxa, Ne.symm hxb]
  rw [this] at h2
  exact Bool.noConfusion h2

theorem bitcmds_dircmds (c : Cmds) (hb : bitcmds c) : dircmds c := by
  obtain ⟨n, w, s, e, ⟨hN, hW, hS, hE⟩, ⟨hnw, hns, hne, hws, hwe, hse⟩, hlast⟩ := hb
  have pw : ∀ k : Nat, 2 ^ k ≠ 0 := fun k => Nat.pos_iff_ne_zero.1 (Nat.two_pow_pos k)
  have inj : ∀ a b : Nat, a ≠ b → 2 ^ a ≠ 2 ^ b := fun a b hab h =>
    hab (Nat.pow_right_injective (le_refl 2) h)
  have l1 : c.CmdNorth ≤ c.CmdKeyMoveLast :=
    le_trans (le_trans (le_trans (le_lor_left _ _) (le_lor_left _ _)) (le_lor_left _ _)) hlast
  have l2 : c.CmdWest ≤ c.CmdKeyMoveLast :=
    le_trans (le_trans (le_trans (le_lor_right _ _) (le_lor_left _ _)) (le_lor_left _ _)) hlast
  have l3 : c.CmdSouth ≤ c.CmdKeyMoveLast :=
    le_trans (le_trans (le_lor_right _ _) (le_lor_left _ _)) hlast
  have l4 : c.CmdEast ≤ c.CmdKeyMoveLast := le_trans (le_lor_right _ _) hlast
  refine ⟨⟨?_, ?_, ?_, ?_⟩, ⟨l1, l2, l3, l4⟩, ⟨?_, ?_, ?_, ?_⟩⟩
  · rw [hN]; exact pw n
  · rw [hW]; exact pw w
  · rw [hS]; exact pw s
  · rw [hE]; exact pw e
  · rw [hN, hW]; exact inj _ _ hnw
  · rw [hN, hE]; exact inj _ _ hne
  · rw [hS, hW]; exact inj _ _ (Ne.symm hws)
  · rw [hS, hE]; exact inj _ _ hse

theorem directions_range (c : Cmds) (hb : bitcmds c) (x : Nat) (hx : x ∈ directions c) :
    1 ≤ x ∧ x ≤ c.CmdKeyMoveLast := by
  obtain ⟨⟨n0, w0, s0, e0⟩, ⟨nl, wl, sl, el⟩, -⟩ := bitcmds_dircmds c hb
  simp only [directions, List.mem_cons, List.mem_singleton, List.not_mem_nil, or_false] at hx
  rcases hx with rfl | rfl | rfl | rfl
  · exact ⟨Nat.one_le_iff_ne_zero.2 n0, nl⟩
  · exact ⟨Nat.one_le_iff_ne_zero.2 w0, wl⟩
  · exact ⟨Nat.one_le_iff_ne_zero.2 s0, sl⟩
  · exact ⟨Nat.one_le_iff_ne_zero.2 e0, el⟩

/-- With the merge table of `_sdlinputinitialize`, a direction command merges
only with a direction command of the other axis. -/
theorem merge_diagonal (c : Cmds) (hb : bitcmds c) (cmd1 x : Nat)
    (h1 : cmd1 ∈ directions c) (hx : x ∈ directions c)
    (hm : (( _sdlinputinitialize c (initialState c)).mergeable cmd1 &&& x) = x) :
    diagonal c (cmd1 ||| x) := by
  obtain ⟨mN, mS, mW, mE⟩ := mergeable_init c (initialState c) (bitcmds_dircmds c hb)
  obtain ⟨n, w, s, e, ⟨hN, hW, hS, hE⟩, ⟨hnw, hns, hne, hws, hwe, hse⟩, -⟩ := hb
  simp only [directions, List.mem_cons, List.mem_singleton, List.not_mem_nil, or_false]
    at h1 hx
  unfold diagonal
  simp only [List.mem_cons, List.mem_singleton, List.not_mem_nil, or_false, exists_eq_or_imp,
    exists_eq_left]
  rcases h1 with rfl | rfl | rfl | rfl
  · rw [mN] at hm
    rcases hx with rfl | rfl | rfl | rfl
    · rw [hW, hE, hN] at hm
      rcases submask_pow _ _ _ hm with h | h <;> omega
    · exact Or.inl (Or.inl rfl)
    · rw [hW, hE, hS] at hm
      rcases submask_pow _ _ _ hm with h | h <;> omega
    · exact Or.inl (Or.inr rfl)
  · rw [mW] at hm
    rcases hx with rfl | rfl | rfl | rfl
    · exact Or.inl (Or.inl (Nat.lor_comm _ _))
    · rw [hN, hS, hW] at hm
      rcases submask_pow _ _ _ hm with h | h <;> omega
    · exact Or.inr (Or.inl (Nat.lor_comm _ _))
    · rw [hN, hS, hE] at hm
      rcases submask_pow _ _ _ hm with h | h <;> omega
  · rw [mS] at hm
    rcases hx with rfl | rfl | rfl | rfl
    · rw [hW, hE, hN] at hm
      rcases submask_pow _ _ _ hm with h | h <;> omega
    · exact Or.inr (Or.inl rfl)
    · rw [hW, hE, hS] at hm
      rcases submask_pow _ _ _ hm with h | h <;> omega
    · exact Or.inr (Or.inr rfl)
  · rw [mE] at hm
    rcases hx with rfl | rfl | rfl | rfl
    · exact Or.inl (Or.inr (Nat.lor_comm _ _))
    · rw [hN, hS, hW] at hm
      rcases submask_pow _ _ _ hm with h | h <;> omega
    · exact Or.inr (Or.inr (Nat.lor_comm _ _))
    · rw [hN, hS, hE] at hm
      rcases submask_pow _ _ _ hm with h | h <;> omega

/-- A diagonal move is a key-move command, and is neither north-south nor
west-east. -/
theorem diagonal_facts (c : Cmds) (hb : bitcmds c) (r : Nat) (hr : diagonal c r) :
    r ≤ c.CmdKeyMoveLast ∧ r ≠ c.CmdNorth ||| c.CmdSouth ∧ r ≠ c.CmdWest ||| c.CmdEast := by
  obtain ⟨n, w, s, e, ⟨hN, hW, hS, hE⟩, ⟨hnw, hns, hne, hws, hwe, hse⟩, hlast⟩ := hb
  have sub : ∀ a b p q : Nat, (a ||| b) &&& p = p → (a ||| b) &&& q = q →
      p ||| q ≤ a ||| b := by
    intro a b p q hp hq
    have : (a ||| b) &&& (p ||| q) = p ||| q := by
      apply Nat.eq_of_testBit_eq
      intro i
      have hp2 := congrArg (fun z => Nat.testBit z i) hp
      have hq2 := congrArg (fun z => Nat.testBit z i) hq
      simp only [Nat.testBit_and, Nat.testBit_or] at hp2 hq2 ⊢
      revert hp2 hq2
      cases a.testBit i <;> cases b.testBit i <;> cases p.testBit i <;> cases q.testBit i <;>
        simp
    calc p ||| q = (a ||| b) &&& (p ||| q) := this.symm
      _ ≤ a ||| b := Nat.and_le_left
  have inall : ∀ p : Nat, p ∈ directions c →
      (c.CmdNorth ||| c.CmdWest ||| c.CmdSouth ||| c.CmdEast) &&& p = p := by
    intro p hp
    simp only [directions, List.mem_cons, List.mem_singleton, List.not_mem_nil, or_false] at hp
    apply Nat.eq_of_testBit_eq
    intro i
    simp only [Nat.testBit_and, Nat.testBit_or]
    rcases hp with rfl | rfl | rfl | rfl <;>
      cases c.CmdNorth.testBit i <;> cases c.CmdWest.testBit i <;>
        cases c.CmdSouth.testBit i <;> cases c.CmdEast.testBit i <;> rfl
  obtain ⟨v, hv, h, hh, rfl⟩ := hr
  have hvd : v ∈ directions c := by
    simp only [List.mem_cons, List.mem_singleton, List.not_mem_nil, or_false] at hv
    rcases hv with rfl | rfl <;> simp [directions]
  have hhd : h ∈ directions c := by
    simp only [List.mem_cons, List.mem_singleton, List.not_mem_nil, or_false] at hh
    rcases hh with rfl | rfl <;> simp [directions]
  refine ⟨le_trans (sub _ _ v h (inall v hvd) (inall h hhd)) hlast, ?_, ?_⟩
  · simp only [List.mem_cons, List.mem_singleton, List.not_mem_nil, or_false] at hv hh
    rw [Nat.lor_comm v h]
    rcases hh with rfl | rfl <;> rcases hv with rfl | rfl <;>
      simp only [hN, hW, hS, hE] <;> apply lor_pow_ne <;> omega
  · simp only [List.mem_cons, List.mem_singleton, List.not_mem_nil, or_false] at hv hh
    rcases hh with rfl | rfl <;> rcases hv with rfl | rfl <;>
      simp only [hN, hW, hS, hE] <;> apply lor_pow_ne <;> omega

/-- The union of the two horizontal and that of the two vertical direction
commands are key-move commands. -/
theorem pairs_le (c : Cmds) (hb : bitcmds c) :
    c.CmdWest ||| c.CmdEast ≤ c.CmdKeyMoveLast ∧ c.CmdNorth ||| c.CmdSouth ≤ c.CmdKeyMoveLast := by
  obtain ⟨n, w, s, e, -, -, hlast⟩ := hb
  have e1 : (c.CmdNorth ||| c.CmdWest ||| c.CmdSouth ||| c.CmdEast)
      &&& (c.CmdWest ||| c.CmdEast) = c.CmdWest ||| c.CmdEast := by
    apply Nat.eq_of_testBit_eq
    intro i
    simp only [Nat.testBit_and, Nat.testBit_or]
    cases c.CmdNorth.testBit i <;> cases c.CmdWest.testBit i <;>
      cases c.CmdSouth.testBit i <;> cases c.CmdEast.testBit i <;> rfl
  have e2 : (c.CmdNorth ||| c.CmdWest ||| c.CmdSouth ||| c.CmdEast)
      &&& (c.CmdNorth ||| c.CmdSouth) = c.CmdNorth ||| c.CmdSouth := by
    apply Nat.eq_of_testBit_eq
    intro i
    simp only [Nat.testBit_and, Nat.testBit_or]
    cases c.CmdNorth.testBit i <;> cases c.CmdWest.testBit i <;>
      cases c.CmdSouth.testBit i <;> cases c.CmdEast.testBit i <;> rfl
  constructor
  · calc c.CmdWest ||| c.CmdEast
        = (c.CmdNorth ||| c.CmdWest ||| c.CmdSouth ||| c.CmdEast)
          &&& (c.CmdWest ||| c.CmdEast) := e1.symm
      _ ≤ c.CmdNorth ||| c.CmdWest ||| c.CmdSouth ||| c.CmdEast := Nat.and_le_left
      _ ≤ c.CmdKeyMoveLast := hlast
  · calc c.CmdNorth ||| c.CmdSouth
        = (c.CmdNorth ||| c.CmdWest ||| c.CmdSouth ||| c.CmdEast)
          &&& (c.CmdNorth ||| c.CmdSouth) := e2.symm
      _ ≤ c.CmdNorth ||| c.CmdWest ||| c.CmdSouth ||| c.CmdEast := Nat.and_le_left
      _ ≤ c.CmdKeyMoveLast := hlast

/-- The traced scan with the merge table of `_sdlinputinitialize`: a return
from the merge branch is a diagonal move, and every index at which the merge
table is read lies in 1..`CmdKeyMoveLast`. -/
theorem scantrace_inv (c : Cmds) (j : Bool) (ks : Nat → KeyState) (hb : bitcmds c)
    (l : List keycmdmap) (hl : movetable c l) :
    ∀ (cmd1 cmd : Nat) (lf : Bool) (log : List Nat),
      (cmd1 = 0 ∨ cmd1 ∈ directions c) → (∀ i ∈ log, 1 ≤ i ∧ i ≤ c.CmdKeyMoveLast) →
      ((scantrace c j ( _sdlinputinitialize c (initialState c)).mergeable ks l cmd1 cmd lf
          log).merged = true →
        ∃ r, (scantrace c j ( _sdlinputinitialize c (initialState c)).mergeable ks l cmd1 cmd
          lf log).result = .ret r ∧ diagonal c r)
      ∧ ∀ i ∈ (scantrace c j ( _sdlinputinitialize c (initialState c)).mergeable ks l cmd1
          cmd lf log).lookups, 1 ≤ i ∧ i ≤ c.CmdKeyMoveLast := by
  induction l with
  | nil =>
    intro cmd1 cmd lf log _ hlog
    exact ⟨fun h => by simp [scantrace] at h, hlog⟩
  | cons kc rest ih =>
    have hrest : movetable c rest := fun e he => hl e (List.mem_cons_of_mem _ he)
    have ih := ih hrest
    intro cmd1 cmd lf log h1 hlog
    rw [scantrace_cons]
    by_cases hz : kc.scancode = 0
    · simp only [hz, if_true]
      exact ⟨fun h => by simp at h, hlog⟩
    obtain ⟨hk0, hkd⟩ := hl kc (List.mem_cons_self _ _) hz
    simp only [hz, if_false]
    by_cases ha : asserted ks kc
    · simp only [ha, if_true]
      by_cases hc0 : cmd1 = 0
      · simp only [hc0, if_true]
        by_cases hj : j = false ∨ kc.cmd > c.CmdKeyMoveLast
        · rw [if_pos hj]
          exact ⟨fun h => by simp at h, hlog⟩
        · rw [if_neg hj]
          have hle : kc.cmd ≤ c.CmdKeyMoveLast := by
            by_contra hgt
            exact hj (Or.inr (by omega))
          have hdir := hkd hle
          have hlog2 : ∀ i ∈ kc.cmd :: log, 1 ≤ i ∧ i ≤ c.CmdKeyMoveLast := by
            intro i hi
            rcases List.mem_cons.1 hi with rfl | hi
            · exact directions_range c hb _ hdir
            · exact hlog i hi
          by_cases hm0 : ( _sdlinputinitialize c (initialState c)).mergeable kc.cmd = 0
          · rw [if_pos hm0]
            exact ⟨fun h => by simp at h, hlog2⟩
          · rw [if_neg hm0]
            exact ih _ _ _ _ (Or.inr hdir) hlog2
      · simp only [hc0, if_false]
        have hdir1 : cmd1 ∈ directions c := by
          rcases h1 with h | h
          · exact absurd h hc0
          · exact h
        by_cases hle : cmd1 ≤ c.CmdKeyMoveLast
        · rw [if_pos hle]
          have hlog2 : ∀ i ∈ cmd1 :: log, 1 ≤ i ∧ i ≤ c.CmdKeyMoveLast := by
            intro i hi
            rcases List.mem_cons.1 hi with rfl | hi
            · exact directions_range c hb _ hdir1
            · exact hlog i hi
          by_cases hmg : (( _sdlinputinitialize c (initialState c)).mergeable cmd1 &&& kc.cmd)
              = kc.cmd
          · rw [if_pos hmg]
            refine ⟨fun _ => ⟨cmd1 ||| kc.cmd, rfl, ?_⟩, hlog2⟩
            have hsub : kc.cmd ≤ ( _sdlinputinitialize c (initialState c)).mergeable cmd1 := by
              rw [← hmg]
              exact Nat.and_le_left
            have hmne : ( _sdlinputinitialize c (initialState c)).mergeable cmd1 ≠ 0 := by
              intro h0
              rw [h0] at hsub
              exact hk0 (by omega)
            obtain ⟨mN, mS, mW, mE⟩ := mergeable_init c (initialState c)
              (bitcmds_dircmds c hb)
            have hmle : ( _sdlinputinitialize c (initialState c)).mergeable cmd1
                ≤ c.CmdKeyMoveLast := by
              obtain ⟨-, ⟨nl, wl, sl, el⟩, -⟩ := bitcmds_dircmds c hb
              have hd := hdir1
              simp only [directions, List.mem_cons, List.mem_singleton, List.not_mem_nil,
                or_false] at hd
              obtain ⟨hwe, hns⟩ := pairs_le c hb
              rcases hd with rfl | rfl | rfl | rfl
              · rw [mN]; exact hwe
              · rw [mW]; exact hns
              · rw [mS]; exact hwe
              · rw [mE]; exact hns
            exact merge_diagonal c hb cmd1 kc.cmd hdir1 (hkd (le_trans hsub hmle)) hmg
          · rw [if_neg hmg]
            exact ih _ _ _ _ (Or.inr hdir1) hlog2
        · rw [if_neg hle]
          exact ih _ _ _ _ (Or.inr hdir1) hlog
    · simp only [ha, if_false]
      split_ifs
      · exact ih _ _ _ _ h1 hlog
      · exact ih _ _ _ _ h1 hlog
      · exact ih _ _ _ _ h1 hlog

/-- C19: with the merge table as set by `_sdlinputinitialize`, the four
direction commands distinct single bits within `CmdKeyMoveLast`, and every
other command of the table above `CmdKeyMoveLast`: whenever the scan returns
from the merge branch, the value is the union of one vertical and one
horizontal direction command, so it is neither north-south nor west-east and
does not exceed `CmdKeyMoveLast`; and the merge table is only ever read at an
index in 1..`CmdKeyMoveLast`. -/
theorem C19_merge_is_diagonal (c : Cmds) (joystickstyle : Bool) (keystates : Nat → KeyState)
    (table : List keycmdmap) (lingerflag : Bool) (hb : bitcmds c) (ht : movetable c table) :
    (scantrace c joystickstyle ( _sdlinputinitialize c (initialState c)).mergeable keystates
        table 0 0 lingerflag []).result
      = scankeys c joystickstyle ( _sdlinputinitialize c (initialState c)).mergeable keystates
        table 0 0 lingerflag
    ∧ ((scantrace c joystickstyle ( _sdlinputinitialize c (initialState c)).mergeable keystates
        table 0 0 lingerflag []).merged = true →
      ∃ r, scankeys c joystickstyle ( _sdlinputinitialize c (initialState c)).mergeable
          keystates table 0 0 lingerflag = .ret r
        ∧ diagonal c r ∧ r ≤ c.CmdKeyMoveLast
        ∧ r ≠ c.CmdNorth ||| c.CmdSouth ∧ r ≠ c.CmdWest ||| c.CmdEast)
    ∧ ∀ i ∈ (scantrace c joystickstyle ( _sdlinputinitialize c (initialState c)).mergeable
        keystates table 0 0 lingerflag []).lookups, 1 ≤ i ∧ i ≤ c.CmdKeyMoveLast := by
  have hres := scantrace_result c joystickstyle
    ( _sdlinputinitialize c (initialState c)).mergeable keystates table 0 0 lingerflag []
  obtain ⟨h1, h2⟩ := scantrace_inv c joystickstyle keystates hb table ht 0 0 lingerflag []
    (Or.inl rfl) (fun i hi => by simp at hi)
  refine ⟨hres, ?_, h2⟩
  intro hm
  obtain ⟨r, hr, hd⟩ := h1 hm
  obtain ⟨f1, f2, f3⟩ := diagonal_facts c hb r hd
  exact ⟨r, by rw [← hres]; exact hr, hd, f1, f2, f3⟩

set_option maxRecDepth 100000 in
/-- C19 witness: joystick style, up and right down on the game table: the
scan returns from the merge branch after reading the merge table twice at
`CmdNorth`. -/
theorem C19_witness :
    bitcmds sampleCmds ∧ movetable sampleCmds (gamekeycmds sampleCmds)
    ∧ ((scantrace sampleCmds true
          ( _sdlinputinitialize sampleCmds (initialState sampleCmds)).mergeable
          (keysOf [(SDL_SCANCODE_UP, KS_DOWN), (SDL_SCANCODE_RIGHT, KS_DOWN)])
          (gamekeycmds sampleCmds) 0 0 false []).merged = true
      ∧ (scantrace sampleCmds true
          ( _sdlinputinitialize sampleCmds (initialState sampleCmds)).mergeable
          (keysOf [(SDL_SCANCODE_UP, KS_DOWN), (SDL_SCANCODE_RIGHT, KS_DOWN)])
          (gamekeycmds sampleCmds) 0 0 false []).lookups
          = [sampleCmds.CmdNorth, sampleCmds.CmdNorth])
    ∧ ((scantrace sampleCmds true
          ( _sdlinputinitialize sampleCmds (initialState sampleCmds)).mergeable
          (keysOf [(SDL_SCANCODE_UP, KS_DOWN), (SDL_SCANCODE_RIGHT, KS_DOWN)])
          (gamekeycmds sampleCmds) 0 0 false []).result
        = scankeys sampleCmds true
          ( _sdlinputinitialize sampleCmds (initialState sampleCmds)).mergeable
          (keysOf [(SDL_SCANCODE_UP, KS_DOWN), (SDL_SCANCODE_RIGHT, KS_DOWN)])
          (gamekeycmds sampleCmds) 0 0 false
      ∧ ((scantrace sampleCmds true
          ( _sdlinputinitialize sampleCmds (initialState sampleCmds)).mergeable
          (keysOf [(SDL_SCANCODE_UP, KS_DOWN), (SDL_SCANCODE_RIGHT, KS_DOWN)])
          (gamekeycmds sampleCmds) 0 0 false []).merged = true →
        ∃ r, scankeys sampleCmds true
            ( _sdlinputinitialize sampleCmds (initialState sampleCmds)).mergeable
            (keysOf [(SDL_SCANCODE_UP, KS_DOWN), (SDL_SCANCODE_RIGHT, KS_DOWN)])
            (gamekeycmds sampleCmds) 0 0 false = .ret r
          ∧ diagonal sampleCmds r ∧ r ≤ sampleCmds.CmdKeyMoveLast
          ∧ r ≠ sampleCmds.CmdNorth ||| sampleCmds.CmdSouth
          ∧ r ≠ sampleCmds.CmdWest ||| sampleCmds.CmdEast)
      ∧ ∀ i ∈ (scantrace sampleCmds true
          ( _sdlinputinitialize sampleCmds (initialState sampleCmds)).mergeable
          (keysOf [(SDL_SCANCODE_UP, KS_DOWN), (SDL_SCANCODE_RIGHT, KS_DOWN)])
          (gamekeycmds sampleCmds) 0 0 false []).lookups,
          1 ≤ i ∧ i ≤ sampleCmds.CmdKeyMoveLast) :=
  ⟨⟨0, 1, 2, 3, ⟨rfl, rfl, rfl, rfl⟩, by decide, by decide⟩, by decide,
    ⟨by decide, by decide⟩,
    C19_merge_is_diagonal sampleCmds true
      (keysOf [(SDL_SCANCODE_UP, KS_DOWN), (SDL_SCANCODE_RIGHT, KS_DOWN)])
      (gamekeycmds sampleCmds) false ⟨0, 1, 2, 3, ⟨rfl, rfl, rfl, rfl⟩, by decide, by decide⟩
      (by decide)⟩

/-- In `quitExample` the Q key is the only active key besides the shift key. -/
theorem quitExample_alone : alone quitExample.keystates SDL_SCANCODE_Q := by
  intro n hn hs
  have h229 : n ≠ 229 := by
    intro h
    subst h
    exact absurd hs (by decide)
  have hk : keysOf [(SDL_SCANCODE_RSHIFT, KS_ON)] n = KS_OFF := by
    simp [keysOf, List.find?_cons, Ne.symm h229]
  show Function.update (resetkeystates false (keysOf [(SDL_SCANCODE_RSHIFT, KS_ON)]))
    SDL_SCANCODE_Q KS_PRESSED n = KS_OFF
  rw [Function.update_noteq hn]
  simp only [resetkeystates, hk, Bool.false_eq_true, if_false]
  split_ifs <;> rfl

/-- C13 witness: keyboard style, right shift on and Q pressed: the entry
`Q, shift` is considered and the poll returns `CmdQuit`. -/
theorem C13_witness :
    modssteady quitExample.keystates
    ∧ (⟨SDL_SCANCODE_Q, 1, 0, 0, sampleCmds.CmdQuit, false⟩ : keycmdmap).scancode ≠ 0
    ∧ quitExample.keystates
        (⟨SDL_SCANCODE_Q, 1, 0, 0, sampleCmds.CmdQuit, false⟩ : keycmdmap).scancode ≠ KS_OFF
    ∧ scankeys sampleCmds false quitExample.mergeable quitExample.keystates
        [⟨SDL_SCANCODE_Q, 1, 0, 0, sampleCmds.CmdQuit, false⟩] 0 0 false
      = (if specmet quitExample.keystates ⟨SDL_SCANCODE_Q, 1, 0, 0, sampleCmds.CmdQuit, false⟩
        then considered sampleCmds false quitExample.mergeable quitExample.keystates
          ⟨SDL_SCANCODE_Q, 1, 0, 0, sampleCmds.CmdQuit, false⟩ [] 0 0 false
        else scankeys sampleCmds false quitExample.mergeable quitExample.keystates [] 0 0 false)
    ∧ input sampleCmds nomap false shiftExample [.key SDL_SCANCODE_Q true] []
      = some ((sampleCmds.CmdQuit : Int), quitExample) :=
  ⟨by decide, by decide, by decide,
    (C13_modifier_requirements sampleCmds false quitExample.mergeable quitExample.keystates
      ⟨SDL_SCANCODE_Q, 1, 0, 0, sampleCmds.CmdQuit, false⟩ [] 0 0 false (by decide) (by decide)
      (by decide)).1,
    (C13_modifier_requirements sampleCmds false quitExample.mergeable quitExample.keystates
      ⟨SDL_SCANCODE_Q, 1, 0, 0, sampleCmds.CmdQuit, false⟩ [] 0 0 false (by decide) (by decide)
      (by decide)).2 nomap false shiftExample quitExample [.key SDL_SCANCODE_Q true] [] rfl rfl
      rfl (by decide) (by decide) (by decide) quitExample_alone (by decide) (by decide)⟩

/-- C16 witness: no entry asserted, Q struck: the scan returns
`CmdQuitLevel` and leaves the variables unchanged. -/
theorem C16_witness :
    (∀ e ∈ entries struckExample.keycmds, e.cmd ≠ 0)
    ∧ (∀ e ∈ entries struckExample.keycmds, ¬ asserted struckExample.keystates e)
    ∧ lastfallback struckExample.keystates (entries struckExample.keycmds)
      = some ⟨SDL_SCANCODE_Q, 0, 0, 0, sampleCmds.CmdQuitLevel, false⟩
    ∧ resolve sampleCmds nomap struckExample false
      = .ret (sampleCmds.CmdQuitLevel : Int) struckExample :=
  ⟨by decide, by decide, by decide,
    (C16_result_precedence sampleCmds nomap struckExample false (by decide)).2.1 (by decide)
      ⟨SDL_SCANCODE_Q, 0, 0, 0, sampleCmds.CmdQuitLevel, false⟩ (by decide)⟩

/-- C17 witness: keyboard style, the up arrow in `KS_DOWNBUTOFF1`: the poll
returns `CmdPreserve`. -/
theorem C17_witness :
    eventupdate (ticked lingerExample) [] = some (ticked lingerExample)
    ∧ (∀ e ∈ entries (ticked lingerExample).keycmds,
        ¬ asserted (ticked lingerExample).keystates e)
    ∧ (∀ e ∈ entries (ticked lingerExample).keycmds,
        ¬ fallback (ticked lingerExample).keystates e)
    ∧ (retrievemousecommand sampleCmds nomap (ticked lingerExample).mouseinfo).1 = 0
    ∧ (∃ e ∈ entries (ticked lingerExample).keycmds, lingers (ticked lingerExample).keystates e)
    ∧ input sampleCmds nomap false lingerExample [] []
      = some (if ∃ e ∈ entries (ticked lingerExample).keycmds,
            lingers (ticked lingerExample).keystates e
            then (sampleCmds.CmdPreserve : Int) else 0,
          { ticked lingerExample with
            mouseinfo :=
              (retrievemousecommand sampleCmds nomap (ticked lingerExample).mouseinfo).2 }) :=
  ⟨rfl, by decide, by decide, by decide, by decide,
    C17_preserve_iff_lingering sampleCmds nomap lingerExample (ticked lingerExample) [] [] rfl
      (by decide) (by decide) (by decide)⟩

/-! ## Settling without events -/

/-- The joystick-style transition table is idempotent. -/
theorem joystick_trans_idem (k : KeyState) :
    joystick_trans (joystick_trans k) = joystick_trans k := by
  cases k <;> rfl

/-- Three keyboard-style transitions lead every state to off, on or down. -/
theorem keyboard_trans_settles (k : KeyState) :
    settled (keyboard_trans (keyboard_trans (keyboard_trans k))) := by
  cases k <;> simp [settled, keyboard_trans]

/-- Both transition tables leave off, on and down as they are. -/
theorem trans_settled (j : Bool) (k : KeyState) (h : settled k) : trans j k = k := by
  rcases h with h | h | h <;> subst h <;> cases j <;> rfl

/-- C21: settling of the per-tick update `resetkeystates` when no event
arrives. Applying the joystick-style update twice gives the same table as
applying it once; after three keyboard-style updates every key of the table is
off, on or down; and a table all of whose keys are off, on or down is left
unchanged by the update under both styles. -/
theorem C21_reset_settles (keystates : Nat → KeyState) :
    resetkeystates true (resetkeystates true keystates) = resetkeystates true keystates
    ∧ (∀ n, n < SDL_NUM_SCANCODES →
        settled (resetkeystates false
          (resetkeystates false (resetkeystates false keystates)) n))
    ∧ ((∀ n, n < SDL_NUM_SCANCODES → settled (keystates n)) →
        ∀ joystickstyle, resetkeystates joystickstyle keystates = keystates) := by
  refine ⟨?_, ?_, ?_⟩
  · funext n
    by_cases hn : n < SDL_NUM_SCANCODES
    · rw [resetkeystates_apply true _ n hn, resetkeystates_apply true _ n hn]
      exact joystick_trans_idem _
    · simp [resetkeystates, hn]
  · intro n hn
    rw [resetkeystates_apply false _ n hn, resetkeystates_apply false _ n hn,
      resetkeystates_apply false _ n hn]
    exact keyboard_trans_settles _
  · intro h j
    funext n
    by_cases hn : n < SDL_NUM_SCANCODES
    · rw [resetkeystates_apply j _ n hn]
      exact trans_settled j _ (h n hn)
    · simp [resetkeystates, hn]

/-- Example table: the up arrow down and the left shift key on. -/
theorem settled_example (n : Nat) :
    settled (keysOf [(SDL_SCANCODE_UP, KS_DOWN), (SDL_SCANCODE_LSHIFT, KS_ON)] n) := by
  by_cases h1 : n = SDL_SCANCODE_UP
  · subst h1; simp [keysOf, settled]
  · by_cases h2 : n = SDL_SCANCODE_LSHIFT
    · subst h2; simp [keysOf, settled]
    · have h1' : ¬ SDL_SCANCODE_UP = n := fun h => h1 h.symm
      have h2' : ¬ SDL_SCANCODE_LSHIFT = n := fun h => h2 h.symm
      simp [keysOf, settled, List.find?, h1', h2']

/-- Instance of C21: a table with the up arrow pressed and the right arrow
repeating is settled at both keys after three keyboard-style updates although
it is not before, and the table with the up arrow down and the left shift key
on is left unchanged by the update under both styles. -/
theorem C21_witness :
    ¬ settled (keysOf [(SDL_SCANCODE_UP, KS_PRESSED), (SDL_SCANCODE_RIGHT, KS_REPEATING)]
        SDL_SCANCODE_UP)
    ∧ resetkeystates true (resetkeystates true
          (keysOf [(SDL_SCANCODE_UP, KS_PRESSED), (SDL_SCANCODE_RIGHT, KS_REPEATING)]))
        = resetkeystates true
          (keysOf [(SDL_SCANCODE_UP, KS_PRESSED), (SDL_SCANCODE_RIGHT, KS_REPEATING)])
    ∧ settled (resetkeystates false (resetkeystates false (resetkeystates false
        (keysOf [(SDL_SCANCODE_UP, KS_PRESSED), (SDL_SCANCODE_RIGHT, KS_REPEATING)])))
        SDL_SCANCODE_UP)
    ∧ (∀ joystickstyle, resetkeystates joystickstyle
          (keysOf [(SDL_SCANCODE_UP, KS_DOWN), (SDL_SCANCODE_LSHIFT, KS_ON)])
        = keysOf [(SDL_SCANCODE_UP, KS_DOWN), (SDL_SCANCODE_LSHIFT, KS_ON)]) :=
  ⟨by decide,
    (C21_reset_settles
      (keysOf [(SDL_SCANCODE_UP, KS_PRESSED), (SDL_SCANCODE_RIGHT, KS_REPEATING)])).1,
    (C21_reset_settles
      (keysOf [(SDL_SCANCODE_UP, KS_PRESSED), (SDL_SCANCODE_RIGHT, KS_REPEATING)])).2.1
      SDL_SCANCODE_UP (by decide),
    (C21_reset_settles
      (keysOf [(SDL_SCANCODE_UP, KS_DOWN), (SDL_SCANCODE_LSHIFT, KS_ON)])).2.2
      (fun n _ => settled_example n)⟩

end Sdlin
